import Mathlib

/-!
# Random Sprays Retinex illumination estimation: `main.cpp`

A shallow embedding of the numeric core of `main.cpp` (Banic and Loncaric, "Using the Random
Sprays Retinex algorithm for global illumination estimation") and proofs about it.

Conventions of the embedding.

* `double` values are elements of an ordered field `K` with a floor function, so all arithmetic
  is exact.  Instantiating `K := ℚ` gives executable definitions, `K := ℝ` the ideal real-number
  semantics.  Rounding of floating-point operations is not modelled.
* A `double` division whose divisor is zero has no value in `K` (the machine yields a NaN or an
  infinity); every function of the embedding that performs such a division returns `none`.
  `none` is also returned where the C++ code has no defined result: an `int` division by zero,
  an out-of-bounds read, an allocation with a negative size.
* `int` values are elements of `ℤ`; C++ integer division is `Int.tdiv` (truncation towards zero).
  The two `int` expressions of `PerformIlluminationEstimation` that can leave the range of a
  32-bit `int`, `rows*rows+cols*cols` and `1000*N`, are checked against that range
  (`intResult`): a signed overflow has no defined result, and with the usual wrap-around
  `1000*N` turns negative and the allocation in `CreateSprays` throws.  Where these two stay in
  range, the grid coordinates and pixel offsets of that function are bounded by `rows*cols` and
  stay in range as well.
* The functions of the C++ standard library and of OpenCV that the code calls
  (`sqrt`, `cos`, `sin`, `cv::RNG`) are parameters of the embedding.
-/

namespace ColorConstancy

/-! ## Control structure -/

/-- The C++ loop `for (int i = 0; i < n; ++i) body(i)` acting on a state of type `σ`. -/
def forLoop {σ : Type} : ℕ → (ℕ → σ → σ) → σ → σ
  | 0, _, s => s
  | n + 1, body, s => body n (forLoop n body s)

/-- The C++ loop `for (int i = 0; i < n; ++i) body(i)` whose body may fail. -/
def forLoopM {σ : Type} : ℕ → (ℕ → σ → Option σ) → σ → Option σ
  | 0, _, s => some s
  | n + 1, body, s => (forLoopM n body s).bind (body n)

/-- The C++ loop `for (int k = 0; k < 3; ++k) body(k)` over the three channels of a pixel. -/
def forChannels {σ : Type} (body : Fin 3 → σ → σ) (s : σ) : σ :=
  body 2 (body 1 (body 0 s))

/-- The channel loop `for (int k = 0; k < 3; ++k) body(k)` whose body may fail. -/
def forChannelsM {σ : Type} (body : Fin 3 → σ → Option σ) (s : σ) : Option σ :=
  ((body 0 s).bind (body 1)).bind (body 2)

/-! ## Data model -/

/-- A block of memory holding values of type `α`, addressed by a non-negative index. -/
structure Buffer (α : Type) where
  get : ℕ → α

/-- The store `buf[p] = v`. -/
@[noinline] def Buffer.set {α : Type} (buf : Buffer α) (p : ℕ) (v : α) : Buffer α :=
  ⟨fun q => if q = p then v else buf.get q⟩

/-- A block of memory whose cells all hold `v`. -/
def Buffer.fill {α : Type} (v : α) : Buffer α :=
  ⟨fun _ => v⟩

/-- The type `cv::Vec3d`: three `double` channels. -/
abbrev Vec3d (K : Type) := Fin 3 → K

/-- The type `cv::Scalar`: four `double` components. -/
abbrev Scalar (K : Type) := Fin 4 → K

/-- The type `cv::Point2i`. -/
structure Point2i where
  x : ℤ
  y : ℤ
  deriving DecidableEq, Repr

/-- The element depths of OpenCV matrices, in the order of their codes `0 .. 6`. -/
inductive Depth
  | CV_8U | CV_8S | CV_16U | CV_16S | CV_32S | CV_32F | CV_64F
  deriving DecidableEq, Repr

/-- The value of `cv::Mat::depth()`. -/
def Depth.code : Depth → ℕ
  | .CV_8U => 0 | .CV_8S => 1 | .CV_16U => 2 | .CV_16S => 3
  | .CV_32S => 4 | .CV_32F => 5 | .CV_64F => 6

/-- A three-channel `cv::Mat`: `data p` is the pixel at flat position `p = i * cols + j`, the
way the code addresses it through a `cv::Vec3d *`.  The channel values are kept in `K` for every
depth. -/
structure Mat (K : Type) where
  rows : ℕ
  cols : ℕ
  depth : Depth
  data : ℕ → Vec3d K

section Definitions

variable {K : Type} [LinearOrderedField K] [FloorRing K]

/-- A `double` division: no value when the divisor is zero. -/
def fdiv (x y : K) : Option K :=
  if y = 0 then none else some (x / y)

/-- The conversion of a `double` to `int`: truncation towards zero. -/
def toInt (x : K) : ℤ :=
  if 0 ≤ x then ⌊x⌋ else ⌈x⌉

/-- OpenCV's `cvRound`: rounding to the nearest integer, ties to the even one. -/
def cvRound (x : K) : ℤ :=
  if x - (⌊x⌋ : K) < 1 / 2 then ⌊x⌋
  else if 1 / 2 < x - (⌊x⌋ : K) then ⌊x⌋ + 1
  else if ⌊x⌋ % 2 = 0 then ⌊x⌋ else ⌊x⌋ + 1

/-- Clamping of an integer to `[lo, hi]`. -/
def clampInt (lo hi z : ℤ) : ℤ :=
  if z < lo then lo else if hi < z then hi else z

/-- OpenCV's `saturate_cast` from `double` to the element type of the given depth: integer
depths round with `cvRound` and clip to the range of the type; the floating depths keep the
value (exact arithmetic). -/
def saturate_cast (d : Depth) (x : K) : K :=
  match d with
  | .CV_8U => (clampInt 0 255 (cvRound x) : ℤ)
  | .CV_8S => (clampInt (-128) 127 (cvRound x) : ℤ)
  | .CV_16U => (clampInt 0 65535 (cvRound x) : ℤ)
  | .CV_16S => (clampInt (-32768) 32767 (cvRound x) : ℤ)
  | .CV_32S => (cvRound x : ℤ)
  | .CV_32F => x
  | .CV_64F => x

/-- The call `m.convertTo(dst, type)` for a three-channel type of depth `d`. -/
def Mat.convertTo (m : Mat K) (d : Depth) : Mat K :=
  { rows := m.rows, cols := m.cols, depth := d, data := fun p c => saturate_cast d (m.data p c) }

/-- A matrix holds values of its own element type. -/
def Mat.WellFormed (m : Mat K) : Prop :=
  ∀ p, p < m.rows * m.cols → ∀ c, saturate_cast m.depth (m.data p c) = m.data p c

instance (m : Mat K) : Decidable m.WellFormed :=
  Nat.decidableBallLT _ _

/-- The assignment `buf[p][c] = v` on a buffer of pixels. -/
def setChannel (buf : Buffer (Vec3d K)) (p : ℕ) (c : Fin 3) (v : K) : Buffer (Vec3d K) :=
  buf.set p (Function.update (buf.get p) c v)

/-! ## `Filter64F` -/

/-- Lines 60-85 of `Filter64F`: the table `s` of `(rows+1)*(cols+1)*cn` doubles.  `s0` is the
content of the freshly allocated array. -/
def integralTable (s0 : Buffer K) (rows cols : ℕ) (data : ℕ → Vec3d K) : Buffer K :=
  let cn := 3
  let s1 := s0.set (1 * (cols + 1) * cn + 1 * cn + 0) (data 0 0)
  let s2 := s1.set (1 * (cols + 1) * cn + 1 * cn + 1) (data 0 1)
  let s3 := s2.set (1 * (cols + 1) * cn + 1 * cn + 2) (data 0 2)
  let s4 := forLoop (rows + 1) (fun i s =>
    forLoop cn (fun j s => s.set (i * (cols + 1) * cn + 0 * cn + j) 0) s) s3
  let s5 := forLoop (cols + 1) (fun i s =>
    forLoop cn (fun j s => s.set (0 * (cols + 1) * cn + i * cn + j) 0) s) s4
  forLoop rows (fun i s =>
    forLoop cols (fun j s =>
      let pixel := data (i * cols + j)
      forChannels (fun k s =>
        s.set ((i + 1) * (cols + 1) * cn + (j + 1) * cn + k)
          (pixel k - s.get (i * (cols + 1) * cn + j * cn + k)
            + s.get (i * (cols + 1) * cn + (j + 1) * cn + k)
            + s.get ((i + 1) * (cols + 1) * cn + j * cn + k))) s) s) s5

/-- The sum of channel `ch` of the pixels `(r, c)` with `r < i` and `c < j`: the value that a
summed-area table holds at `(i, j)`. -/
def areaSum (cols : ℕ) (data : ℕ → Vec3d K) (ch : Fin 3) (i j : ℕ) : K :=
  ∑ r ∈ Finset.range i, ∑ c ∈ Finset.range j, data (r * cols + c) ch

/-- The mean of channel `ch` over the `k x k` window around pixel `(i, j)`, rows
`i - (k-1)/2 .. i + k/2` and columns `j - (k-1)/2 .. j + k/2`, cut to the image: the sum over
the pixels of the window that lie inside the image, divided by their number. -/
def windowMean (rows cols : ℕ) (data : ℕ → Vec3d K) (k : ℕ) (i j : ℕ) (ch : Fin 3) : K :=
  (∑ r ∈ Finset.Ico (i - (k - 1) / 2) (min rows (i + 1 + k / 2)),
    ∑ c ∈ Finset.Ico (j - (k - 1) / 2) (min cols (j + 1 + k / 2)), data (r * cols + c) ch)
  / (((min rows (i + 1 + k / 2) - (i - (k - 1) / 2))
      * (min cols (j + 1 + k / 2) - (j - (k - 1) / 2)) : ℕ) : K)

/-- A read `s[idx]` of an array of `size` doubles at an `int` index. -/
def readArray (s : Buffer K) (size : ℕ) (idx : ℤ) : Option K :=
  if 0 ≤ idx ∧ idx < size then some (s.get idx.toNat) else none

/-- The function `Filter64F(img, result, k)`; the returned matrix is `result`.  On an empty
matrix the code reads the pixel `*data` of an empty buffer: no result.  The fresh array `s` is
taken zero-filled; no entry that is read depends on its initial content
(`integralTable_get` holds for every initial content). -/
def Filter64F (img : Mat K) (k : ℤ) : Option (Mat K) :=
  let rows := img.rows
  let cols := img.cols
  let cn : ℕ := 3
  if rows = 0 ∨ cols = 0 then none
  else
    let size := (rows + 1) * (cols + 1) * cn
    let s := integralTable (Buffer.fill 0) rows cols img.data
    (forChannelsM (fun ch output =>
      forLoopM rows (fun i output =>
        let row : ℤ := i + 1
        let startRow : ℤ := if row - (k - 1).tdiv 2 - 1 < 0 then 0 else row - (k - 1).tdiv 2 - 1
        let endRow : ℤ := if row + k.tdiv 2 > rows then rows else row + k.tdiv 2
        forLoopM cols (fun j output =>
          let col : ℤ := j + 1
          let startCol : ℤ :=
            if col - (k - 1).tdiv 2 - 1 < 0 then 0 else col - (k - 1).tdiv 2 - 1
          let endCol : ℤ := if col + k.tdiv 2 > cols then cols else col + k.tdiv 2
          (readArray s size (endRow * (cols + 1) * cn + endCol * cn + ch)).bind fun a =>
          (readArray s size (endRow * (cols + 1) * cn + startCol * cn + ch)).bind fun b =>
          (readArray s size (startRow * (cols + 1) * cn + endCol * cn + ch)).bind fun c =>
          (readArray s size (startRow * (cols + 1) * cn + startCol * cn + ch)).bind fun d =>
          (fdiv (a - b - c + d) (((endRow - startRow) * (endCol - startCol) : ℤ) : K)).map
            fun v => setChannel output (i * cols + j) ch v) output) output)
      (Buffer.fill (fun _ => 0))).map
      fun output => { rows := rows, cols := cols, depth := Depth.CV_64F, data := output.get }

/-! ## `CreateSprays` -/

/-- The constant `CV_PI` of OpenCV. -/
def CV_PI : K := 3.1415926535897932384626433832795

/-- The function `CreateSprays(spraysCount, spraySize)`.  `rnd t` is the value of the `t`-th call
`random.uniform(0.0, 1.0)` on the local generator; the state of the loops is the number of
draws made so far and the array `sprays`.  A `new` of negative size has no result. -/
def CreateSprays (cos sin : K → K) (rnd : ℕ → K) (spraysCount spraySize : ℤ) :
    Option (Buffer (Buffer Point2i)) :=
  if spraysCount < 0 then none
  else if 0 < spraysCount ∧ spraySize < 0 then none
  else
    some (forLoop spraysCount.toNat (fun i st =>
      forLoop spraySize.toNat (fun j st =>
        let rnd0 := rnd st.1
        let angle := 2 * CV_PI * rnd0
        let r := rnd (st.1 + 1)
        let pt : Point2i := (st.2.get i).get j
        let pt : Point2i := { pt with x := toInt (r * cos angle) }
        let pt : Point2i := { pt with y := toInt (r * sin angle) }
        (st.1 + 2, st.2.set i ((st.2.get i).set j pt)))
        (st.1, st.2.set i (Buffer.fill ⟨0, 0⟩)))
      (0, Buffer.fill (Buffer.fill ⟨0, 0⟩))).2

/-! ## `PerformIlluminationEstimation` -/

/-- The largest value of a 32-bit `int`. -/
def INT_MAX : ℤ := 2147483647

/-- The value of an `int` expression whose exact value is `x`: outside the range of a 32-bit
`int` the expression overflows and has no defined result. -/
def intResult (x : ℤ) : Option ℤ :=
  if -INT_MAX - 1 ≤ x ∧ x ≤ INT_MAX then some x else none

/-- The call `rng.uniform(a, b)` on integers, from the next raw output `raw` of the generator:
`a == b ? a : (int)(next() % (b - a) + a)`. -/
def uniformInt (raw : ℕ) (a b : ℤ) : ℤ :=
  if a = b then a else (raw : ℤ) % (b - a) + a

/-- Lines 227-245: the channel-wise maximum over the pixels hit by one spray around
`(row, col)`; offsets that fall outside the image are skipped. -/
def sprayMax (input : ℕ → Vec3d K) (rows cols : ℕ) (R : ℤ) (spray : Buffer Point2i) (n : ℤ)
    (row col : ℤ) : Vec3d K :=
  forLoop n.toNat (fun j max =>
    let newRow : ℤ := row + R * (spray.get j).y
    let newCol : ℤ := col + R * (spray.get j).x
    if newRow ≥ 0 ∧ newRow < rows ∧ newCol ≥ 0 ∧ newCol < cols then
      let newPoint := input (newRow * cols + newCol).toNat
      forChannels (fun k max =>
        if max k < newPoint k then Function.update max k (newPoint k) else max) max
    else max) (fun _ => 0)

/-- Lines 247-252: a zero maximum is replaced by one and the quotient of the centre pixel by
the maximum is added to the accumulator.  The state is `(max, finalPoint)`. -/
def accumulate (currentPoint : Vec3d K) (st : Vec3d K × Vec3d K) : Option (Vec3d K × Vec3d K) :=
  forChannelsM (fun k st =>
    let max := if st.1 k = 0 then Function.update st.1 k 1 else st.1
    (fdiv (currentPoint k) (max k)).map fun q =>
      (max, Function.update st.2 k (st.2 k + q))) st

/-- Lines 258-266: the loop `for (int i = 0; i < 3; ++i)` with its `break`, run over the listed
channels.  The state is `(finalPoint, *resizedInputPoint)`. -/
def clampLoop : List (Fin 3) → Vec3d K × Vec3d K → Vec3d K × Vec3d K
  | [], st => st
  | i :: rest, st =>
    if st.1 i > 1 then clampLoop rest (Function.update st.1 i 1, st.2)
    else if st.1 i = 0 then (fun _ => 1, fun _ => 0)
    else clampLoop rest st

/-- Lines 258-266 of `PerformIlluminationEstimation`: the clamping step of one grid cell. -/
def clampCell (finalPoint resizedPoint : Vec3d K) : Vec3d K × Vec3d K :=
  clampLoop [0, 1, 2] (finalPoint, resizedPoint)

/-- Lines 212-266: the body of the two grid loops for the cell `(outputRow, outputCol)`.  The
state is the number of draws made on the generator `random` and the buffers of `destination`
and `resizedSource`; `next t` is the `t`-th raw output of the generator. -/
def estimateCell (next : ℕ → ℕ) (input : ℕ → Vec3d K) (rows cols : ℕ) (R : ℤ)
    (sprays : Buffer (Buffer Point2i)) (spraysCount N n rowsStep colsStep : ℤ)
    (outputCols outputRow outputCol : ℕ)
    (st : ℕ × Buffer (Vec3d K) × Buffer (Vec3d K)) :
    Option (ℕ × Buffer (Vec3d K) × Buffer (Vec3d K)) :=
  let row : ℤ := outputRow * rowsStep
  let col : ℤ := outputCol * colsStep
  if row * cols + col < 0 ∨ (rows * cols : ℤ) ≤ row * cols + col then none
  else
    let currentPoint := input (row * cols + col).toNat
    let resized := st.2.2.set (outputRow * outputCols + outputCol) currentPoint
    (forLoopM N.toNat (fun _ acc =>
      let selectedSpray := uniformInt (next acc.1) 0 spraysCount
      let max := sprayMax input rows cols R (sprays.get selectedSpray.toNat) n row col
      (accumulate currentPoint (max, acc.2)).map fun r => (acc.1 + 1, r.2))
      (st.1, fun _ => 0)).bind fun acc =>
    (if (N : K) = 0 then none else some (fun k => acc.2 k / (N : K))).map fun finalPoint =>
      let cl := clampCell finalPoint (resized.get (outputRow * outputCols + outputCol))
      (acc.1, st.2.1.set (outputRow * outputCols + outputCol) cl.1,
        resized.set (outputRow * outputCols + outputCol) cl.2)

/-- Lines 184-269 of `PerformIlluminationEstimation`: the matrices `resizedSource` and
`destination` after the grid loops, in this order.  An overflow of `rows*rows+cols*cols`
(line 187) or of `1000*N` (line 206), an `int` division by zero and a matrix of negative size
have no result.  The two matrices are allocated without initialisation; they are
taken zero-filled, and the loops store to every cell of the grid. -/
def estimationGrid (sqrt cos sin : K → K) (rnd : ℕ → K) (next : ℕ → ℕ) (source : Mat K)
    (N n rowsStep colsStep : ℤ) : Option (Mat K × Mat K) :=
  let rows := source.rows
  let cols := source.cols
  (intResult ((rows * rows + cols * cols : ℕ) : ℤ)).bind fun squares =>
  let R : ℤ := toInt (sqrt (squares : K) + 0.5)
  let converted := source.convertTo Depth.CV_64F
  if rowsStep = 0 ∨ colsStep = 0 then none
  else
    let outputRows : ℤ := (rows : ℤ).tdiv rowsStep
    let outputCols : ℤ := (cols : ℤ).tdiv colsStep
    if outputRows < 0 ∨ outputCols < 0 then none
    else
      (intResult (1000 * N)).bind fun spraysCount =>
      (CreateSprays cos sin rnd spraysCount n).bind fun sprays =>
      (forLoopM outputRows.toNat (fun outputRow st =>
        forLoopM outputCols.toNat (fun outputCol st =>
          estimateCell next converted.data rows cols R sprays spraysCount N n rowsStep colsStep
            outputCols.toNat outputRow outputCol st) st)
        (0, Buffer.fill (fun _ => 0), Buffer.fill (fun _ => 0))).map fun st =>
      ({ rows := outputRows.toNat, cols := outputCols.toNat, depth := Depth.CV_64F,
         data := st.2.2.get },
       { rows := outputRows.toNat, cols := outputCols.toNat, depth := Depth.CV_64F,
         data := st.2.1.get })

/-- The call `cv::divide(a, scale * b, dst)` on matrices of doubles, element by element.
What OpenCV stores for a zero divisor depends on its version (zero, or the IEEE quotient);
here such a division has no result. -/
def divideMat (a : Mat K) (scale : K) (b : Mat K) : Option (Mat K) :=
  (forLoopM (a.rows * a.cols) (fun p buf =>
    forChannelsM (fun c buf =>
      (fdiv (a.data p c) (scale * b.data p c)).map fun v => setChannel buf p c v) buf)
    (Buffer.fill (fun _ => 0))).map fun buf =>
  { rows := a.rows, cols := a.cols, depth := Depth.CV_64F, data := buf.get }

/-- The call `cv::mean(m)`: the mean of every channel over all pixels, the fourth component
being zero; the zero scalar for an empty matrix. -/
def meanMat (m : Mat K) : Scalar K :=
  fun c =>
    if h : c.val < 3 then
      if m.rows * m.cols = 0 then 0
      else (∑ p ∈ Finset.range (m.rows * m.cols), m.data p ⟨c.val, h⟩) / ((m.rows * m.cols : ℕ) : K)
    else 0

/-- Lines 184-281: the scalar `result` returned by `cv::mean(illumination)`, before the channel
swap and the normalisation. -/
def meanIllumination (sqrt cos sin : K → K) (rnd : ℕ → K) (next : ℕ → ℕ) (source : Mat K)
    (N n : ℤ) (upperBound : K) (rowsStep colsStep kernelSize : ℤ) : Option (Scalar K) :=
  (estimationGrid sqrt cos sin rnd next source N n rowsStep colsStep).bind fun g =>
  (if kernelSize > 1 then
      (Filter64F g.1 kernelSize).bind fun rs =>
      (Filter64F g.2 kernelSize).map fun d => (rs, d)
    else some g).bind fun g =>
  (divideMat g.1 upperBound g.2).map fun illumination => meanMat illumination

/-- Lines 282-292: the swap of the first and the third component and the division by the
root of the mean square of the first three components. -/
def normalizeIllumination (sqrt : K → K) (result : Scalar K) : Option (Scalar K) :=
  let c := result 0
  let result := Function.update result 0 (result 2)
  let result := Function.update result 2 c
  let sum := result 0 * result 0 + result 1 * result 1 + result 2 * result 2
  let sum := sum / 3
  let sum := sqrt sum
  if sum = 0 then none else some (fun i => result i / sum)

/-- The function `PerformIlluminationEstimation(source, N, n, upperBound, rowsStep, colsStep,
kernelSize)`.  `rnd` are the draws of the generator of `CreateSprays`, `next` the raw outputs of
the generator `random` of this function. -/
def PerformIlluminationEstimation (sqrt cos sin : K → K) (rnd : ℕ → K) (next : ℕ → ℕ)
    (source : Mat K) (N n : ℤ) (upperBound : K) (rowsStep colsStep kernelSize : ℤ) :
    Option (Scalar K) :=
  (meanIllumination sqrt cos sin rnd next source N n upperBound rowsStep colsStep
    kernelSize).bind (normalizeIllumination sqrt)

/-! ## `RemoveColorCast` -/

/-- The index `2 - k` into a `cv::Scalar`, for a channel `k` of a pixel. -/
def mirrorIndex (k : Fin 3) : Fin 4 :=
  ⟨2 - k.val, by omega⟩

/-- Lines 304-318 of `RemoveColorCast`: the matrix `converted` after the division loops,
before it is converted back to the type of the source. -/
def dividedImage (source : Mat K) (illuminationEstimation : Scalar K) : Option (Mat K) :=
  let rows := source.rows
  let cols := source.cols
  let converted := source.convertTo Depth.CV_64F
  (forLoopM rows (fun i buf =>
    forLoopM cols (fun j buf =>
      forChannelsM (fun k buf =>
        (fdiv (buf.get (i * cols + j) k) (illuminationEstimation (mirrorIndex k))).map
          fun v => setChannel buf (i * cols + j) k v) buf) buf)
    ⟨converted.data⟩).map fun buf => { converted with data := buf.get }

/-- The function `RemoveColorCast(source, destination, illuminationEstimation)`; the returned
matrix is `destination`. -/
def RemoveColorCast (source : Mat K) (illuminationEstimation : Scalar K) : Option (Mat K) :=
  (dividedImage source illuminationEstimation).map fun converted =>
    converted.convertTo source.depth

/-! ## The estimation grid, by name -/

/-- Lines 192-193 of `PerformIlluminationEstimation`: `outputRows = rows / rowsStep` and
`outputCols = cols / colsStep`, divisions of `int`s. -/
def outputSize (size : ℕ) (step : ℤ) : ℤ :=
  (size : ℤ).tdiv step

/-- Lines 212-215: the offset `row * cols + col` of the source pixel of the grid cell
`(outputRow, outputCol)`, with `row = outputRow * rowsStep` and `col = outputCol * colsStep`. -/
def sourceOffset (cols : ℕ) (rowsStep colsStep : ℤ) (outputRow outputCol : ℕ) : ℤ :=
  ((outputRow : ℤ) * rowsStep) * (cols : ℤ) + (outputCol : ℤ) * colsStep

/-- Lines 273-276: the optional smoothing of `resizedSource` and `destination`, in this
order, by `Filter64F`. -/
def smoothGrid (g : Mat K × Mat K) (kernelSize : ℤ) : Option (Mat K × Mat K) :=
  if kernelSize > 1 then
    (Filter64F g.1 kernelSize).bind fun rs =>
    (Filter64F g.2 kernelSize).map fun d => (rs, d)
  else some g

/-! ## `main` -/

/-- The local variables `N`, `n`, `kernelSize`, `r`, `c` and `upperBound` of `main`. -/
structure Arguments (K : Type) where
  N : ℤ
  n : ℤ
  kernelSize : ℤ
  r : ℤ
  c : ℤ
  upperBound : K

/-- The call `sscanf(s, format, &x)` with one conversion: `scan s` is the value that is
stored, `none` when the text does not convert and `x` keeps its value. -/
def scanInto {α : Type} (scan : String → Option α) (s : String) (x : α) : α :=
  (scan s).getD x

/-- Lines 337-369 of `main`: the defaults and the nested reading of the optional command-line
arguments.  `scanInt` and `scanDouble` stand for `sscanf` with `"%d"` and `"%lf"`. -/
def parseArguments (scanInt : String → Option ℤ) (scanDouble : String → Option K) (argc : ℤ)
    (argv : ℕ → String) (img : Mat K) : Arguments K :=
  let a : Arguments K :=
    { N := 1, n := 225, kernelSize := 5, r := 10, c := 10, upperBound := 255 }
  if argc > 3 then
    let a := { a with N := scanInto scanInt (argv 3) a.N }
    if argc > 4 then
      let a := { a with n := scanInto scanInt (argv 4) a.n }
      if argc > 5 then
        let a := { a with kernelSize := scanInto scanInt (argv 5) a.kernelSize }
        if argc > 6 then
          let a := { a with r := scanInto scanInt (argv 6) a.r }
          if argc > 7 then
            let a := { a with c := scanInto scanInt (argv 7) a.c }
            if argc > 8 then
              { a with upperBound := scanInto scanDouble (argv 8) a.upperBound }
            else if img.depth.code = 2 then
              { a with upperBound := 65535 }
            else a
          else a
        else a
      else a
    else a
  else a

/-- The function `main(argc, argv)`: the result is the image handed to `imwrite`, `none` when
nothing is written (usage message, empty image) or the written image is not defined in the
embedding.  `imread` stands for `cv::imread` with the flags of the code. -/
def main (scanInt : String → Option ℤ) (scanDouble : String → Option K)
    (imread : String → Mat K) (sqrt cos sin : K → K) (rnd : ℕ → K) (next : ℕ → ℕ) (argc : ℤ)
    (argv : ℕ → String) : Option (Mat K) :=
  if argc < 3 then none
  else
    let img := imread (argv 1)
    if img.rows * img.cols = 0 then none
    else
      let a := parseArguments scanInt scanDouble argc argv img
      (PerformIlluminationEstimation sqrt cos sin rnd next img a.N a.n a.upperBound a.r a.c
        a.kernelSize).bind fun illuminationEstimation =>
      RemoveColorCast img illuminationEstimation

end Definitions

/-! ## Sample inputs

Concrete rational stand-ins for the library functions, used to instantiate the theorems. -/

/-- A sample cosine on `ℚ`: the polynomial `1 - a^2/2` cut to `[-1, 1]`. -/
def sampleCos (a : ℚ) : ℚ :=
  max (-1) (min 1 (1 - a * a / 2))

/-- A sample sine on `ℚ`: the identity cut to `[-1, 1]`. -/
def sampleSin (a : ℚ) : ℚ :=
  max (-1) (min 1 a)

/-- A sample sequence of uniform draws in `[0, 1)`. -/
def sampleRnd (t : ℕ) : ℚ :=
  ((t * 7 + 3) % 10 : ℕ) / 10

/-- A sample sequence of raw generator outputs. -/
def sampleNext (t : ℕ) : ℕ :=
  t * 7919 + 13

/-- A sample 8-bit image with a red bias: at every pixel the red channel (channel 2) is
twice the green and the blue channel. -/
def sampleRedImage : Mat ℚ :=
  { rows := 20, cols := 20, depth := Depth.CV_8U,
    data := fun p c => if c = 2 then 2 * ((p % 100 : ℕ) + 1) else ((p % 100 : ℕ) + 1) }

/-- A sample square root on `ℚ`, exact on the squares of rationals: the integer square roots
of numerator and denominator. -/
def sampleSqrt (q : ℚ) : ℚ :=
  (Nat.sqrt q.num.toNat : ℚ) / (Nat.sqrt q.den : ℚ)

section

/-! ## Loops -/

theorem forLoop_succ {σ : Type} (n : ℕ) (body : ℕ → σ → σ) (s : σ) :
    forLoop (n + 1) body s = body n (forLoop n body s) := rfl

/-- Invariant rule for `forLoop`. -/
theorem forLoop_invariant {σ : Type} (P : ℕ → σ → Prop) (n : ℕ) (body : ℕ → σ → σ) (s : σ)
    (h0 : P 0 s) (hstep : ∀ i, i < n → ∀ t, P i t → P (i + 1) (body i t)) :
    P n (forLoop n body s) := by
  induction n with
  | zero => exact h0
  | succ n ih =>
    rw [forLoop_succ]
    exact hstep n (Nat.lt_succ_self n) _
      (ih fun i hi t ht => hstep i (Nat.lt_succ_of_lt hi) t ht)

/-- A loop whose body fails exactly at the indices outside `ok`, whatever the state. -/
theorem forLoopM_eq {σ : Type} (ok : ℕ → Prop) [DecidablePred ok] (n : ℕ)
    (body : ℕ → σ → Option σ) (f : ℕ → σ → σ) (s : σ)
    (h : ∀ i, i < n → ∀ t, body i t = if ok i then some (f i t) else none) :
    forLoopM n body s = if ∀ i, i < n → ok i then some (forLoop n f s) else none := by
  induction n with
  | zero => simp [forLoopM, forLoop]
  | succ n ih =>
    have ih' := ih fun i hi t => h i (Nat.lt_succ_of_lt hi) t
    simp only [forLoopM, ih']
    by_cases hall : ∀ i, i < n → ok i
    · rw [if_pos hall, Option.some_bind, h n (Nat.lt_succ_self n)]
      by_cases hn : ok n
      · have : ∀ i, i < n + 1 → ok i := by
          intro i hi
          rcases Nat.lt_succ_iff_lt_or_eq.mp hi with h1 | h1
          · exact hall i h1
          · exact h1 ▸ hn
        rw [if_pos hn, if_pos this, forLoop_succ]
      · have : ¬ ∀ i, i < n + 1 → ok i := fun hh => hn (hh n (Nat.lt_succ_self n))
        rw [if_neg hn, if_neg this]
    · have : ¬ ∀ i, i < n + 1 → ok i := fun hh => hall fun i hi => hh i (Nat.lt_succ_of_lt hi)
      rw [if_neg hall, if_neg this, Option.none_bind]

/-- A loop whose body never fails. -/
theorem forLoopM_pure {σ : Type} (n : ℕ) (body : ℕ → σ → Option σ) (f : ℕ → σ → σ) (s : σ)
    (h : ∀ i, i < n → ∀ t, body i t = some (f i t)) :
    forLoopM n body s = some (forLoop n f s) := by
  have := forLoopM_eq (fun _ => True) n body f s (fun i hi t => by simp [h i hi t])
  simpa using this

theorem forChannelsM_pure {σ : Type} (body : Fin 3 → σ → Option σ) (f : Fin 3 → σ → σ) (s : σ)
    (h : ∀ k t, body k t = some (f k t)) :
    forChannelsM body s = some (forChannels f s) := by
  simp [forChannelsM, forChannels, h]

/-! ## Buffers -/

@[simp] theorem Buffer.get_set {α : Type} (buf : Buffer α) (p : ℕ) (v : α) (q : ℕ) :
    (buf.set p v).get q = if q = p then v else buf.get q := rfl

@[simp] theorem Buffer.get_fill {α : Type} (v : α) (q : ℕ) : (Buffer.fill v).get q = v := rfl

theorem grid_index_inj {cols i j i' j' : ℕ} (hj : j < cols) (hj' : j' < cols)
    (h : i * cols + j = i' * cols + j') : i = i' ∧ j = j' := by
  have hc : 0 < cols := Nat.lt_of_le_of_lt (Nat.zero_le _) hj
  have h1 : (i * cols + j) / cols = i := by
    rw [Nat.mul_comm, Nat.mul_add_div hc, Nat.div_eq_of_lt hj, Nat.add_zero]
  have h2 : (i' * cols + j') / cols = i' := by
    rw [Nat.mul_comm, Nat.mul_add_div hc, Nat.div_eq_of_lt hj', Nat.add_zero]
  have hi : i = i' := by rw [← h1, ← h2, h]
  subst hi
  exact ⟨rfl, Nat.add_left_cancel h⟩

theorem grid_index_lt {rows cols i j : ℕ} (hi : i < rows) (hj : j < cols) :
    i * cols + j < rows * cols := by
  calc i * cols + j < i * cols + cols := Nat.add_lt_add_left hj _
    _ = (i + 1) * cols := by ring
    _ ≤ rows * cols := Nat.mul_le_mul_right _ hi

/-- Two nested loops over a `rows x cols` grid whose body rewrites the cell `i * cols + j` of
a view of the state and leaves the rest of the view alone: afterwards every cell of the grid
has been rewritten once and the cells outside the grid are untouched. -/
theorem grid_loops {σ α : Type} (view : σ → ℕ → α) (rows cols : ℕ) (body : ℕ → ℕ → σ → σ)
    (F : ℕ → ℕ → α → α)
    (hbody : ∀ i j s, i < rows → j < cols → ∀ q,
      view (body i j s) q = if q = i * cols + j then F i j (view s q) else view s q)
    (s : σ) :
    (∀ i j, i < rows → j < cols →
      view (forLoop rows (fun i s => forLoop cols (fun j s => body i j s) s) s) (i * cols + j)
        = F i j (view s (i * cols + j))) ∧
    (∀ q, rows * cols ≤ q →
      view (forLoop rows (fun i s => forLoop cols (fun j s => body i j s) s) s) q = view s q) := by
  -- the inner loop over the columns of row `i`
  have inner : ∀ i, i < rows → ∀ t : σ, ∀ c, c ≤ cols →
      (∀ j, j < c → view (forLoop c (fun j s => body i j s) t) (i * cols + j)
          = F i j (view t (i * cols + j))) ∧
      (∀ q, (∀ j, j < c → q ≠ i * cols + j) →
          view (forLoop c (fun j s => body i j s) t) q = view t q) := by
    intro i hi t c
    induction c with
    | zero => intro _; exact ⟨fun j hj => absurd hj (Nat.not_lt_zero _), fun q _ => rfl⟩
    | succ c ih =>
      intro hc
      have hc' : c < cols := hc
      obtain ⟨ih1, ih2⟩ := ih (Nat.le_of_lt hc')
      refine ⟨fun j hj => ?_, fun q hq => ?_⟩
      · rw [forLoop_succ, hbody i c _ hi hc']
        rcases Nat.lt_succ_iff_lt_or_eq.mp hj with h1 | h1
        · have hne : i * cols + j ≠ i * cols + c := by omega
          rw [if_neg hne, ih1 j h1]
        · subst h1
          rw [if_pos rfl, ih2 _ (fun j' hj' => by omega)]
      · rw [forLoop_succ, hbody i c _ hi hc', if_neg (hq c (Nat.lt_succ_self c))]
        exact ih2 q fun j hj => hq j (Nat.lt_succ_of_lt hj)
  -- the outer loop over the rows
  have outer : ∀ r, r ≤ rows →
      (∀ i j, i < r → j < cols →
        view (forLoop r (fun i s => forLoop cols (fun j s => body i j s) s) s) (i * cols + j)
          = F i j (view s (i * cols + j))) ∧
      (∀ q, r * cols ≤ q →
        view (forLoop r (fun i s => forLoop cols (fun j s => body i j s) s) s) q = view s q) := by
    intro r
    induction r with
    | zero => intro _; exact ⟨fun i j hi => absurd hi (Nat.not_lt_zero _), fun q _ => rfl⟩
    | succ r ih =>
      intro hr
      have hr' : r < rows := hr
      obtain ⟨ih1, ih2⟩ := ih (Nat.le_of_lt hr')
      obtain ⟨in1, in2⟩ := inner r hr'
        (forLoop r (fun i s => forLoop cols (fun j s => body i j s) s) s) cols (Nat.le_refl _)
      refine ⟨fun i j hi hj => ?_, fun q hq => ?_⟩
      · rw [forLoop_succ]
        rcases Nat.lt_succ_iff_lt_or_eq.mp hi with h1 | h1
        · rw [in2 _ (fun j' hj' heq => ?_), ih1 i j h1 hj]
          have := (grid_index_inj hj hj' heq).1
          omega
        · subst h1
          rw [in1 j hj, ih2 _ (Nat.le_add_right _ _)]
      · rw [forLoop_succ, in2 q (fun j' hj' heq => ?_)]
        · exact ih2 q (le_trans (Nat.mul_le_mul_right _ (Nat.le_succ r)) hq)
        · have : r * cols + j' < (r + 1) * cols := by
            have : (r + 1) * cols = r * cols + cols := by ring
            omega
          omega
  exact outer rows (Nat.le_refl _)

end

section

variable {K : Type} [LinearOrderedField K]

theorem fdiv_of_ne {x y : K} (h : y ≠ 0) : fdiv x y = some (x / y) := by
  simp [fdiv, h]

theorem fdiv_zero (x : K) : fdiv x 0 = none := by
  simp [fdiv]

theorem exists_channel_iff (P : Fin 3 → Prop) : (∃ c, P c) ↔ P 0 ∨ P 1 ∨ P 2 := by
  constructor
  · rintro ⟨c, hc⟩
    fin_cases c
    · exact Or.inl hc
    · exact Or.inr (Or.inl hc)
    · exact Or.inr (Or.inr hc)
  · rintro (h | h | h) <;> exact ⟨_, h⟩

theorem forall_channel_iff (P : Fin 3 → Prop) : (∀ c, P c) ↔ P 0 ∧ P 1 ∧ P 2 := by
  constructor
  · intro h; exact ⟨h 0, h 1, h 2⟩
  · rintro ⟨h0, h1, h2⟩ c
    fin_cases c
    · exact h0
    · exact h1
    · exact h2

theorem vec3_ext {α : Type} {v w : Fin 3 → α} (h0 : v 0 = w 0) (h1 : v 1 = w 1) (h2 : v 2 = w 2) : v = w := by
  funext c
  fin_cases c
  · exact h0
  · exact h1
  · exact h2

/-- The clamping loop of a grid cell in closed form. -/
theorem clampCell_eq (raw src : Vec3d K) :
    clampCell raw src =
      if ∃ c, raw c = 0 then ((fun _ => 1), (fun _ => 0))
      else ((fun c => min (raw c) 1), src) := by
  have h01 : (0 : Fin 3) ≠ 1 := by decide
  have h02 : (0 : Fin 3) ≠ 2 := by decide
  have h12 : (1 : Fin 3) ≠ 2 := by decide
  unfold clampCell
  simp only [clampLoop, exists_channel_iff]
  by_cases a0 : raw 0 > 1 <;> by_cases a1 : raw 1 > 1 <;> by_cases a2 : raw 2 > 1 <;>
  by_cases b0 : raw 0 = 0 <;> by_cases b1 : raw 1 = 0 <;> by_cases b2 : raw 2 = 0 <;>
  simp [a0, a1, a2, b0, b1, b2, Function.update, h01, h02, h12, h01.symm, h02.symm, h12.symm] <;>
  (apply vec3_ext <;> simp [min_def] <;> split_ifs <;> linarith)

end

section

variable {K : Type} [LinearOrderedField K]

theorem grid_index_exists {rows cols p : ℕ} (hp : p < rows * cols) :
    ∃ i j, i < rows ∧ j < cols ∧ p = i * cols + j := by
  have hc : 0 < cols := by
    rcases Nat.eq_zero_or_pos cols with h | h
    · subst h; simp at hp
    · exact h
  refine ⟨p / cols, p % cols, ?_, Nat.mod_lt _ hc, ?_⟩
  · exact Nat.div_lt_of_lt_mul (by rwa [Nat.mul_comm] at hp)
  · rw [Nat.mul_comm]; exact (Nat.div_add_mod p cols).symm

theorem saturate_cast_64F (x : K) [FloorRing K] : saturate_cast Depth.CV_64F x = x := rfl

/-- The three channel stores of one pixel. -/
theorem forChannels_setChannel {K : Type} (g : Fin 3 → K → K) (p : ℕ) (buf : Buffer (Vec3d K)) (q : ℕ) :
    (forChannels (fun k b => setChannel b p k (g k (b.get p k))) buf).get q =
      if q = p then (fun k => g k (buf.get q k)) else buf.get q := by
  have h01 : (0 : Fin 3) ≠ 1 := by decide
  have h02 : (0 : Fin 3) ≠ 2 := by decide
  have h12 : (1 : Fin 3) ≠ 2 := by decide
  by_cases hq : q = p
  · subst hq
    simp only [forChannels, setChannel, Buffer.get_set, if_true]
    apply vec3_ext <;>
      simp [Function.update, h01, h02, h12, h01.symm, h02.symm, h12.symm]
  · simp [forChannels, setChannel, Buffer.get_set, hq]

/-- The division loops of `RemoveColorCast` in closed form. -/
theorem dividedImage_eq [FloorRing K] (source : Mat K) (ill : Scalar K)
    (h : ∀ k : Fin 3, ill (mirrorIndex k) ≠ 0) :
    ∃ d, dividedImage source ill = some d ∧ d.rows = source.rows ∧ d.cols = source.cols ∧
      d.depth = Depth.CV_64F ∧
      ∀ i j, i < source.rows → j < source.cols → ∀ k : Fin 3,
        d.data (i * source.cols + j) k =
          source.data (i * source.cols + j) k / ill (mirrorIndex k) := by
  obtain ⟨rows, cols, depth, data⟩ := source
  simp only
  let g : Fin 3 → K → K := fun k x => x / ill (mirrorIndex k)
  let cell : ℕ → ℕ → Buffer (Vec3d K) → Buffer (Vec3d K) := fun i j s =>
    forChannels (fun k b => setChannel b (i * cols + j) k (g k (b.get (i * cols + j) k))) s
  have hchan : ∀ (i j : ℕ) (buf : Buffer (Vec3d K)),
      forChannelsM (fun k buf =>
        (fdiv (buf.get (i * cols + j) k) (ill (mirrorIndex k))).map
          fun v => setChannel buf (i * cols + j) k v) buf
      = some (cell i j buf) := by
    intro i j buf
    refine forChannelsM_pure _
      (fun k b => setChannel b (i * cols + j) k (g k (b.get (i * cols + j) k))) buf ?_
    intro k t
    rw [fdiv_of_ne (h k), Option.map_some']
  have hloops : ∀ buf : Buffer (Vec3d K),
      forLoopM rows (fun i buf =>
        forLoopM cols (fun j buf =>
          forChannelsM (fun k buf =>
            (fdiv (buf.get (i * cols + j) k) (ill (mirrorIndex k))).map
              fun v => setChannel buf (i * cols + j) k v) buf) buf) buf
      = some (forLoop rows (fun i s => forLoop cols (fun j s => cell i j s) s) buf) := by
    intro buf
    refine forLoopM_pure rows _ (fun i s => forLoop cols (fun j s => cell i j s) s) buf ?_
    intro i _ t
    refine forLoopM_pure cols _ (fun j s => cell i j s) t ?_
    intro j _ t'
    exact hchan i j t'
  obtain ⟨g1, _⟩ := grid_loops (fun b : Buffer (Vec3d K) => b.get) rows cols cell
    (fun _ _ old => fun k => g k (old k))
    (fun i j s _ _ q => forChannels_setChannel g _ s q)
    ⟨fun p c => saturate_cast Depth.CV_64F (data p c)⟩
  refine ⟨⟨rows, cols, Depth.CV_64F, (forLoop rows (fun i s => forLoop cols (fun j s =>
    cell i j s) s) ⟨fun p c => saturate_cast Depth.CV_64F (data p c)⟩).get⟩, ?_, ?_⟩
  · unfold dividedImage
    simp only [Mat.convertTo, hloops, Option.map_some']
  · refine ⟨rfl, rfl, rfl, fun i j hi hj k => ?_⟩
    have := congrFun (g1 i j hi hj) k
    simpa [g, saturate_cast_64F] using this

end

section

variable {K : Type} [LinearOrderedField K]

theorem cvRound_intCast [FloorRing K] (z : ℤ) : cvRound (z : K) = z := by
  simp [cvRound]

/-- `RemoveColorCast` is the division loop followed by the conversion to the source depth. -/
theorem removeColorCast_eq [FloorRing K] (source : Mat K) (ill : Scalar K)
    (h : ∀ k : Fin 3, ill (mirrorIndex k) ≠ 0) :
    ∃ d, dividedImage source ill = some d ∧
      RemoveColorCast source ill = some (d.convertTo source.depth) ∧
      d.rows = source.rows ∧ d.cols = source.cols ∧
      ∀ i j, i < source.rows → j < source.cols → ∀ k : Fin 3,
        d.data (i * source.cols + j) k = source.data (i * source.cols + j) k / ill (mirrorIndex k) := by
  obtain ⟨d, hd, hr, hc, _, hdata⟩ := dividedImage_eq source ill h
  exact ⟨d, hd, by simp [RemoveColorCast, hd], hr, hc, hdata⟩

/-- Dividing by the illumination `(1, 1, 1)` and converting back gives the source. -/
theorem removeColorCast_unit [FloorRing K] (source : Mat K) (hwf : source.WellFormed) :
    ∃ destination, RemoveColorCast source ![1, 1, 1, 0] = some destination ∧
      destination.rows = source.rows ∧ destination.cols = source.cols ∧
      destination.depth = source.depth ∧
      ∀ i j, i < source.rows → j < source.cols → ∀ k : Fin 3,
        destination.data (i * source.cols + j) k = source.data (i * source.cols + j) k := by
  have h : ∀ k : Fin 3, (![1, 1, 1, 0] : Scalar K) (mirrorIndex k) ≠ 0 := by
    intro k
    fin_cases k <;> simp [mirrorIndex]
  have hone : ∀ k : Fin 3, (![1, 1, 1, 0] : Scalar K) (mirrorIndex k) = 1 := by
    intro k
    fin_cases k <;> simp [mirrorIndex]
  obtain ⟨d, _, hres, _, _, hdata⟩ := removeColorCast_eq source ![1, 1, 1, 0] h
  refine ⟨d.convertTo source.depth, hres, by simpa [Mat.convertTo], by simpa [Mat.convertTo],
    rfl, fun i j hi hj k => ?_⟩
  simp only [Mat.convertTo]
  rw [hdata i j hi hj k, hone k, div_one]
  exact hwf _ (grid_index_lt hi hj) k

/-- C10: the clamping step of a grid cell, applied to the raw estimate `raw` (the accumulator
divided by `N`) and the source pixel `src` stored in the resized-source cell: if some channel
of `raw` is exactly `0` the destination cell becomes `(1, 1, 1)` and the resized-source cell
`(0, 0, 0)`; otherwise every destination channel becomes `min(raw, 1)` and the resized-source
cell keeps the source pixel. -/
theorem clampCell_spec (raw src : Vec3d K) :
    clampCell raw src =
      if ∃ c, raw c = 0 then ((fun _ => 1), (fun _ => 0))
      else ((fun c => min (raw c) 1), src) :=
  clampCell_eq raw src

end

section

variable {K : Type} [LinearOrderedField K]

/-! ## The summed-area table of `Filter64F` -/

/-- Loops that only store zeros keep every zero cell and zero every cell they address. -/
theorem zero_loops {α : Type} [Zero α] (n m : ℕ) (idx : ℕ → ℕ → ℕ) (s : Buffer α) :
    (∀ q, s.get q = 0 →
      (forLoop n (fun i s => forLoop m (fun j s => s.set (idx i j) 0) s) s).get q = 0) ∧
    (∀ i j, i < n → j < m →
      (forLoop n (fun i s => forLoop m (fun j s => s.set (idx i j) 0) s) s).get (idx i j) = 0) := by
  refine forLoop_invariant
    (fun r t => (∀ q, s.get q = 0 → t.get q = 0) ∧ ∀ i j, i < r → j < m → t.get (idx i j) = 0)
    n _ s ⟨fun _ h => h, fun i j hi => absurd hi (Nat.not_lt_zero _)⟩ ?_
  intro r _ t ⟨ht1, ht2⟩
  have inner := forLoop_invariant
    (fun c u => (∀ q, t.get q = 0 → u.get q = 0) ∧ ∀ j, j < c → u.get (idx r j) = 0)
    m (fun j s => s.set (idx r j) 0) t ⟨fun _ h => h, fun j hj => absurd hj (Nat.not_lt_zero _)⟩
    (by
      intro c _ u ⟨hu1, hu2⟩
      refine ⟨fun q hq => ?_, fun j hj => ?_⟩
      · rw [Buffer.get_set]; split_ifs
        · rfl
        · exact hu1 q hq
      · rw [Buffer.get_set]; split_ifs with h
        · rfl
        · rcases Nat.lt_succ_iff_lt_or_eq.mp hj with h1 | h1
          · exact hu2 j h1
          · exact absurd (by rw [h1]) h)
  obtain ⟨in1, in2⟩ := inner
  refine ⟨fun q hq => in1 q (ht1 q hq), fun i j hi hj => ?_⟩
  rcases Nat.lt_succ_iff_lt_or_eq.mp hi with h1 | h1
  · exact in1 _ (ht2 i j h1 hj)
  · subst h1; exact in2 j hj

/-- Three stores at distinct cells, each value computed from cells that are not stored to. -/
theorem forChannels_set (s : Buffer K) (t : Fin 3 → ℕ) (ht : Function.Injective t)
    (v : Fin 3 → Buffer K → K)
    (hv : ∀ k (u : Buffer K), (∀ q, (∀ c, q ≠ t c) → u.get q = s.get q) → v k u = v k s) :
    (∀ k, (forChannels (fun k s => s.set (t k) (v k s)) s).get (t k) = v k s) ∧
    (∀ q, (∀ c, q ≠ t c) → (forChannels (fun k s => s.set (t k) (v k s)) s).get q = s.get q) := by
  have h01 : t 0 ≠ t 1 := fun h => absurd (ht h) (by decide)
  have h02 : t 0 ≠ t 2 := fun h => absurd (ht h) (by decide)
  have h12 : t 1 ≠ t 2 := fun h => absurd (ht h) (by decide)
  have e0 : v 0 s = v 0 s := rfl
  have e1 : v 1 (s.set (t 0) (v 0 s)) = v 1 s := hv 1 _ fun q hq => by
    simp [Buffer.get_set, hq 0]
  have e2 : v 2 ((s.set (t 0) (v 0 s)).set (t 1) (v 1 (s.set (t 0) (v 0 s)))) = v 2 s :=
    hv 2 _ fun q hq => by simp [Buffer.get_set, hq 0, hq 1]
  refine ⟨fun k => ?_, fun q hq => ?_⟩
  · fin_cases k
    · simp [forChannels, Buffer.get_set, h01, h02]
    · simp [forChannels, Buffer.get_set, h12, e1]
    · simp [forChannels, Buffer.get_set, e2]
  · simp [forChannels, Buffer.get_set, hq 0, hq 1, hq 2]

/-- The position of entry `(i, j)`, channel `k`, in the table `s`. -/
theorem table_index_inj {cols a b a' b' : ℕ} {k k' : Fin 3} (hb : b ≤ cols) (hb' : b' ≤ cols)
    (h : a * (cols + 1) * 3 + b * 3 + k.val = a' * (cols + 1) * 3 + b' * 3 + k'.val) :
    a = a' ∧ b = b' ∧ k = k' := by
  have hk := k.isLt
  have hk' := k'.isLt
  have h1 : a * (cols + 1) + b = a' * (cols + 1) + b' := by omega
  have h2 : k.val = k'.val := by omega
  obtain ⟨h3, h4⟩ := grid_index_inj (Nat.lt_succ_of_le hb) (Nat.lt_succ_of_le hb') h1
  exact ⟨h3, h4, Fin.ext h2⟩

theorem areaSum_zero_left (cols : ℕ) (data : ℕ → Vec3d K) (ch : Fin 3) (j : ℕ) :
    areaSum cols data ch 0 j = 0 := by
  simp [areaSum]

theorem areaSum_zero_right (cols : ℕ) (data : ℕ → Vec3d K) (ch : Fin 3) (i : ℕ) :
    areaSum cols data ch i 0 = 0 := by
  simp [areaSum]

theorem areaSum_succ (cols : ℕ) (data : ℕ → Vec3d K) (ch : Fin 3) (i j : ℕ) :
    areaSum cols data ch (i + 1) (j + 1) =
      data (i * cols + j) ch - areaSum cols data ch i j + areaSum cols data ch i (j + 1)
        + areaSum cols data ch (i + 1) j := by
  simp only [areaSum, Finset.sum_range_succ, Finset.sum_add_distrib]
  ring

end

section

variable {K : Type} [LinearOrderedField K]

/-- One step of the inner table loop of `Filter64F`: the entry `(r + 1, c + 1)` is filled
from its three neighbours. -/
theorem table_step (cols : ℕ) (data : ℕ → Vec3d K) (rows r c : ℕ) (hr : r < rows)
    (hc : c < cols) (u : Buffer K)
    (hu : ∀ a b (k : Fin 3), a ≤ rows → b ≤ cols → (a ≤ r ∨ b = 0 ∨ (a = r + 1 ∧ b ≤ c)) →
      u.get (a * (cols + 1) * 3 + b * 3 + k.val) = areaSum cols data k a b) :
    ∀ a b (k : Fin 3), a ≤ rows → b ≤ cols → (a ≤ r ∨ b = 0 ∨ (a = r + 1 ∧ b ≤ c + 1)) →
      (forChannels (fun (k : Fin 3) (s : Buffer K) =>
        s.set ((r + 1) * (cols + 1) * 3 + (c + 1) * 3 + k.val)
          (data (r * cols + c) k - s.get (r * (cols + 1) * 3 + c * 3 + k.val)
            + s.get (r * (cols + 1) * 3 + (c + 1) * 3 + k.val)
            + s.get ((r + 1) * (cols + 1) * 3 + c * 3 + k.val))) u).get
        (a * (cols + 1) * 3 + b * 3 + k.val) = areaSum cols data k a b := by
  let t : Fin 3 → ℕ := fun k => (r + 1) * (cols + 1) * 3 + (c + 1) * 3 + k.val
  let v : Fin 3 → Buffer K → K := fun k s =>
    data (r * cols + c) k - s.get (r * (cols + 1) * 3 + c * 3 + k.val)
      + s.get (r * (cols + 1) * 3 + (c + 1) * 3 + k.val)
      + s.get ((r + 1) * (cols + 1) * 3 + c * 3 + k.val)
  have ht : Function.Injective t := by
    intro k k' h
    exact (table_index_inj (Nat.succ_le_of_lt hc) (Nat.succ_le_of_lt hc) h).2.2
  have hne1 : ∀ k c' : Fin 3, r * (cols + 1) * 3 + c * 3 + k.val ≠ t c' := by
    intro k c' h
    have := (table_index_inj (Nat.le_of_lt hc) (Nat.succ_le_of_lt hc) h).1
    omega
  have hne2 : ∀ k c' : Fin 3, r * (cols + 1) * 3 + (c + 1) * 3 + k.val ≠ t c' := by
    intro k c' h
    have := (table_index_inj (Nat.succ_le_of_lt hc) (Nat.succ_le_of_lt hc) h).1
    omega
  have hne3 : ∀ k c' : Fin 3, (r + 1) * (cols + 1) * 3 + c * 3 + k.val ≠ t c' := by
    intro k c' h
    have := (table_index_inj (Nat.le_of_lt hc) (Nat.succ_le_of_lt hc) h).2.1
    omega
  have hv : ∀ k (w : Buffer K), (∀ q, (∀ c', q ≠ t c') → w.get q = u.get q) → v k w = v k u := by
    intro k w hw
    simp only [v]
    rw [hw _ (hne1 k), hw _ (hne2 k), hw _ (hne3 k)]
  obtain ⟨f1, f2⟩ := forChannels_set u t ht v hv
  intro a b k ha hb hdone
  by_cases hab : a = r + 1 ∧ b = c + 1
  · obtain ⟨rfl, rfl⟩ := hab
    have := f1 k
    simp only [t, v] at this
    rw [this, hu r c k (Nat.le_of_lt hr) (Nat.le_of_lt hc) (Or.inl (Nat.le_refl _)),
      hu r (c + 1) k (Nat.le_of_lt hr) hb (Or.inl (Nat.le_refl _)),
      hu (r + 1) c k ha (Nat.le_of_lt hc) (Or.inr (Or.inr ⟨rfl, Nat.le_refl _⟩)),
      areaSum_succ]
  · have hq : ∀ c', a * (cols + 1) * 3 + b * 3 + k.val ≠ t c' := by
      intro c' h
      have := table_index_inj hb (Nat.succ_le_of_lt hc) h
      exact hab ⟨this.1, this.2.1⟩
    have := f2 _ hq
    simp only [t, v] at this
    rw [this]
    refine hu a b k ha hb ?_
    rcases hdone with h | h | h
    · exact Or.inl h
    · exact Or.inr (Or.inl h)
    · refine Or.inr (Or.inr ⟨h.1, ?_⟩)
      have : b ≠ c + 1 := fun hh => hab ⟨h.1, hh⟩
      omega

/-- The table built by `Filter64F` holds at `(i, j)` the sum of the pixels above and to the
left of `(i, j)`, whatever the content of the fresh array. -/
theorem integralTable_get (s0 : Buffer K) (rows cols : ℕ) (data : ℕ → Vec3d K) (i j : ℕ)
    (hi : i ≤ rows) (hj : j ≤ cols) (k : Fin 3) :
    (integralTable s0 rows cols data).get (i * (cols + 1) * 3 + j * 3 + k.val)
      = areaSum cols data k i j := by
  unfold integralTable
  simp only []
  generalize ((s0.set (1 * (cols + 1) * 3 + 1 * 3 + 0) (data 0 0)).set
    (1 * (cols + 1) * 3 + 1 * 3 + 1) (data 0 1)).set
    (1 * (cols + 1) * 3 + 1 * 3 + 2) (data 0 2) = s3
  obtain ⟨_, z4⟩ := zero_loops (rows + 1) 3 (fun i j => i * (cols + 1) * 3 + 0 * 3 + j) s3
  obtain ⟨z5a, z5b⟩ := zero_loops (cols + 1) 3 (fun i j => 0 * (cols + 1) * 3 + i * 3 + j)
    (forLoop (rows + 1) (fun i s =>
      forLoop 3 (fun j s => s.set (i * (cols + 1) * 3 + 0 * 3 + j) 0) s) s3)
  generalize forLoop (cols + 1) (fun i s =>
      forLoop 3 (fun j s => s.set (0 * (cols + 1) * 3 + i * 3 + j) 0) s)
    (forLoop (rows + 1) (fun i s =>
      forLoop 3 (fun j s => s.set (i * (cols + 1) * 3 + 0 * 3 + j) 0) s) s3) = s5 at z5a z5b
  have border : ∀ a b (c : Fin 3), a ≤ rows → b ≤ cols → (a ≤ 0 ∨ b = 0) →
      s5.get (a * (cols + 1) * 3 + b * 3 + c.val) = areaSum cols data c a b := by
    intro a b c ha hb h0
    rcases h0 with h | h
    · have ha0 : a = 0 := Nat.le_zero.mp h
      subst ha0
      rw [areaSum_zero_left]
      exact z5b b c.val (Nat.lt_succ_of_le hb) c.isLt
    · subst h
      rw [areaSum_zero_right]
      exact z5a _ (z4 a c.val (Nat.lt_succ_of_le ha) c.isLt)
  have main := forLoop_invariant
    (fun r (s : Buffer K) => ∀ a b (c : Fin 3), a ≤ rows → b ≤ cols → (a ≤ r ∨ b = 0) →
      s.get (a * (cols + 1) * 3 + b * 3 + c.val) = areaSum cols data c a b)
    rows
    (fun i s => forLoop cols (fun j s =>
      forChannels (fun (k : Fin 3) (s : Buffer K) =>
        s.set ((i + 1) * (cols + 1) * 3 + (j + 1) * 3 + k.val)
          (data (i * cols + j) k - s.get (i * (cols + 1) * 3 + j * 3 + k.val)
            + s.get (i * (cols + 1) * 3 + (j + 1) * 3 + k.val)
            + s.get ((i + 1) * (cols + 1) * 3 + j * 3 + k.val))) s) s)
    s5 border
    (by
      intro r hr s hs
      have inner := forLoop_invariant
        (fun c (u : Buffer K) => ∀ a b (k : Fin 3), a ≤ rows → b ≤ cols →
          (a ≤ r ∨ b = 0 ∨ (a = r + 1 ∧ b ≤ c)) →
          u.get (a * (cols + 1) * 3 + b * 3 + k.val) = areaSum cols data k a b)
        cols
        (fun j s => forChannels (fun (k : Fin 3) (s : Buffer K) =>
          s.set ((r + 1) * (cols + 1) * 3 + (j + 1) * 3 + k.val)
            (data (r * cols + j) k - s.get (r * (cols + 1) * 3 + j * 3 + k.val)
              + s.get (r * (cols + 1) * 3 + (j + 1) * 3 + k.val)
              + s.get ((r + 1) * (cols + 1) * 3 + j * 3 + k.val))) s)
        s
        (by
          intro a b k ha hb h
          refine hs a b k ha hb ?_
          rcases h with h | h | h
          · exact Or.inl h
          · exact Or.inr h
          · exact Or.inr (Nat.le_zero.mp h.2))
        (fun c hc u hu => table_step cols data rows r c hr hc u hu)
      intro a b c ha hb h
      refine inner a b c ha hb ?_
      rcases h with h | h
      · rcases Nat.lt_or_ge a (r + 1) with h1 | h1
        · exact Or.inl (Nat.le_of_lt_succ h1)
        · exact Or.inr (Or.inr ⟨Nat.le_antisymm h h1, hb⟩)
      · exact Or.inr (Or.inl h))
  exact main i j k hi hj (Or.inl hi)

end

section

variable {K : Type} [LinearOrderedField K]

/-- For a kernel size `k ≥ 1` the clamped window bounds of `Filter64F` are natural numbers. -/
theorem window_bounds (k : ℤ) (hk : 1 ≤ k) (m x : ℕ) :
    (if (x : ℤ) + 1 - (k - 1).tdiv 2 - 1 < 0 then 0 else (x : ℤ) + 1 - (k - 1).tdiv 2 - 1)
      = ((x - (k.toNat - 1) / 2 : ℕ) : ℤ) ∧
    (if (x : ℤ) + 1 + k.tdiv 2 > m then (m : ℤ) else (x : ℤ) + 1 + k.tdiv 2)
      = ((min m (x + 1 + k.toNat / 2) : ℕ) : ℤ) := by
  rw [Int.tdiv_eq_ediv (by omega) (by omega), Int.tdiv_eq_ediv (by omega) (by omega)]
  constructor
  · split_ifs <;> omega
  · split_ifs <;> omega

theorem table_index_lt {rows cols a b : ℕ} (ha : a ≤ rows) (hb : b ≤ cols) (c : Fin 3) :
    a * (cols + 1) * 3 + b * 3 + c.val < (rows + 1) * (cols + 1) * 3 := by
  have h1 : a * (cols + 1) ≤ rows * (cols + 1) := Nat.mul_le_mul_right _ ha
  have h2 : (rows + 1) * (cols + 1) = rows * (cols + 1) + (cols + 1) := by ring
  have hc := c.isLt
  omega

/-- A read of the table of `Filter64F` at an entry `(a, b)` inside the table. -/
theorem readArray_table (s0 : Buffer K) (rows cols : ℕ) (data : ℕ → Vec3d K) (a b : ℕ)
    (ha : a ≤ rows) (hb : b ≤ cols) (c : Fin 3) :
    readArray (integralTable s0 rows cols data) ((rows + 1) * (cols + 1) * 3)
      ((a : ℤ) * ((cols : ℤ) + 1) * ((3 : ℕ) : ℤ) + (b : ℤ) * ((3 : ℕ) : ℤ) + ((c.val : ℕ) : ℤ))
      = some (areaSum cols data c a b) := by
  have hidx : (a : ℤ) * ((cols : ℤ) + 1) * ((3 : ℕ) : ℤ) + (b : ℤ) * ((3 : ℕ) : ℤ)
      + ((c.val : ℕ) : ℤ) = ((a * (cols + 1) * 3 + b * 3 + c.val : ℕ) : ℤ) := by
    push_cast; ring
  rw [hidx]
  unfold readArray
  have hlt := table_index_lt ha hb c
  rw [if_pos ⟨Int.natCast_nonneg _, by exact_mod_cast hlt⟩, Int.toNat_natCast,
    integralTable_get s0 rows cols data a b ha hb c]

/-- Inclusion-exclusion on the summed-area table gives the sum over a rectangle. -/
theorem areaSum_rect (cols : ℕ) (data : ℕ → Vec3d K) (ch : Fin 3) {a a' b b' : ℕ}
    (ha : a ≤ a') (hb : b ≤ b') :
    areaSum cols data ch a' b' - areaSum cols data ch a' b - areaSum cols data ch a b'
      + areaSum cols data ch a b
      = ∑ r ∈ Finset.Ico a a', ∑ c ∈ Finset.Ico b b', data (r * cols + c) ch := by
  have inner : ∀ r, ∑ c ∈ Finset.Ico b b', data (r * cols + c) ch
      = ∑ c ∈ Finset.range b', data (r * cols + c) ch
        - ∑ c ∈ Finset.range b, data (r * cols + c) ch :=
    fun r => Finset.sum_Ico_eq_sub _ hb
  simp only [inner, Finset.sum_sub_distrib, Finset.sum_Ico_eq_sub _ ha, areaSum]
  ring

/-- The value that `Filter64F` stores for pixel `(i, j)`, channel `ch`, when `k ≥ 1`: the sum
over the clamped window divided by its area. -/
theorem filterPixel_eq (s0 : Buffer K) (rows cols : ℕ) (data : ℕ → Vec3d K) (k : ℤ)
    (hk : 1 ≤ k) (i j : ℕ) (hi : i < rows) (hj : j < cols) (ch : Fin 3)
    (output : Buffer (Vec3d K)) :
    ((readArray (integralTable s0 rows cols data) ((rows + 1) * (cols + 1) * 3)
        ((if (i : ℤ) + 1 + k.tdiv 2 > rows then (rows : ℤ) else (i : ℤ) + 1 + k.tdiv 2)
            * ((cols : ℤ) + 1) * ((3 : ℕ) : ℤ)
          + (if (j : ℤ) + 1 + k.tdiv 2 > cols then (cols : ℤ) else (j : ℤ) + 1 + k.tdiv 2)
            * ((3 : ℕ) : ℤ) + ((ch.val : ℕ) : ℤ))).bind fun a =>
      (readArray (integralTable s0 rows cols data) ((rows + 1) * (cols + 1) * 3)
        ((if (i : ℤ) + 1 + k.tdiv 2 > rows then (rows : ℤ) else (i : ℤ) + 1 + k.tdiv 2)
            * ((cols : ℤ) + 1) * ((3 : ℕ) : ℤ)
          + (if (j : ℤ) + 1 - (k - 1).tdiv 2 - 1 < 0 then 0
              else (j : ℤ) + 1 - (k - 1).tdiv 2 - 1) * ((3 : ℕ) : ℤ)
          + ((ch.val : ℕ) : ℤ))).bind fun b =>
      (readArray (integralTable s0 rows cols data) ((rows + 1) * (cols + 1) * 3)
        ((if (i : ℤ) + 1 - (k - 1).tdiv 2 - 1 < 0 then 0
              else (i : ℤ) + 1 - (k - 1).tdiv 2 - 1) * ((cols : ℤ) + 1) * ((3 : ℕ) : ℤ)
          + (if (j : ℤ) + 1 + k.tdiv 2 > cols then (cols : ℤ) else (j : ℤ) + 1 + k.tdiv 2)
            * ((3 : ℕ) : ℤ) + ((ch.val : ℕ) : ℤ))).bind fun c =>
      (readArray (integralTable s0 rows cols data) ((rows + 1) * (cols + 1) * 3)
        ((if (i : ℤ) + 1 - (k - 1).tdiv 2 - 1 < 0 then 0
              else (i : ℤ) + 1 - (k - 1).tdiv 2 - 1) * ((cols : ℤ) + 1) * ((3 : ℕ) : ℤ)
          + (if (j : ℤ) + 1 - (k - 1).tdiv 2 - 1 < 0 then 0
              else (j : ℤ) + 1 - (k - 1).tdiv 2 - 1) * ((3 : ℕ) : ℤ)
          + ((ch.val : ℕ) : ℤ))).bind fun d =>
      (fdiv (a - b - c + d)
        ((((if (i : ℤ) + 1 + k.tdiv 2 > rows then (rows : ℤ) else (i : ℤ) + 1 + k.tdiv 2)
            - (if (i : ℤ) + 1 - (k - 1).tdiv 2 - 1 < 0 then 0
                else (i : ℤ) + 1 - (k - 1).tdiv 2 - 1))
          * ((if (j : ℤ) + 1 + k.tdiv 2 > cols then (cols : ℤ) else (j : ℤ) + 1 + k.tdiv 2)
            - (if (j : ℤ) + 1 - (k - 1).tdiv 2 - 1 < 0 then 0
                else (j : ℤ) + 1 - (k - 1).tdiv 2 - 1)) : ℤ) : K)).map
        fun v => setChannel output (i * cols + j) ch v)
    = some (setChannel output (i * cols + j) ch
        ((∑ r ∈ Finset.Ico (i - (k.toNat - 1) / 2) (min rows (i + 1 + k.toNat / 2)),
            ∑ c ∈ Finset.Ico (j - (k.toNat - 1) / 2) (min cols (j + 1 + k.toNat / 2)),
              data (r * cols + c) ch)
          / (((min rows (i + 1 + k.toNat / 2) - (i - (k.toNat - 1) / 2))
              * (min cols (j + 1 + k.toNat / 2) - (j - (k.toNat - 1) / 2)) : ℕ) : K))) := by
  obtain ⟨hsr, her⟩ := window_bounds k hk rows i
  obtain ⟨hsc, hec⟩ := window_bounds k hk cols j
  rw [hsr, her, hsc, hec]
  have h1 : i - (k.toNat - 1) / 2 < min rows (i + 1 + k.toNat / 2) := by omega
  have h2 : j - (k.toNat - 1) / 2 < min cols (j + 1 + k.toNat / 2) := by omega
  have h3 : min rows (i + 1 + k.toNat / 2) ≤ rows := Nat.min_le_left _ _
  have h4 : min cols (j + 1 + k.toNat / 2) ≤ cols := Nat.min_le_left _ _
  rw [readArray_table s0 rows cols data _ _ h3 h4 ch,
    readArray_table s0 rows cols data _ _ h3 (le_trans (Nat.le_of_lt h2) h4) ch,
    readArray_table s0 rows cols data _ _ (le_trans (Nat.le_of_lt h1) h3) h4 ch,
    readArray_table s0 rows cols data _ _ (le_trans (Nat.le_of_lt h1) h3)
      (le_trans (Nat.le_of_lt h2) h4) ch]
  simp only [Option.some_bind]
  have hden : ((((min rows (i + 1 + k.toNat / 2) : ℕ) : ℤ) - ((i - (k.toNat - 1) / 2 : ℕ) : ℤ))
      * (((min cols (j + 1 + k.toNat / 2) : ℕ) : ℤ) - ((j - (k.toNat - 1) / 2 : ℕ) : ℤ)) : ℤ)
      = (((min rows (i + 1 + k.toNat / 2) - (i - (k.toNat - 1) / 2))
          * (min cols (j + 1 + k.toNat / 2) - (j - (k.toNat - 1) / 2)) : ℕ) : ℤ) := by
    rw [Nat.cast_mul, Nat.cast_sub (Nat.le_of_lt h1), Nat.cast_sub (Nat.le_of_lt h2)]
  rw [hden, Int.cast_natCast]
  have hpos : 0 < (min rows (i + 1 + k.toNat / 2) - (i - (k.toNat - 1) / 2))
      * (min cols (j + 1 + k.toNat / 2) - (j - (k.toNat - 1) / 2)) :=
    Nat.mul_pos (by omega) (by omega)
  have hne : (((min rows (i + 1 + k.toNat / 2) - (i - (k.toNat - 1) / 2))
      * (min cols (j + 1 + k.toNat / 2) - (j - (k.toNat - 1) / 2)) : ℕ) : K) ≠ 0 :=
    Nat.cast_ne_zero.mpr (Nat.pos_iff_ne_zero.mp hpos)
  rw [fdiv_of_ne hne, Option.map_some',
    areaSum_rect cols data ch (Nat.le_of_lt h1) (Nat.le_of_lt h2)]

end

section

variable {K : Type} [LinearOrderedField K]

theorem setChannel_get {K : Type} (buf : Buffer (Vec3d K)) (p : ℕ) (c : Fin 3) (v : K) (q : ℕ) :
    (setChannel buf p c v).get q
      = if q = p then Function.update (buf.get q) c v else buf.get q := by
  unfold setChannel
  rw [Buffer.get_set]
  split_ifs with h
  · rw [h]
  · rfl

/-- `Filter64F` in closed form for a non-empty buffer and a kernel size `k ≥ 1`. -/
theorem Filter64F_eq (img : Mat K) (k : ℤ) (hk : 1 ≤ k) (hr : 0 < img.rows)
    (hc : 0 < img.cols) :
    ∃ out, Filter64F img k = some out ∧ out.rows = img.rows ∧ out.cols = img.cols ∧
      out.depth = Depth.CV_64F ∧
      ∀ i j, i < img.rows → j < img.cols → ∀ ch : Fin 3,
        out.data (i * img.cols + j) ch = windowMean img.rows img.cols img.data k.toNat i j ch := by
  obtain ⟨rows, cols, depth, data⟩ := img
  simp only at hr hc ⊢
  let pass : Fin 3 → Buffer (Vec3d K) → Buffer (Vec3d K) := fun ch output =>
    forLoop rows (fun i s => forLoop cols (fun j s =>
      setChannel s (i * cols + j) ch (windowMean rows cols data k.toNat i j ch)) s) output
  have hpass : ∀ (ch : Fin 3) (i j : ℕ), i < rows → j < cols →
      ∀ output : Buffer (Vec3d K), (pass ch output).get (i * cols + j)
        = Function.update (output.get (i * cols + j)) ch
            (windowMean rows cols data k.toNat i j ch) := by
    intro ch i j hi hj output
    exact (grid_loops (fun b : Buffer (Vec3d K) => b.get) rows cols
      (fun i j s => setChannel s (i * cols + j) ch (windowMean rows cols data k.toNat i j ch))
      (fun i j old => Function.update old ch (windowMean rows cols data k.toNat i j ch))
      (fun i j s _ _ q => setChannel_get s _ ch _ q) output).1 i j hi hj
  refine ⟨⟨rows, cols, Depth.CV_64F, (forChannels pass (Buffer.fill fun _ => 0)).get⟩,
    ?_, rfl, rfl, rfl, ?_⟩
  · unfold Filter64F
    simp only []
    rw [if_neg (by omega)]
    have hM : forChannelsM (fun ch output =>
        forLoopM rows (fun i output =>
          forLoopM cols (fun j output =>
            (readArray (integralTable (Buffer.fill 0) rows cols data)
                ((rows + 1) * (cols + 1) * 3)
                ((if (i : ℤ) + 1 + k.tdiv 2 > rows then (rows : ℤ) else (i : ℤ) + 1 + k.tdiv 2)
                    * ((cols : ℤ) + 1) * ((3 : ℕ) : ℤ)
                  + (if (j : ℤ) + 1 + k.tdiv 2 > cols then (cols : ℤ)
                      else (j : ℤ) + 1 + k.tdiv 2) * ((3 : ℕ) : ℤ)
                  + ((ch.val : ℕ) : ℤ))).bind fun a =>
            (readArray (integralTable (Buffer.fill 0) rows cols data)
                ((rows + 1) * (cols + 1) * 3)
                ((if (i : ℤ) + 1 + k.tdiv 2 > rows then (rows : ℤ) else (i : ℤ) + 1 + k.tdiv 2)
                    * ((cols : ℤ) + 1) * ((3 : ℕ) : ℤ)
                  + (if (j : ℤ) + 1 - (k - 1).tdiv 2 - 1 < 0 then 0
                      else (j : ℤ) + 1 - (k - 1).tdiv 2 - 1) * ((3 : ℕ) : ℤ)
                  + ((ch.val : ℕ) : ℤ))).bind fun b =>
            (readArray (integralTable (Buffer.fill 0) rows cols data)
                ((rows + 1) * (cols + 1) * 3)
                ((if (i : ℤ) + 1 - (k - 1).tdiv 2 - 1 < 0 then 0
                      else (i : ℤ) + 1 - (k - 1).tdiv 2 - 1) * ((cols : ℤ) + 1) * ((3 : ℕ) : ℤ)
                  + (if (j : ℤ) + 1 + k.tdiv 2 > cols then (cols : ℤ)
                      else (j : ℤ) + 1 + k.tdiv 2) * ((3 : ℕ) : ℤ)
                  + ((ch.val : ℕ) : ℤ))).bind fun c =>
            (readArray (integralTable (Buffer.fill 0) rows cols data)
                ((rows + 1) * (cols + 1) * 3)
                ((if (i : ℤ) + 1 - (k - 1).tdiv 2 - 1 < 0 then 0
                      else (i : ℤ) + 1 - (k - 1).tdiv 2 - 1) * ((cols : ℤ) + 1) * ((3 : ℕ) : ℤ)
                  + (if (j : ℤ) + 1 - (k - 1).tdiv 2 - 1 < 0 then 0
                      else (j : ℤ) + 1 - (k - 1).tdiv 2 - 1) * ((3 : ℕ) : ℤ)
                  + ((ch.val : ℕ) : ℤ))).bind fun d =>
            (fdiv (a - b - c + d)
              ((((if (i : ℤ) + 1 + k.tdiv 2 > rows then (rows : ℤ) else (i : ℤ) + 1 + k.tdiv 2)
                  - (if (i : ℤ) + 1 - (k - 1).tdiv 2 - 1 < 0 then 0
                      else (i : ℤ) + 1 - (k - 1).tdiv 2 - 1))
                * ((if (j : ℤ) + 1 + k.tdiv 2 > cols then (cols : ℤ)
                      else (j : ℤ) + 1 + k.tdiv 2)
                  - (if (j : ℤ) + 1 - (k - 1).tdiv 2 - 1 < 0 then 0
                      else (j : ℤ) + 1 - (k - 1).tdiv 2 - 1)) : ℤ) : K)).map
              fun v => setChannel output (i * cols + j) ch v) output) output)
        (Buffer.fill fun _ => 0) = some (forChannels pass (Buffer.fill fun _ => 0)) := by
      refine forChannelsM_pure _ pass _ ?_
      intro ch t
      refine forLoopM_pure rows _ (fun i s => forLoop cols (fun j s =>
        setChannel s (i * cols + j) ch (windowMean rows cols data k.toNat i j ch)) s) t ?_
      intro i hi t'
      refine forLoopM_pure cols _ (fun j s =>
        setChannel s (i * cols + j) ch (windowMean rows cols data k.toNat i j ch)) t' ?_
      intro j hj t''
      exact filterPixel_eq (Buffer.fill 0) rows cols data k hk i j hi hj ch t''
    rw [hM, Option.map_some']
  · intro i j hi hj ch
    have h01 : (0 : Fin 3) ≠ 1 := by decide
    have h02 : (0 : Fin 3) ≠ 2 := by decide
    have h12 : (1 : Fin 3) ≠ 2 := by decide
    show (pass 2 (pass 1 (pass 0 (Buffer.fill fun _ => 0)))).get (i * cols + j) ch = _
    rw [hpass 2 i j hi hj, hpass 1 i j hi hj, hpass 0 i j hi hj]
    fin_cases ch <;>
      simp [Function.update, h01, h02, h12, h01.symm, h02.symm, h12.symm]

end

section

variable {K : Type} [LinearOrderedField K]

/-- A sum over an interval of `int` indices that are natural numbers. -/
theorem sum_Icc_int {M : Type} [AddCommMonoid M] (f : ℕ → M) (a b : ℕ) (lo hi : ℤ)
    (hlo : lo = (a : ℤ)) (hhi : hi = (b : ℤ) - 1) :
    ∑ z ∈ Finset.Icc lo hi, f z.toNat = ∑ n ∈ Finset.Ico a b, f n ∧
    (Finset.Icc lo hi).card = b - a := by
  subst hlo hhi
  have himg : Finset.Icc (a : ℤ) ((b : ℤ) - 1) = (Finset.Ico a b).image (fun n : ℕ => (n : ℤ)) := by
    ext z
    simp only [Finset.mem_Icc, Finset.mem_image, Finset.mem_Ico]
    constructor
    · intro h
      exact ⟨z.toNat, by omega, by omega⟩
    · rintro ⟨n, hn, rfl⟩
      omega
  have hinj : Set.InjOn (fun n : ℕ => (n : ℤ)) (Finset.Ico a b : Set ℕ) :=
    fun x _ y _ h => Int.ofNat_inj.mp h
  rw [himg]
  constructor
  · rw [Finset.sum_image hinj]
    simp
  · rw [Finset.card_image_of_injOn hinj, Nat.card_Ico]

/-- The window mean written with `int` bounds, the way the claim states it. -/
theorem windowMean_int (rows cols : ℕ) (data : ℕ → Vec3d K) (k : ℤ) (hk : 1 ≤ k) (i j : ℕ)
    (ch : Fin 3) :
    windowMean rows cols data k.toNat i j ch =
      (∑ r ∈ Finset.Icc (max 0 ((i : ℤ) - (k - 1) / 2)) (min ((rows : ℤ) - 1) ((i : ℤ) + k / 2)),
        ∑ c ∈ Finset.Icc (max 0 ((j : ℤ) - (k - 1) / 2)) (min ((cols : ℤ) - 1) ((j : ℤ) + k / 2)),
          data (r.toNat * cols + c.toNat) ch)
      / (((Finset.Icc (max 0 ((i : ℤ) - (k - 1) / 2))
            (min ((rows : ℤ) - 1) ((i : ℤ) + k / 2))).card
          * (Finset.Icc (max 0 ((j : ℤ) - (k - 1) / 2))
            (min ((cols : ℤ) - 1) ((j : ℤ) + k / 2))).card : ℕ) : K) := by
  have hr1 : max 0 ((i : ℤ) - (k - 1) / 2) = ((i - (k.toNat - 1) / 2 : ℕ) : ℤ) := by omega
  have hr2 : min ((rows : ℤ) - 1) ((i : ℤ) + k / 2)
      = ((min rows (i + 1 + k.toNat / 2) : ℕ) : ℤ) - 1 := by omega
  have hc1 : max 0 ((j : ℤ) - (k - 1) / 2) = ((j - (k.toNat - 1) / 2 : ℕ) : ℤ) := by omega
  have hc2 : min ((cols : ℤ) - 1) ((j : ℤ) + k / 2)
      = ((min cols (j + 1 + k.toNat / 2) : ℕ) : ℤ) - 1 := by omega
  have hin : ∀ r : ℤ,
      ∑ c ∈ Finset.Icc (max 0 ((j : ℤ) - (k - 1) / 2)) (min ((cols : ℤ) - 1) ((j : ℤ) + k / 2)),
        data (r.toNat * cols + c.toNat) ch
      = ∑ c ∈ Finset.Ico (j - (k.toNat - 1) / 2) (min cols (j + 1 + k.toNat / 2)),
        data (r.toNat * cols + c) ch :=
    fun r => (sum_Icc_int (fun c => data (r.toNat * cols + c) ch) _ _ _ _ hc1 hc2).1
  have hout := sum_Icc_int (fun r =>
    ∑ c ∈ Finset.Ico (j - (k.toNat - 1) / 2) (min cols (j + 1 + k.toNat / 2)),
      data (r * cols + c) ch) _ _ _ _ hr1 hr2
  have hcard := (sum_Icc_int (fun _ => (0 : ℕ)) _ _ _ _ hc1 hc2).2
  simp only [hin]
  rw [hout.1, hout.2, hcard]
  rfl

end

section

variable {K : Type} [LinearOrderedField K]

end

section

variable {K : Type} [LinearOrderedField K]

/-! ## `CreateSprays` -/

/-- A `double` of absolute value below one converts to the `int` zero. -/
theorem toInt_eq_zero [FloorRing K] {x : K} (h : |x| < 1) : toInt x = 0 := by
  obtain ⟨h1, h2⟩ := abs_lt.mp h
  unfold toInt
  split_ifs with h0
  · rw [Int.floor_eq_iff]
    exact ⟨by simpa using h0, by simpa using h2⟩
  · rw [Int.ceil_eq_iff]
    exact ⟨by simpa using h1, by simpa using le_of_lt (lt_of_not_ge h0)⟩

theorem abs_mul_lt_one {r c : K} (h0 : 0 ≤ r) (h1 : r < 1) (hc : |c| ≤ 1) : |r * c| < 1 := by
  rw [abs_mul, abs_of_nonneg h0]
  calc r * |c| ≤ r * 1 := mul_le_mul_of_nonneg_left hc h0
    _ = r := mul_one r
    _ < 1 := h1

/-- With draws in `[0, 1)` and `cos`, `sin` bounded by one, every offset of every spray is
the point `(0, 0)`: the radius is below one and the conversion to `int` truncates. -/
theorem CreateSprays_zero [FloorRing K] (cos sin : K → K) (rnd : ℕ → K)
    (hcos : ∀ a, |cos a| ≤ 1) (hsin : ∀ a, |sin a| ≤ 1) (hrnd : ∀ t, 0 ≤ rnd t ∧ rnd t < 1)
    (spraysCount spraySize : ℤ) (h1 : 0 ≤ spraysCount) (h2 : 0 ≤ spraySize) :
    ∃ sprays, CreateSprays cos sin rnd spraysCount spraySize = some sprays ∧
      ∀ i j, (sprays.get i).get j = ⟨0, 0⟩ := by
  unfold CreateSprays
  simp only []
  rw [if_neg (by omega), if_neg (by omega)]
  refine ⟨_, rfl, ?_⟩
  refine forLoop_invariant
    (fun _ (st : ℕ × Buffer (Buffer Point2i)) => ∀ i j, (st.2.get i).get j = ⟨0, 0⟩)
    spraysCount.toNat _ _ (fun i j => rfl) ?_
  intro i _ st hst
  refine forLoop_invariant
    (fun _ (st : ℕ × Buffer (Buffer Point2i)) => ∀ i j, (st.2.get i).get j = ⟨0, 0⟩)
    spraySize.toNat _ _ ?_ ?_
  · intro a b
    simp only [Buffer.get_set]
    split_ifs
    · rfl
    · exact hst a b
  · intro j _ u hu a b
    have hx : toInt (rnd (u.1 + 1) * cos (2 * CV_PI * rnd u.1)) = 0 :=
      toInt_eq_zero (abs_mul_lt_one (hrnd _).1 (hrnd _).2 (hcos _))
    have hy : toInt (rnd (u.1 + 1) * sin (2 * CV_PI * rnd u.1)) = 0 :=
      toInt_eq_zero (abs_mul_lt_one (hrnd _).1 (hrnd _).2 (hsin _))
    simp only [Buffer.get_set, hx, hy]
    by_cases ha : a = i
    · rw [if_pos ha, Buffer.get_set]
      split_ifs
      · rfl
      · exact hu i b
    · rw [if_neg ha]
      exact hu a b

theorem sampleCos_le (a : ℚ) : |sampleCos a| ≤ 1 :=
  abs_le.mpr ⟨le_max_left _ _, max_le (by norm_num) (min_le_left _ _)⟩

theorem sampleSin_le (a : ℚ) : |sampleSin a| ≤ 1 :=
  abs_le.mpr ⟨le_max_left _ _, max_le (by norm_num) (min_le_left _ _)⟩

theorem sampleRnd_mem (t : ℕ) : 0 ≤ sampleRnd t ∧ sampleRnd t < 1 := by
  unfold sampleRnd
  have h : (t * 7 + 3) % 10 < 10 := Nat.mod_lt _ (by norm_num)
  have h' : (((t * 7 + 3) % 10 : ℕ) : ℚ) < 10 := by exact_mod_cast h
  constructor
  · positivity
  · rw [div_lt_one (by norm_num)]
    exact h'

/-- C9: for every `spraysCount ≥ 1` and `spraySize ≥ 1` and every sequence of draws in
`[0, 1)` (with `cos` and `sin` bounded by one), `CreateSprays` returns sprays whose every
offset `(x, y)` satisfies `x^2 + y^2 ≤ 1`. -/
theorem CreateSprays_unit_disc [FloorRing K] (cos sin : K → K) (rnd : ℕ → K)
    (hcos : ∀ a, |cos a| ≤ 1) (hsin : ∀ a, |sin a| ≤ 1) (hrnd : ∀ t, 0 ≤ rnd t ∧ rnd t < 1)
    (spraysCount spraySize : ℤ) (h1 : 1 ≤ spraysCount) (h2 : 1 ≤ spraySize) :
    ∃ sprays, CreateSprays cos sin rnd spraysCount spraySize = some sprays ∧
      ∀ i j : ℕ, (i : ℤ) < spraysCount → (j : ℤ) < spraySize →
        ((sprays.get i).get j).x ^ 2 + ((sprays.get i).get j).y ^ 2 ≤ 1 := by
  obtain ⟨sprays, hs, hz⟩ := CreateSprays_zero cos sin rnd hcos hsin hrnd spraysCount spraySize
    (by omega) (by omega)
  refine ⟨sprays, hs, fun i j _ _ => ?_⟩
  rw [hz i j]
  norm_num

theorem CreateSprays_unit_disc_witness :
    ((∀ a, |sampleCos a| ≤ 1) ∧ (∀ a, |sampleSin a| ≤ 1) ∧
      (∀ t, 0 ≤ sampleRnd t ∧ sampleRnd t < 1) ∧ (1 : ℤ) ≤ 1000 ∧ (1 : ℤ) ≤ 225) ∧
    ∃ sprays, CreateSprays sampleCos sampleSin sampleRnd 1000 225 = some sprays ∧
      ∀ i j : ℕ, (i : ℤ) < 1000 → (j : ℤ) < 225 →
        ((sprays.get i).get j).x ^ 2 + ((sprays.get i).get j).y ^ 2 ≤ 1 :=
  ⟨⟨sampleCos_le, sampleSin_le, sampleRnd_mem, by decide, by decide⟩,
    CreateSprays_unit_disc sampleCos sampleSin sampleRnd sampleCos_le sampleSin_le
      sampleRnd_mem 1000 225 (by decide) (by decide)⟩

end

section

variable {K : Type} [LinearOrderedField K]

/-! ## One grid cell of `PerformIlluminationEstimation` -/

/-- Lines 238-242: the running maximum takes in the pixel `np`, channel by channel. -/
theorem channelMax_eq (m np : Vec3d K) :
    forChannels (fun (k : Fin 3) (mx : Vec3d K) =>
      if mx k < np k then Function.update mx k (np k) else mx) m
      = fun k => max (m k) (np k) := by
  have h01 : (0 : Fin 3) ≠ 1 := by decide
  have h02 : (0 : Fin 3) ≠ 2 := by decide
  have h12 : (1 : Fin 3) ≠ 2 := by decide
  unfold forChannels
  by_cases a0 : m 0 < np 0 <;> by_cases a1 : m 1 < np 1 <;> by_cases a2 : m 2 < np 2 <;>
    simp [a0, a1, a2, Function.update, h01, h02, h12, h01.symm, h02.symm, h12.symm] <;>
    apply vec3_ext <;>
    simp [max_def, a0, a1, a2, not_le.mpr, le_of_lt, le_of_not_lt, not_lt.mp]

/-- A spray whose offsets are all `(0, 0)` samples the centre pixel only. -/
theorem sprayMax_zero (input : ℕ → Vec3d K) (rows cols : ℕ) (R : ℤ) (spray : Buffer Point2i)
    (hs : ∀ j, spray.get j = ⟨0, 0⟩) (n : ℤ) (hn : 1 ≤ n) (row col : ℕ) (hrow : row < rows)
    (hcol : col < cols) :
    sprayMax input rows cols R spray n (row : ℤ) (col : ℤ)
      = fun k => max 0 (input (row * cols + col) k) := by
  unfold sprayMax
  have hidx : ((row : ℤ) * (cols : ℤ) + (col : ℤ)).toNat = row * cols + col := by
    have : ((row : ℤ) * (cols : ℤ) + (col : ℤ)) = ((row * cols + col : ℕ) : ℤ) := by push_cast; ring
    rw [this, Int.toNat_natCast]
  have hinv := forLoop_invariant
    (fun i (m : Vec3d K) =>
      m = if i = 0 then (fun _ => 0) else fun k => max 0 (input (row * cols + col) k))
    n.toNat
    (fun j (mx : Vec3d K) =>
      if (row : ℤ) + R * (spray.get j).y ≥ 0 ∧ (row : ℤ) + R * (spray.get j).y < rows ∧
          (col : ℤ) + R * (spray.get j).x ≥ 0 ∧ (col : ℤ) + R * (spray.get j).x < cols then
        forChannels (fun (k : Fin 3) (mx : Vec3d K) =>
          if mx k < input (((row : ℤ) + R * (spray.get j).y) * cols
              + ((col : ℤ) + R * (spray.get j).x)).toNat k
          then Function.update mx k
            (input (((row : ℤ) + R * (spray.get j).y) * cols
              + ((col : ℤ) + R * (spray.get j).x)).toNat k)
          else mx) mx
      else mx)
    (fun _ => 0) rfl
    (by
      intro i _ m hm
      simp only [hs, mul_zero, add_zero]
      rw [if_pos ⟨Int.natCast_nonneg _, by exact_mod_cast hrow, Int.natCast_nonneg _,
        by exact_mod_cast hcol⟩, hidx, channelMax_eq, if_neg (Nat.succ_ne_zero i), hm]
      funext k
      split_ifs
      · rfl
      · simp)
  have hn0 : n.toNat ≠ 0 := by omega
  simp only [if_neg hn0] at hinv
  exact hinv

/-- Lines 247-252 in closed form: the division never has a zero divisor. -/
theorem accumulate_eq (cp mx fp : Vec3d K) :
    accumulate cp (mx, fp) =
      some ((fun k => if mx k = 0 then 1 else mx k),
        (fun k => fp k + cp k / (if mx k = 0 then 1 else mx k))) := by
  have h01 : (0 : Fin 3) ≠ 1 := by decide
  have h02 : (0 : Fin 3) ≠ 2 := by decide
  have h12 : (1 : Fin 3) ≠ 2 := by decide
  unfold accumulate forChannelsM
  by_cases a0 : mx 0 = 0 <;> by_cases a1 : mx 1 = 0 <;> by_cases a2 : mx 2 = 0 <;>
    simp [fdiv, a0, a1, a2, Function.update, h01, h02, h12, h01.symm, h02.symm, h12.symm] <;>
    constructor <;> apply vec3_ext <;> simp [a0, a1, a2]

end

section

variable {K : Type} [LinearOrderedField K]

/-- The contribution of one round to a channel of the accumulator when the spray samples the
centre pixel only: the ratio of a non-negative value to itself. -/
theorem selfRatio_eq {x : K} (hx : 0 ≤ x) :
    x / (if max 0 x = 0 then 1 else max 0 x) = if x = 0 then 0 else 1 := by
  rw [max_eq_right hx]
  split_ifs with h
  · rw [h, zero_div]
  · exact div_self h

/-- The `N` rounds of a grid cell when every spray samples the centre pixel only. -/
theorem rounds_zero (next : ℕ → ℕ) (input : ℕ → Vec3d K) (rows cols : ℕ) (R : ℤ)
    (sprays : Buffer (Buffer Point2i)) (hs : ∀ i j, (sprays.get i).get j = ⟨0, 0⟩)
    (spraysCount n : ℤ) (hn : 1 ≤ n) (row col : ℕ) (hrow : row < rows) (hcol : col < cols)
    (cp : Vec3d K) (hcp : cp = input (row * cols + col)) (hp : ∀ k, 0 ≤ cp k) (m t : ℕ) :
    forLoopM m (fun _ (acc : ℕ × Vec3d K) =>
      (accumulate cp
        (sprayMax input rows cols R (sprays.get (uniformInt (next acc.1) 0 spraysCount).toNat) n
          (row : ℤ) (col : ℤ), acc.2)).map fun r => (acc.1 + 1, r.2)) (t, fun _ => 0)
      = some (t + m, fun k => (m : K) * (if cp k = 0 then 0 else 1)) := by
  have hbody : ∀ i, i < m → ∀ acc : ℕ × Vec3d K,
      (accumulate cp
        (sprayMax input rows cols R (sprays.get (uniformInt (next acc.1) 0 spraysCount).toNat) n
          (row : ℤ) (col : ℤ), acc.2)).map (fun r => (acc.1 + 1, r.2))
      = some ((fun (_ : ℕ) (acc : ℕ × Vec3d K) =>
          (acc.1 + 1, fun k => acc.2 k + (if cp k = 0 then 0 else 1))) i acc) := by
    intro i _ acc
    rw [sprayMax_zero input rows cols R _ (hs _) n hn row col hrow hcol, accumulate_eq,
      Option.map_some']
    simp only [← hcp, selfRatio_eq (hp _)]
  rw [forLoopM_pure m _ _ _ hbody]
  congr 1
  refine forLoop_invariant
    (fun i (acc : ℕ × Vec3d K) => acc = (t + i, fun k => (i : K) * (if cp k = 0 then 0 else 1)))
    m _ _ ?_ ?_
  · simp
  · intro i _ acc hacc
    rw [hacc]
    refine Prod.ext rfl ?_
    funext k
    simp only [Nat.cast_add, Nat.cast_one]
    ring

/-- The body of the grid loops for a cell whose centre pixel is non-negative, when every
spray samples the centre pixel only: the destination cell becomes `(1, 1, 1)`, the
resized-source cell the centre pixel, or `(0, 0, 0)` if one of its channels is zero. -/
theorem estimateCell_zero (next : ℕ → ℕ) (input : ℕ → Vec3d K) (rows cols : ℕ) (R : ℤ)
    (sprays : Buffer (Buffer Point2i)) (hs : ∀ i j, (sprays.get i).get j = ⟨0, 0⟩)
    (spraysCount N n : ℤ) (hN : 1 ≤ N) (hn : 1 ≤ n) (rs cs outputCols outputRow outputCol : ℕ)
    (hrow : outputRow * rs < rows) (hcol : outputCol * cs < cols)
    (hp : ∀ k, 0 ≤ input (outputRow * rs * cols + outputCol * cs) k)
    (st : ℕ × Buffer (Vec3d K) × Buffer (Vec3d K)) :
    estimateCell next input rows cols R sprays spraysCount N n (rs : ℤ) (cs : ℤ) outputCols
        outputRow outputCol st
      = some (st.1 + N.toNat,
          st.2.1.set (outputRow * outputCols + outputCol) (fun _ => 1),
          (st.2.2.set (outputRow * outputCols + outputCol)
              (input (outputRow * rs * cols + outputCol * cs))).set
            (outputRow * outputCols + outputCol)
            (if ∃ c, input (outputRow * rs * cols + outputCol * cs) c = 0 then (fun _ => 0)
              else input (outputRow * rs * cols + outputCol * cs))) := by
  unfold estimateCell
  simp only []
  have hr : (outputRow : ℤ) * (rs : ℤ) = ((outputRow * rs : ℕ) : ℤ) := by push_cast; ring
  have hc : (outputCol : ℤ) * (cs : ℤ) = ((outputCol * cs : ℕ) : ℤ) := by push_cast; ring
  rw [hr, hc]
  have hidx : (((outputRow * rs : ℕ) : ℤ) * (cols : ℤ) + ((outputCol * cs : ℕ) : ℤ))
      = ((outputRow * rs * cols + outputCol * cs : ℕ) : ℤ) := by push_cast; ring
  have hlt := grid_index_lt hrow hcol
  have hguard : ¬ ((((outputRow * rs : ℕ) : ℤ) * (cols : ℤ) + ((outputCol * cs : ℕ) : ℤ)) < 0 ∨
      (rows : ℤ) * (cols : ℤ)
        ≤ (((outputRow * rs : ℕ) : ℤ) * (cols : ℤ) + ((outputCol * cs : ℕ) : ℤ))) := by
    rw [hidx]
    rintro (h | h)
    · exact absurd (Int.natCast_nonneg _) (not_le.mpr h)
    · have h' : rows * cols ≤ outputRow * rs * cols + outputCol * cs := by exact_mod_cast h
      exact absurd hlt (not_lt.mpr h')
  rw [if_neg hguard, hidx, Int.toNat_natCast]
  rw [rounds_zero next input rows cols R sprays hs spraysCount n hn (outputRow * rs)
    (outputCol * cs) hrow hcol _ rfl hp N.toNat st.1, Option.some_bind]
  have hNK : (N : K) = ((N.toNat : ℕ) : K) := by
    have h : ((N.toNat : ℕ) : ℤ) = N := Int.toNat_of_nonneg (by omega)
    rw [← Int.cast_natCast, h]
  have hN0 : ((N.toNat : ℕ) : K) ≠ 0 := by
    have : N.toNat ≠ 0 := by omega
    exact_mod_cast this
  rw [hNK, if_neg hN0, Option.map_some']
  have hfinal : (fun k => ((N.toNat : ℕ) : K)
      * (if input (outputRow * rs * cols + outputCol * cs) k = 0 then 0 else 1)
      / ((N.toNat : ℕ) : K))
      = fun k => if input (outputRow * rs * cols + outputCol * cs) k = 0 then (0 : K) else 1 := by
    funext k
    rw [mul_div_cancel_left₀ _ hN0]
  simp only [hfinal, clampCell_eq, Buffer.get_set, if_true]
  by_cases hz : ∃ c, input (outputRow * rs * cols + outputCol * cs) c = 0
  · have hz' : ∃ c, (if input (outputRow * rs * cols + outputCol * cs) c = 0 then (0 : K) else 1)
        = 0 := by
      obtain ⟨c, hc⟩ := hz
      exact ⟨c, by rw [if_pos hc]⟩
    rw [if_pos hz', if_pos hz]
  · have hz' : ¬ ∃ c, (if input (outputRow * rs * cols + outputCol * cs) c = 0 then (0 : K)
        else 1) = 0 := by
      rintro ⟨c, hc⟩
      by_cases h0 : input (outputRow * rs * cols + outputCol * cs) c = 0
      · exact hz ⟨c, h0⟩
      · rw [if_neg h0] at hc
        exact one_ne_zero hc
    rw [if_neg hz', if_neg hz]
    have hone : (fun c => min (if input (outputRow * rs * cols + outputCol * cs) c = 0
        then (0 : K) else 1) 1) = fun _ => 1 := by
      funext c
      have h0 : input (outputRow * rs * cols + outputCol * cs) c ≠ 0 := fun h => hz ⟨c, h⟩
      rw [if_neg h0, min_self]
    rw [hone]

end

section

variable {K : Type} [LinearOrderedField K]

/-! ## The estimation grid -/

theorem tdiv_natCast (a b : ℕ) : ((a : ℤ).tdiv (b : ℤ)) = ((a / b : ℕ) : ℤ) := by
  rw [Int.tdiv_eq_ediv (Int.natCast_nonneg _) (Int.natCast_nonneg _)]
  exact (Int.natCast_div a b).symm

/-- An `int` expression with a value in the range of a 32-bit `int` has that value. -/
theorem intResult_of_le (x : ℤ) (h0 : -INT_MAX - 1 ≤ x) (h1 : x ≤ INT_MAX) :
    intResult x = some x := by
  unfold intResult
  rw [if_pos ⟨h0, h1⟩]

/-- An `int` expression with a non-negative value up to `INT_MAX` has that value. -/
theorem intResult_natCast (a : ℕ) (h : (a : ℤ) ≤ INT_MAX) : intResult (a : ℤ) = some (a : ℤ) :=
  intResult_of_le _ (le_trans (by decide) (Int.natCast_nonneg a)) h

/-- An `int` expression with a value above `INT_MAX` overflows. -/
theorem intResult_overflow (x : ℤ) (h : INT_MAX < x) : intResult x = none := by
  unfold intResult
  rw [if_neg (fun hh => absurd hh.2 (not_le.mpr h))]

/-- A cell of the estimation grid maps to a pixel inside the image. -/
theorem grid_cell_lt {m s i : ℕ} (hs : 1 ≤ s) (hi : i < m / s) : i * s < m := by
  have h1 : (i + 1) * s ≤ m := (Nat.le_div_iff_mul_le hs).mp hi
  have h2 : (i + 1) * s = i * s + s := by ring
  omega

/-- The resized-source cell that the grid loops leave for the source pixel `px`. -/
theorem estimationGrid_zero [FloorRing K] (sqrt cos sin : K → K) (rnd : ℕ → K) (next : ℕ → ℕ)
    (hcos : ∀ a, |cos a| ≤ 1) (hsin : ∀ a, |sin a| ≤ 1) (hrnd : ∀ t, 0 ≤ rnd t ∧ rnd t < 1)
    (source : Mat K)
    (hsize : ((source.rows * source.rows + source.cols * source.cols : ℕ) : ℤ) ≤ INT_MAX)
    (N n : ℤ) (hN : 1 ≤ N) (hNmax : 1000 * N ≤ INT_MAX) (hn : 1 ≤ n) (rs cs : ℕ) (hrs : 1 ≤ rs)
    (hcs : 1 ≤ cs)
    (hpix : ∀ i j, i < source.rows / rs → j < source.cols / cs → ∀ k,
      0 ≤ source.data (i * rs * source.cols + j * cs) k) :
    ∃ g : Mat K × Mat K,
      estimationGrid sqrt cos sin rnd next source N n (rs : ℤ) (cs : ℤ) = some g ∧
      g.1.rows = source.rows / rs ∧ g.1.cols = source.cols / cs ∧
      g.2.rows = source.rows / rs ∧ g.2.cols = source.cols / cs ∧
      ∀ i j, i < source.rows / rs → j < source.cols / cs →
        g.1.data (i * (source.cols / cs) + j)
          = (if ∃ c, source.data (i * rs * source.cols + j * cs) c = 0 then (fun _ => 0)
              else source.data (i * rs * source.cols + j * cs)) ∧
        g.2.data (i * (source.cols / cs) + j) = fun _ => 1 := by
  obtain ⟨rows, cols, depth, data⟩ := source
  simp only at hpix hsize ⊢
  obtain ⟨sprays, hsp, hz⟩ := CreateSprays_zero cos sin rnd hcos hsin hrnd (1000 * N) n
    (by omega) (by omega)
  let R : ℤ := toInt (sqrt (((rows * rows + cols * cols : ℕ) : ℤ) : K) + 0.5)
  let body : ℕ → ℕ → ℕ × Buffer (Vec3d K) × Buffer (Vec3d K)
      → ℕ × Buffer (Vec3d K) × Buffer (Vec3d K) := fun i j st =>
    (st.1 + N.toNat,
      st.2.1.set (i * (cols / cs) + j) (fun _ => 1),
      (st.2.2.set (i * (cols / cs) + j) (data (i * rs * cols + j * cs))).set
        (i * (cols / cs) + j)
        (if ∃ c, data (i * rs * cols + j * cs) c = 0 then (fun _ => 0)
          else data (i * rs * cols + j * cs)))
  have hloops : forLoopM (rows / rs) (fun outputRow st =>
      forLoopM (cols / cs) (fun outputCol st =>
        estimateCell next data rows cols R sprays (1000 * N) N n (rs : ℤ) (cs : ℤ) (cols / cs)
          outputRow outputCol st) st)
      (0, Buffer.fill (fun _ => 0), Buffer.fill (fun _ => 0))
      = some (forLoop (rows / rs) (fun i s => forLoop (cols / cs) (fun j s => body i j s) s)
          (0, Buffer.fill (fun _ => 0), Buffer.fill (fun _ => 0))) := by
    refine forLoopM_pure _ _ (fun i s => forLoop (cols / cs) (fun j s => body i j s) s) _ ?_
    intro i hi t
    refine forLoopM_pure _ _ (fun j s => body i j s) t ?_
    intro j hj t'
    exact estimateCell_zero next data rows cols R sprays hz (1000 * N) N n hN hn rs cs
      (cols / cs) i j (grid_cell_lt hrs hi) (grid_cell_lt hcs hj) (hpix i j hi hj) t'
  obtain ⟨d1, _⟩ := grid_loops
    (fun st : ℕ × Buffer (Vec3d K) × Buffer (Vec3d K) => st.2.1.get) (rows / rs) (cols / cs)
    body (fun _ _ _ => fun _ => 1)
    (fun i j s _ _ q => by simp only [body, Buffer.get_set])
    (0, Buffer.fill (fun _ => 0), Buffer.fill (fun _ => 0))
  obtain ⟨r1, _⟩ := grid_loops
    (fun st : ℕ × Buffer (Vec3d K) × Buffer (Vec3d K) => st.2.2.get) (rows / rs) (cols / cs)
    body (fun i j _ => if ∃ c, data (i * rs * cols + j * cs) c = 0 then (fun _ => 0)
      else data (i * rs * cols + j * cs))
    (fun i j s _ _ q => by
      simp only [body, Buffer.get_set]
      split_ifs <;> rfl)
    (0, Buffer.fill (fun _ => 0), Buffer.fill (fun _ => 0))
  refine ⟨(⟨rows / rs, cols / cs, Depth.CV_64F,
      (forLoop (rows / rs) (fun i s => forLoop (cols / cs) (fun j s => body i j s) s)
        (0, Buffer.fill (fun _ => 0), Buffer.fill (fun _ => 0))).2.2.get⟩,
    ⟨rows / rs, cols / cs, Depth.CV_64F,
      (forLoop (rows / rs) (fun i s => forLoop (cols / cs) (fun j s => body i j s) s)
        (0, Buffer.fill (fun _ => 0), Buffer.fill (fun _ => 0))).2.1.get⟩), ?_, rfl, rfl, rfl, rfl,
    fun i j hi hj => ⟨r1 i j hi hj, d1 i j hi hj⟩⟩
  unfold estimationGrid
  simp only []
  rw [intResult_natCast _ hsize, Option.some_bind]
  have h0 : ¬ ((rs : ℤ) = 0 ∨ (cs : ℤ) = 0) := by omega
  rw [if_neg h0, tdiv_natCast, tdiv_natCast]
  have h1 : ¬ (((rows / rs : ℕ) : ℤ) < 0 ∨ ((cols / cs : ℕ) : ℤ) < 0) := by
    rintro (h | h) <;> exact absurd (Int.natCast_nonneg _) (not_le.mpr h)
  rw [if_neg h1, intResult_of_le _ (by unfold INT_MAX; omega) hNmax, Option.some_bind, hsp,
    Option.some_bind]
  simp only [Int.toNat_natCast]
  have hconv : (Mat.convertTo (⟨rows, cols, depth, data⟩ : Mat K) Depth.CV_64F).data = data := rfl
  rw [hconv]
  rw [hloops, Option.map_some']

end

section

variable {K : Type} [LinearOrderedField K]

/-! ## `cv::divide` and `cv::mean` -/

/-- A loop whose body rewrites cell `i` of a view of the state at step `i`. -/
theorem line_loop {σ α : Type} (view : σ → ℕ → α) (n : ℕ) (body : ℕ → σ → σ)
    (F : ℕ → α → α)
    (hbody : ∀ i s, i < n → ∀ q, view (body i s) q = if q = i then F i (view s q) else view s q)
    (s : σ) (q : ℕ) :
    view (forLoop n body s) q = if q < n then F q (view s q) else view s q := by
  induction n with
  | zero => simp [forLoop]
  | succ n ih =>
    have ih' := ih fun i s hi q => hbody i s (Nat.lt_succ_of_lt hi) q
    rw [forLoop_succ, hbody n _ (Nat.lt_succ_self n), ih']
    by_cases h1 : q = n
    · subst h1
      simp
    · by_cases h2 : q < n
      · have : q < n + 1 := Nat.lt_succ_of_lt h2
        simp [h1, h2, this]
      · have : ¬ q < n + 1 := by omega
        simp [h1, h2, this]

/-- A channel loop whose body fails exactly at the channels outside `ok`. -/
theorem forChannelsM_eq {σ : Type} (ok : Fin 3 → Prop) [DecidablePred ok]
    (body : Fin 3 → σ → Option σ) (f : Fin 3 → σ → σ) (s : σ)
    (h : ∀ k t, body k t = if ok k then some (f k t) else none) :
    forChannelsM body s = if ∀ k, ok k then some (forChannels f s) else none := by
  unfold forChannelsM forChannels
  by_cases h0 : ok 0 <;> by_cases h1 : ok 1 <;> by_cases h2 : ok 2 <;>
    simp [h, h0, h1, h2, forall_channel_iff]

/-- The matrix `cv::divide(a, scale * b)`: defined when no divisor is zero. -/
theorem divideMat_eq (a : Mat K) (scale : K) (b : Mat K) :
    divideMat a scale b =
      if ∀ p, p < a.rows * a.cols → ∀ c, scale * b.data p c ≠ 0 then
        some { rows := a.rows, cols := a.cols, depth := Depth.CV_64F,
               data := fun q => if q < a.rows * a.cols
                 then (fun c => a.data q c / (scale * b.data q c)) else fun _ => 0 }
      else none := by
  obtain ⟨rows, cols, depth, adata⟩ := a
  simp only
  unfold divideMat
  simp only
  let g : ℕ → Fin 3 → K → K := fun p c _ => adata p c / (scale * b.data p c)
  let cell : ℕ → Buffer (Vec3d K) → Buffer (Vec3d K) := fun p buf =>
    forChannels (fun c buf => setChannel buf p c (g p c (buf.get p c))) buf
  have hchan : ∀ (p : ℕ), p < rows * cols → ∀ (buf : Buffer (Vec3d K)),
      forChannelsM (fun c buf =>
        (fdiv (adata p c) (scale * b.data p c)).map fun v => setChannel buf p c v) buf
      = if (fun p => ∀ c, scale * b.data p c ≠ 0) p then some (cell p buf) else none := by
    intro p _ buf
    refine forChannelsM_eq (fun c => scale * b.data p c ≠ 0) _
      (fun c buf => setChannel buf p c (g p c (buf.get p c))) buf ?_
    intro k t
    unfold fdiv
    by_cases hk : scale * b.data p k = 0
    · simp [hk]
    · simp [hk, g]
  rw [forLoopM_eq (fun p => ∀ c, scale * b.data p c ≠ 0) (rows * cols) _ cell _ hchan]
  have hcell : ∀ (i : ℕ) (s : Buffer (Vec3d K)), i < rows * cols → ∀ q,
      (cell i s).get q = if q = i then (fun (p : ℕ) (_ : Vec3d K) =>
        fun c => adata p c / (scale * b.data p c)) i (s.get q) else s.get q := by
    intro i s _ q
    have := forChannels_setChannel (g i) i s q
    rw [show (cell i s) = forChannels (fun k b => setChannel b i k (g i k (b.get i k))) s
      from rfl, this]
  have hfun : (forLoop (rows * cols) cell (Buffer.fill fun _ => 0)).get
      = fun q => if q < rows * cols
          then (fun c => adata q c / (scale * b.data q c)) else fun _ => 0 := by
    funext q
    rw [line_loop (fun buf : Buffer (Vec3d K) => buf.get) (rows * cols) cell
      (fun p _ => fun c => adata p c / (scale * b.data p c)) hcell (Buffer.fill fun _ => 0) q]
    rfl
  split_ifs with hok
  · rw [Option.map_some', hfun]
  · rfl

/-! ## Properties of the window mean -/

theorem windowMean_congr (rows cols : ℕ) (data data' : ℕ → Vec3d K) (k i j : ℕ)
    (ch ch' : Fin 3)
    (h : ∀ r c, r < rows → c < cols → data (r * cols + c) ch = data' (r * cols + c) ch') :
    windowMean rows cols data k i j ch = windowMean rows cols data' k i j ch' := by
  unfold windowMean
  congr 1
  refine Finset.sum_congr rfl fun r hr => Finset.sum_congr rfl fun c hc => ?_
  rw [Finset.mem_Ico] at hr hc
  exact h r c (lt_of_lt_of_le hr.2 (Nat.min_le_left _ _))
    (lt_of_lt_of_le hc.2 (Nat.min_le_left _ _))

theorem window_area_pos (rows cols k i j : ℕ) (hi : i < rows) (hj : j < cols) :
    (0 : K) < (((min rows (i + 1 + k / 2) - (i - (k - 1) / 2))
      * (min cols (j + 1 + k / 2) - (j - (k - 1) / 2)) : ℕ) : K) := by
  have : 0 < (min rows (i + 1 + k / 2) - (i - (k - 1) / 2))
      * (min cols (j + 1 + k / 2) - (j - (k - 1) / 2)) :=
    Nat.mul_pos (by omega) (by omega)
  exact_mod_cast this

/-- The window mean of a channel that is constant on the image is that constant. -/
theorem windowMean_const (rows cols : ℕ) (data : ℕ → Vec3d K) (k i j : ℕ) (ch : Fin 3) (v : K)
    (h : ∀ r c, r < rows → c < cols → data (r * cols + c) ch = v) (hi : i < rows)
    (hj : j < cols) :
    windowMean rows cols data k i j ch = v := by
  rw [windowMean_congr rows cols data (fun _ _ => v) k i j ch ch h]
  have hpos := window_area_pos (K := K) rows cols k i j hi hj
  unfold windowMean
  rw [Finset.sum_const, Finset.sum_const, Nat.card_Ico, Nat.card_Ico, smul_smul,
    nsmul_eq_mul, mul_div_cancel_left₀ _ (ne_of_gt hpos)]

/-- The window mean is linear in the channel. -/
theorem windowMean_mul (rows cols : ℕ) (data data' : ℕ → Vec3d K) (k i j : ℕ)
    (ch ch' : Fin 3) (a : K)
    (h : ∀ r c, r < rows → c < cols → data (r * cols + c) ch = a * data' (r * cols + c) ch') :
    windowMean rows cols data k i j ch = a * windowMean rows cols data' k i j ch' := by
  rw [windowMean_congr rows cols data (fun p _ => a * data' p ch') k i j ch ch h]
  unfold windowMean
  simp only [← Finset.mul_sum]
  rw [mul_div_assoc]

/-- The window mean of a positive channel is positive. -/
theorem windowMean_pos (rows cols : ℕ) (data : ℕ → Vec3d K) (k i j : ℕ) (ch : Fin 3)
    (h : ∀ r c, r < rows → c < cols → 0 < data (r * cols + c) ch) (hi : i < rows)
    (hj : j < cols) :
    0 < windowMean rows cols data k i j ch := by
  unfold windowMean
  refine div_pos ?_ (window_area_pos rows cols k i j hi hj)
  have hr : (Finset.Ico (i - (k - 1) / 2) (min rows (i + 1 + k / 2))).Nonempty :=
    Finset.nonempty_Ico.mpr (by omega)
  have hc : (Finset.Ico (j - (k - 1) / 2) (min cols (j + 1 + k / 2))).Nonempty :=
    Finset.nonempty_Ico.mpr (by omega)
  refine Finset.sum_pos (fun r hr' => Finset.sum_pos (fun c hc' => ?_) hc) hr
  rw [Finset.mem_Ico] at hr' hc'
  exact h r c (lt_of_lt_of_le hr'.2 (Nat.min_le_left _ _))
    (lt_of_lt_of_le hc'.2 (Nat.min_le_left _ _))

end

section

variable {K : Type} [LinearOrderedField K]

/-! ## Normalisation -/

/-- Lines 282-292 in closed form: the result is defined when the root of the mean square is
not zero. -/
theorem normalizeIllumination_eq (sqrt : K → K) (m : Scalar K) :
    normalizeIllumination sqrt m =
      if sqrt ((m 2 * m 2 + m 1 * m 1 + m 0 * m 0) / 3) = 0 then none
      else some (fun i => (![m 2, m 1, m 0, m 3] : Scalar K) i
        / sqrt ((m 2 * m 2 + m 1 * m 1 + m 0 * m 0) / 3)) := by
  have hswap : Function.update (Function.update m 0 (m 2)) 2 (m 0) = ![m 2, m 1, m 0, m 3] := by
    funext i
    fin_cases i <;> simp [Function.update]
  unfold normalizeIllumination
  simp only [hswap]
  rfl

/-- The mean of a matrix whose entries are those of another divided by `c`. -/
theorem meanMat_div (M M' : Mat K) (c : K) (hr : M'.rows = M.rows) (hc : M'.cols = M.cols)
    (h : ∀ p, p < M.rows * M.cols → ∀ ch, M'.data p ch = M.data p ch / c) :
    meanMat M' = fun i => meanMat M i / c := by
  funext i
  unfold meanMat
  rw [hr, hc]
  by_cases h3 : i.val < 3
  · rw [dif_pos h3, dif_pos h3]
    by_cases h0 : M.rows * M.cols = 0
    · rw [if_pos h0, if_pos h0, zero_div]
    · rw [if_neg h0, if_neg h0]
      have : ∑ p ∈ Finset.range (M.rows * M.cols), M'.data p ⟨i.val, h3⟩
          = (∑ p ∈ Finset.range (M.rows * M.cols), M.data p ⟨i.val, h3⟩) / c := by
        rw [Finset.sum_div]
        exact Finset.sum_congr rfl fun p hp => h p (Finset.mem_range.mp hp) _
      rw [this, div_right_comm]
  · rw [dif_neg h3, dif_neg h3, zero_div]

/-- Dividing a vector by a positive constant does not change its normalisation, for an exact
square root. -/
theorem normalizeIllumination_div (sqrt : K → K)
    (hsqrt : ∀ x, 0 ≤ x → 0 ≤ sqrt x ∧ sqrt x * sqrt x = x) (m : Scalar K) (c : K)
    (hc : 0 < c) :
    normalizeIllumination sqrt (fun i => m i / c) = normalizeIllumination sqrt m := by
  rw [normalizeIllumination_eq, normalizeIllumination_eq]
  have hS : 0 ≤ (m 2 * m 2 + m 1 * m 1 + m 0 * m 0) / 3 :=
    div_nonneg (add_nonneg (add_nonneg (mul_self_nonneg _) (mul_self_nonneg _))
      (mul_self_nonneg _)) (by norm_num)
  have hS' : (m 2 / c * (m 2 / c) + m 1 / c * (m 1 / c) + m 0 / c * (m 0 / c)) / 3
      = (m 2 * m 2 + m 1 * m 1 + m 0 * m 0) / 3 / (c * c) := by
    rw [div_mul_div_comm, div_mul_div_comm, div_mul_div_comm, ← add_div, ← add_div,
      div_right_comm]
  have hS'' : 0 ≤ (m 2 * m 2 + m 1 * m 1 + m 0 * m 0) / 3 / (c * c) :=
    div_nonneg hS (mul_self_nonneg c)
  obtain ⟨q0, qq⟩ := hsqrt _ hS
  obtain ⟨q0', qq'⟩ := hsqrt _ hS''
  have hq : sqrt ((m 2 * m 2 + m 1 * m 1 + m 0 * m 0) / 3 / (c * c))
      = sqrt ((m 2 * m 2 + m 1 * m 1 + m 0 * m 0) / 3) / c := by
    rw [← mul_self_inj q0' (div_nonneg q0 (le_of_lt hc)), qq', div_mul_div_comm, qq]
  simp only [hS', hq]
  have hc0 : c ≠ 0 := ne_of_gt hc
  by_cases h0 : sqrt ((m 2 * m 2 + m 1 * m 1 + m 0 * m 0) / 3) = 0
  · simp [h0]
  · have h0' : sqrt ((m 2 * m 2 + m 1 * m 1 + m 0 * m 0) / 3) / c ≠ 0 := div_ne_zero h0 hc0
    rw [if_neg h0, if_neg h0']
    congr 1
    funext i
    fin_cases i <;> simp <;> field_simp

/-- The mean illumination for the upper bound `c * upperBound` is the mean illumination for
`upperBound` divided by `c`. -/
theorem meanIllumination_scale [FloorRing K] (sqrt cos sin : K → K) (rnd : ℕ → K)
    (next : ℕ → ℕ) (source : Mat K) (N n : ℤ) (upperBound : K)
    (rowsStep colsStep kernelSize : ℤ) (c : K) (hc : c ≠ 0) :
    meanIllumination sqrt cos sin rnd next source N n (c * upperBound) rowsStep colsStep
        kernelSize
      = (meanIllumination sqrt cos sin rnd next source N n upperBound rowsStep colsStep
          kernelSize).map fun m => fun i => m i / c := by
  unfold meanIllumination
  cases estimationGrid sqrt cos sin rnd next source N n rowsStep colsStep with
  | none => rfl
  | some g =>
    simp only [Option.some_bind]
    cases (if kernelSize > 1 then
        (Filter64F g.1 kernelSize).bind fun rs =>
          (Filter64F g.2 kernelSize).map fun d => (rs, d)
      else some g) with
    | none => rfl
    | some g' =>
      simp only [Option.some_bind, Option.map_map]
      rw [divideMat_eq, divideMat_eq]
      have hiff : (∀ p, p < g'.1.rows * g'.1.cols → ∀ ch, c * upperBound * g'.2.data p ch ≠ 0)
          ↔ (∀ p, p < g'.1.rows * g'.1.cols → ∀ ch, upperBound * g'.2.data p ch ≠ 0) := by
        constructor
        · intro h p hp ch h0
          exact h p hp ch (by rw [mul_assoc, h0, mul_zero])
        · intro h p hp ch
          rw [mul_assoc]
          exact mul_ne_zero hc (h p hp ch)
      by_cases hok : ∀ p, p < g'.1.rows * g'.1.cols → ∀ ch, upperBound * g'.2.data p ch ≠ 0
      · rw [if_pos hok, if_pos (hiff.mpr hok), Option.map_some', Option.map_some']
        congr 1
        refine meanMat_div _ _ c rfl rfl ?_
        intro p hp ch
        simp only at hp ⊢
        rw [if_pos hp, if_pos hp, mul_assoc, mul_comm c, div_mul_eq_div_div]
      · rw [if_neg hok, if_neg (fun h => hok (hiff.mp h))]
        rfl

end

section

variable {K : Type} [LinearOrderedField K]

/-! ## The mean illumination when every spray samples the centre pixel only -/

/-- The mean of `A / (upperBound * B)` when every entry of `B` is one. -/
theorem mean_divide_ones (A B : Mat K) (upperBound : K) (hub : upperBound ≠ 0)
    (hB : ∀ p, p < A.rows * A.cols → ∀ ch, B.data p ch = 1) (hne : A.rows * A.cols ≠ 0) :
    (divideMat A upperBound B).map meanMat =
      some (fun c => if h : c.val < 3 then
        (∑ p ∈ Finset.range (A.rows * A.cols), A.data p ⟨c.val, h⟩ / upperBound)
          / ((A.rows * A.cols : ℕ) : K) else 0) := by
  rw [divideMat_eq]
  have hok : ∀ p, p < A.rows * A.cols → ∀ c, upperBound * B.data p c ≠ 0 := by
    intro p hp c
    rw [hB p hp c, mul_one]
    exact hub
  rw [if_pos hok, Option.map_some']
  congr 1
  funext c
  unfold meanMat
  simp only
  by_cases h : c.val < 3
  · rw [dif_pos h, dif_pos h, if_neg hne]
    congr 1
    refine Finset.sum_congr rfl fun p hp => ?_
    have hp' := Finset.mem_range.mp hp
    rw [if_pos hp', hB p hp' _, mul_one]
  · rw [dif_neg h, dif_neg h]

/-- The mean illumination of an image whose sampled pixels are non-negative, for a non-empty
grid and an upper bound that is not zero, when draws lie in `[0, 1)` and `cos`, `sin` are
bounded by one: the mean over the grid of `G / upperBound`, where `G` is the grid `S` of
sampled pixels (with `(0, 0, 0)` for a pixel that has a zero channel), smoothed by
`Filter64F` when `kernelSize > 1`. -/
theorem meanIllumination_zero [FloorRing K] (sqrt cos sin : K → K) (rnd : ℕ → K)
    (next : ℕ → ℕ)
    (hcos : ∀ a, |cos a| ≤ 1) (hsin : ∀ a, |sin a| ≤ 1) (hrnd : ∀ t, 0 ≤ rnd t ∧ rnd t < 1)
    (source : Mat K)
    (hsize : ((source.rows * source.rows + source.cols * source.cols : ℕ) : ℤ) ≤ INT_MAX)
    (N n : ℤ) (hN : 1 ≤ N) (hNmax : 1000 * N ≤ INT_MAX) (hn : 1 ≤ n) (upperBound : K)
    (hub : upperBound ≠ 0) (rs cs : ℕ) (hrs : 1 ≤ rs) (hcs : 1 ≤ cs)
    (hrows : rs ≤ source.rows) (hcols : cs ≤ source.cols) (kernelSize : ℤ)
    (hpix : ∀ i j, i < source.rows / rs → j < source.cols / cs → ∀ k,
      0 ≤ source.data (i * rs * source.cols + j * cs) k) :
    ∃ S G : ℕ → Vec3d K,
      (∀ i j, i < source.rows / rs → j < source.cols / cs →
        S (i * (source.cols / cs) + j)
          = (if ∃ c, source.data (i * rs * source.cols + j * cs) c = 0 then (fun _ => 0)
              else source.data (i * rs * source.cols + j * cs))) ∧
      (∀ i j, i < source.rows / rs → j < source.cols / cs → ∀ ch,
        G (i * (source.cols / cs) + j) ch
          = if kernelSize > 1 then
              windowMean (source.rows / rs) (source.cols / cs) S kernelSize.toNat i j ch
            else S (i * (source.cols / cs) + j) ch) ∧
      meanIllumination sqrt cos sin rnd next source N n upperBound (rs : ℤ) (cs : ℤ) kernelSize
        = some (fun c => if h : c.val < 3 then
            (∑ p ∈ Finset.range (source.rows / rs * (source.cols / cs)),
              G p ⟨c.val, h⟩ / upperBound)
              / ((source.rows / rs * (source.cols / cs) : ℕ) : K) else 0) := by
  obtain ⟨g, hg, hr1, hc1, hr2, hc2, hdata⟩ := estimationGrid_zero sqrt cos sin rnd next
    hcos hsin hrnd source hsize N n hN hNmax hn rs cs hrs hcs hpix
  have hor : 0 < source.rows / rs := Nat.div_pos hrows hrs
  have hoc : 0 < source.cols / cs := Nat.div_pos hcols hcs
  have hne : source.rows / rs * (source.cols / cs) ≠ 0 :=
    Nat.pos_iff_ne_zero.mp (Nat.mul_pos hor hoc)
  unfold meanIllumination
  rw [hg, Option.some_bind]
  by_cases hk : kernelSize > 1
  · obtain ⟨o1, ho1, or1, oc1, _, od1⟩ := Filter64F_eq g.1 kernelSize (by omega)
      (by rw [hr1]; exact hor) (by rw [hc1]; exact hoc)
    obtain ⟨o2, ho2, or2, oc2, _, od2⟩ := Filter64F_eq g.2 kernelSize (by omega)
      (by rw [hr2]; exact hor) (by rw [hc2]; exact hoc)
    rw [hr1, hc1] at od1
    rw [hr2, hc2] at od2
    refine ⟨g.1.data, o1.data, fun i j hi hj => (hdata i j hi hj).1, fun i j hi hj ch => ?_, ?_⟩
    · rw [if_pos hk, od1 i j hi hj ch]
    · rw [if_pos hk, ho1, Option.some_bind, ho2, Option.map_some', Option.some_bind]
      have hB : ∀ p, p < o1.rows * o1.cols → ∀ ch, o2.data p ch = 1 := by
        intro p hp ch
        rw [or1, oc1, hr1, hc1] at hp
        obtain ⟨i, j, hi, hj, rfl⟩ := grid_index_exists hp
        rw [od2 i j hi hj ch]
        refine windowMean_const _ _ _ _ i j ch 1 (fun r c hr hc => ?_) hi hj
        rw [(hdata r c hr hc).2]
      have := mean_divide_ones o1 o2 upperBound hub hB (by rw [or1, oc1, hr1, hc1]; exact hne)
      rw [or1, oc1, hr1, hc1] at this
      exact this
  · refine ⟨g.1.data, g.1.data, fun i j hi hj => (hdata i j hi hj).1, fun i j hi hj ch => ?_, ?_⟩
    · rw [if_neg hk]
    · rw [if_neg hk, Option.some_bind]
      have hB : ∀ p, p < g.1.rows * g.1.cols → ∀ ch, g.2.data p ch = 1 := by
        intro p hp ch
        rw [hr1, hc1] at hp
        obtain ⟨i, j, hi, hj, rfl⟩ := grid_index_exists hp
        rw [(hdata i j hi hj).2]
      have := mean_divide_ones g.1 g.2 upperBound hub hB (by rw [hr1, hc1]; exact hne)
      rw [hr1, hc1] at this
      exact this

end

section

variable {K : Type} [LinearOrderedField K]

/-- A pixel sampled by the estimation grid lies inside the image. -/
theorem sample_index_lt {rows cols rs cs i j : ℕ} (hrs : 1 ≤ rs) (hcs : 1 ≤ cs)
    (hi : i < rows / rs) (hj : j < cols / cs) : i * rs * cols + j * cs < rows * cols :=
  grid_index_lt (grid_cell_lt hrs hi) (grid_cell_lt hcs hj)

/-- The mean over the grid of a channel that is the same in every cell. -/
theorem mean_const (total : ℕ) (hne : total ≠ 0) (G : ℕ → K) (v upperBound : K)
    (h : ∀ p, p < total → G p = v) :
    (∑ p ∈ Finset.range total, G p / upperBound) / ((total : ℕ) : K) = v / upperBound := by
  have hsum : ∑ p ∈ Finset.range total, G p / upperBound
      = ∑ _p ∈ Finset.range total, v / upperBound :=
    Finset.sum_congr rfl fun p hp => by rw [h p (Finset.mem_range.mp hp)]
  have hT : ((total : ℕ) : K) ≠ 0 := Nat.cast_ne_zero.mpr hne
  rw [hsum, Finset.sum_const, Finset.card_range, nsmul_eq_mul, mul_div_cancel_left₀ _ hT]

/-- The mean illumination of an image whose sampled pixels all equal `(v, v, v)`, `v > 0`. -/
theorem meanIllumination_gray [FloorRing K] (sqrt cos sin : K → K) (rnd : ℕ → K)
    (next : ℕ → ℕ)
    (hcos : ∀ a, |cos a| ≤ 1) (hsin : ∀ a, |sin a| ≤ 1) (hrnd : ∀ t, 0 ≤ rnd t ∧ rnd t < 1)
    (source : Mat K)
    (hsize : ((source.rows * source.rows + source.cols * source.cols : ℕ) : ℤ) ≤ INT_MAX) (v : K)
    (hv : 0 < v)
    (hgray : ∀ p, p < source.rows * source.cols → ∀ c, source.data p c = v)
    (N n : ℤ) (hN : 1 ≤ N) (hNmax : 1000 * N ≤ INT_MAX) (hn : 1 ≤ n) (upperBound : K)
    (hub : upperBound ≠ 0)
    (rs cs : ℕ) (hrs : 1 ≤ rs) (hcs : 1 ≤ cs) (hrows : rs ≤ source.rows)
    (hcols : cs ≤ source.cols) (kernelSize : ℤ) :
    meanIllumination sqrt cos sin rnd next source N n upperBound (rs : ℤ) (cs : ℤ) kernelSize
      = some ![v / upperBound, v / upperBound, v / upperBound, 0] := by
  have hpx : ∀ i j, i < source.rows / rs → j < source.cols / cs →
      source.data (i * rs * source.cols + j * cs) = fun _ => v := fun i j hi hj =>
    funext fun c => hgray _ (sample_index_lt hrs hcs hi hj) c
  obtain ⟨S, G, hS, hG, hm⟩ := meanIllumination_zero sqrt cos sin rnd next hcos hsin hrnd
    source hsize N n hN hNmax hn upperBound hub rs cs hrs hcs hrows hcols kernelSize
    (fun i j hi hj k => by rw [hpx i j hi hj]; exact le_of_lt hv)
  have hS' : ∀ i j, i < source.rows / rs → j < source.cols / cs → ∀ ch,
      S (i * (source.cols / cs) + j) ch = v := by
    intro i j hi hj ch
    rw [hS i j hi hj, hpx i j hi hj, if_neg]
    rintro ⟨_, h⟩
    exact ne_of_gt hv h
  have hG' : ∀ p, p < source.rows / rs * (source.cols / cs) → ∀ ch, G p ch = v := by
    intro p hp ch
    obtain ⟨i, j, hi, hj, rfl⟩ := grid_index_exists hp
    rw [hG i j hi hj ch]
    split_ifs
    · exact windowMean_const _ _ S _ i j ch v (fun r c hr hc => hS' r c hr hc ch) hi hj
    · exact hS' i j hi hj ch
  have hne : source.rows / rs * (source.cols / cs) ≠ 0 :=
    Nat.pos_iff_ne_zero.mp (Nat.mul_pos (Nat.div_pos hrows hrs) (Nat.div_pos hcols hcs))
  rw [hm]
  congr 1
  funext c
  fin_cases c
  · simpa using mean_const _ hne (fun p => G p 0) v upperBound (fun p hp => hG' p hp 0)
  · simpa using mean_const _ hne (fun p => G p 1) v upperBound (fun p hp => hG' p hp 1)
  · simpa using mean_const _ hne (fun p => G p 2) v upperBound (fun p hp => hG' p hp 2)
  · simp

/-- The estimate for an image whose pixels all equal `(v, v, v)`, `v > 0`, with a positive
upper bound and a square root that is exact on squares: the vector `(1, 1, 1)`. -/
theorem estimate_gray [FloorRing K] (sqrt cos sin : K → K) (rnd : ℕ → K) (next : ℕ → ℕ)
    (hsqrt : ∀ x, 0 ≤ x → sqrt (x * x) = x)
    (hcos : ∀ a, |cos a| ≤ 1) (hsin : ∀ a, |sin a| ≤ 1) (hrnd : ∀ t, 0 ≤ rnd t ∧ rnd t < 1)
    (source : Mat K)
    (hsize : ((source.rows * source.rows + source.cols * source.cols : ℕ) : ℤ) ≤ INT_MAX) (v : K)
    (hv : 0 < v)
    (hgray : ∀ p, p < source.rows * source.cols → ∀ c, source.data p c = v)
    (N n : ℤ) (hN : 1 ≤ N) (hNmax : 1000 * N ≤ INT_MAX) (hn : 1 ≤ n) (upperBound : K)
    (hub : 0 < upperBound)
    (rs cs : ℕ) (hrs : 1 ≤ rs) (hcs : 1 ≤ cs) (hrows : rs ≤ source.rows)
    (hcols : cs ≤ source.cols) (kernelSize : ℤ) :
    PerformIlluminationEstimation sqrt cos sin rnd next source N n upperBound (rs : ℤ) (cs : ℤ)
      kernelSize = some ![1, 1, 1, 0] := by
  unfold PerformIlluminationEstimation
  rw [meanIllumination_gray sqrt cos sin rnd next hcos hsin hrnd source hsize v hv hgray N n hN hNmax hn
    upperBound (ne_of_gt hub) rs cs hrs hcs hrows hcols kernelSize, Option.some_bind,
    normalizeIllumination_eq]
  have hq : 0 < v / upperBound := div_pos hv hub
  have hs : sqrt ((v / upperBound * (v / upperBound) + v / upperBound * (v / upperBound)
      + v / upperBound * (v / upperBound)) / 3) = v / upperBound := by
    have : (v / upperBound * (v / upperBound) + v / upperBound * (v / upperBound)
        + v / upperBound * (v / upperBound)) / 3 = v / upperBound * (v / upperBound) := by ring
    rw [this, hsqrt _ (le_of_lt hq)]
  simp only [Matrix.cons_val_zero, Matrix.cons_val_one, Matrix.head_cons, Matrix.cons_val_two,
    Matrix.tail_cons]
  rw [hs, if_neg (ne_of_gt hq)]
  congr 1
  funext i
  fin_cases i <;> simp [div_self (ne_of_gt hq)]

/-- The estimate for an image of which every sampled pixel is non-negative and has a zero
channel: the mean illumination is the zero vector, and the normalisation divides by
`sqrt 0 = 0`. -/
theorem estimate_degenerate [FloorRing K] (sqrt cos sin : K → K) (rnd : ℕ → K)
    (next : ℕ → ℕ) (hsqrt : sqrt 0 = 0)
    (hcos : ∀ a, |cos a| ≤ 1) (hsin : ∀ a, |sin a| ≤ 1) (hrnd : ∀ t, 0 ≤ rnd t ∧ rnd t < 1)
    (source : Mat K)
    (hsize : ((source.rows * source.rows + source.cols * source.cols : ℕ) : ℤ) ≤ INT_MAX)
    (N n : ℤ) (hN : 1 ≤ N) (hNmax : 1000 * N ≤ INT_MAX) (hn : 1 ≤ n) (upperBound : K)
    (hub : upperBound ≠ 0) (rs cs : ℕ) (hrs : 1 ≤ rs) (hcs : 1 ≤ cs)
    (hrows : rs ≤ source.rows) (hcols : cs ≤ source.cols) (kernelSize : ℤ)
    (hpix : ∀ i j, i < source.rows / rs → j < source.cols / cs → ∀ k,
      0 ≤ source.data (i * rs * source.cols + j * cs) k)
    (hzero : ∀ i j, i < source.rows / rs → j < source.cols / cs →
      ∃ c, source.data (i * rs * source.cols + j * cs) c = 0) :
    meanIllumination sqrt cos sin rnd next source N n upperBound (rs : ℤ) (cs : ℤ) kernelSize
      = some (fun _ => 0) ∧
    PerformIlluminationEstimation sqrt cos sin rnd next source N n upperBound (rs : ℤ) (cs : ℤ)
      kernelSize = none := by
  obtain ⟨S, G, hS, hG, hm⟩ := meanIllumination_zero sqrt cos sin rnd next hcos hsin hrnd
    source hsize N n hN hNmax hn upperBound hub rs cs hrs hcs hrows hcols kernelSize hpix
  have hS' : ∀ i j, i < source.rows / rs → j < source.cols / cs → ∀ ch,
      S (i * (source.cols / cs) + j) ch = 0 := by
    intro i j hi hj ch
    rw [hS i j hi hj, if_pos (hzero i j hi hj)]
  have hG' : ∀ p, p < source.rows / rs * (source.cols / cs) → ∀ ch, G p ch = 0 := by
    intro p hp ch
    obtain ⟨i, j, hi, hj, rfl⟩ := grid_index_exists hp
    rw [hG i j hi hj ch]
    split_ifs
    · exact windowMean_const _ _ S _ i j ch 0 (fun r c hr hc => hS' r c hr hc ch) hi hj
    · exact hS' i j hi hj ch
  have hne : source.rows / rs * (source.cols / cs) ≠ 0 :=
    Nat.pos_iff_ne_zero.mp (Nat.mul_pos (Nat.div_pos hrows hrs) (Nat.div_pos hcols hcs))
  have hmean : meanIllumination sqrt cos sin rnd next source N n upperBound (rs : ℤ) (cs : ℤ)
      kernelSize = some (fun _ => 0) := by
    rw [hm]
    congr 1
    funext c
    by_cases h : c.val < 3
    · rw [dif_pos h, mean_const _ hne (fun p => G p ⟨c.val, h⟩) 0 upperBound
        (fun p hp => hG' p hp _), zero_div]
    · rw [dif_neg h]
  refine ⟨hmean, ?_⟩
  unfold PerformIlluminationEstimation
  rw [hmean, Option.some_bind, normalizeIllumination_eq]
  simp [hsqrt]

end

section

variable {K : Type} [LinearOrderedField K]

/-! ## An image with a red bias -/

/-- The grid mean is linear. -/
theorem mean_mul (total : ℕ) (G G' : ℕ → K) (a upperBound : K)
    (h : ∀ p, p < total → G p = a * G' p) :
    (∑ p ∈ Finset.range total, G p / upperBound) / ((total : ℕ) : K)
      = a * ((∑ p ∈ Finset.range total, G' p / upperBound) / ((total : ℕ) : K)) := by
  have hsum : ∑ p ∈ Finset.range total, G p / upperBound
      = a * ∑ p ∈ Finset.range total, G' p / upperBound := by
    rw [Finset.mul_sum]
    exact Finset.sum_congr rfl fun p hp => by
      rw [h p (Finset.mem_range.mp hp), mul_div_assoc]
  rw [hsum, mul_div_assoc]

/-- The grid mean of a positive channel is positive. -/
theorem mean_pos (total : ℕ) (hne : total ≠ 0) (G : ℕ → K) (upperBound : K)
    (hub : 0 < upperBound) (h : ∀ p, p < total → 0 < G p) :
    0 < (∑ p ∈ Finset.range total, G p / upperBound) / ((total : ℕ) : K) := by
  refine div_pos (Finset.sum_pos (fun p hp => div_pos (h p (Finset.mem_range.mp hp)) hub) ?_)
    (Nat.cast_pos.mpr (Nat.pos_of_ne_zero hne))
  exact Finset.nonempty_range_iff.mpr hne

/-- The mean illumination of an image in which channel 2 is twice channel 1, channel 0 equals
channel 1 and all are positive keeps these relations. -/
theorem meanIllumination_red [FloorRing K] (sqrt cos sin : K → K) (rnd : ℕ → K)
    (next : ℕ → ℕ)
    (hcos : ∀ a, |cos a| ≤ 1) (hsin : ∀ a, |sin a| ≤ 1) (hrnd : ∀ t, 0 ≤ rnd t ∧ rnd t < 1)
    (source : Mat K)
    (hsize : ((source.rows * source.rows + source.cols * source.cols : ℕ) : ℤ) ≤ INT_MAX)
    (hred : ∀ p, p < source.rows * source.cols →
      source.data p 2 = 2 * source.data p 1 ∧ source.data p 0 = source.data p 1 ∧
      0 < source.data p 1)
    (N n : ℤ) (hN : 1 ≤ N) (hNmax : 1000 * N ≤ INT_MAX) (hn : 1 ≤ n) (upperBound : K)
    (hub : 0 < upperBound)
    (rs cs : ℕ) (hrs : 1 ≤ rs) (hcs : 1 ≤ cs) (hrows : rs ≤ source.rows)
    (hcols : cs ≤ source.cols) (kernelSize : ℤ) :
    ∃ m : Scalar K,
      meanIllumination sqrt cos sin rnd next source N n upperBound (rs : ℤ) (cs : ℤ) kernelSize
        = some m ∧ m 2 = 2 * m 1 ∧ m 0 = m 1 ∧ 0 < m 1 := by
  have hpos : ∀ p, p < source.rows * source.cols → ∀ c, 0 < source.data p c := by
    intro p hp c
    obtain ⟨h2, h0, h1⟩ := hred p hp
    fin_cases c
    · show 0 < source.data p 0
      rw [h0]; exact h1
    · exact h1
    · show 0 < source.data p 2
      rw [h2]; exact mul_pos (by norm_num) h1
  obtain ⟨S, G, hS, hG, hm⟩ := meanIllumination_zero sqrt cos sin rnd next hcos hsin hrnd
    source hsize N n hN hNmax hn upperBound (ne_of_gt hub) rs cs hrs hcs hrows hcols kernelSize
    (fun i j hi hj k => le_of_lt (hpos _ (sample_index_lt hrs hcs hi hj) k))
  have hS' : ∀ i j, i < source.rows / rs → j < source.cols / cs →
      S (i * (source.cols / cs) + j) = source.data (i * rs * source.cols + j * cs) := by
    intro i j hi hj
    rw [hS i j hi hj, if_neg]
    rintro ⟨c, hc⟩
    exact ne_of_gt (hpos _ (sample_index_lt hrs hcs hi hj) c) hc
  have hS2 : ∀ i j, i < source.rows / rs → j < source.cols / cs →
      S (i * (source.cols / cs) + j) 2 = 2 * S (i * (source.cols / cs) + j) 1 := by
    intro i j hi hj
    rw [hS' i j hi hj]
    exact (hred _ (sample_index_lt hrs hcs hi hj)).1
  have hS0 : ∀ i j, i < source.rows / rs → j < source.cols / cs →
      S (i * (source.cols / cs) + j) 0 = S (i * (source.cols / cs) + j) 1 := by
    intro i j hi hj
    rw [hS' i j hi hj]
    exact (hred _ (sample_index_lt hrs hcs hi hj)).2.1
  have hS1 : ∀ i j, i < source.rows / rs → j < source.cols / cs →
      0 < S (i * (source.cols / cs) + j) 1 := by
    intro i j hi hj
    rw [hS' i j hi hj]
    exact (hred _ (sample_index_lt hrs hcs hi hj)).2.2
  have hG2 : ∀ p, p < source.rows / rs * (source.cols / cs) → G p 2 = 2 * G p 1 := by
    intro p hp
    obtain ⟨i, j, hi, hj, rfl⟩ := grid_index_exists hp
    rw [hG i j hi hj 2, hG i j hi hj 1]
    split_ifs
    · exact windowMean_mul _ _ S S _ i j 2 1 2 hS2
    · exact hS2 i j hi hj
  have hG0 : ∀ p, p < source.rows / rs * (source.cols / cs) → G p 0 = 1 * G p 1 := by
    intro p hp
    obtain ⟨i, j, hi, hj, rfl⟩ := grid_index_exists hp
    rw [hG i j hi hj 0, hG i j hi hj 1, one_mul]
    split_ifs
    · exact windowMean_congr _ _ S S _ i j 0 1 hS0
    · exact hS0 i j hi hj
  have hG1 : ∀ p, p < source.rows / rs * (source.cols / cs) → 0 < G p 1 := by
    intro p hp
    obtain ⟨i, j, hi, hj, rfl⟩ := grid_index_exists hp
    rw [hG i j hi hj 1]
    split_ifs
    · exact windowMean_pos _ _ S _ i j 1 hS1 hi hj
    · exact hS1 i j hi hj
  have hne : source.rows / rs * (source.cols / cs) ≠ 0 :=
    Nat.pos_iff_ne_zero.mp (Nat.mul_pos (Nat.div_pos hrows hrs) (Nat.div_pos hcols hcs))
  refine ⟨_, hm, ?_, ?_, ?_⟩
  · simpa using mean_mul _ (fun p => G p 2) (fun p => G p 1) 2 upperBound hG2
  · simpa using mean_mul _ (fun p => G p 0) (fun p => G p 1) 1 upperBound hG0
  · simpa using mean_pos _ hne (fun p => G p 1) upperBound hub hG1

/-- The estimate for an image with such a red bias, and the image after the division loops
of `RemoveColorCast`. -/
theorem estimate_red [FloorRing K] (sqrt cos sin : K → K) (rnd : ℕ → K) (next : ℕ → ℕ)
    (hsqrt : ∀ x, 0 < x → 0 < sqrt x)
    (hcos : ∀ a, |cos a| ≤ 1) (hsin : ∀ a, |sin a| ≤ 1) (hrnd : ∀ t, 0 ≤ rnd t ∧ rnd t < 1)
    (source : Mat K)
    (hsize : ((source.rows * source.rows + source.cols * source.cols : ℕ) : ℤ) ≤ INT_MAX)
    (hred : ∀ p, p < source.rows * source.cols →
      source.data p 2 = 2 * source.data p 1 ∧ source.data p 0 = source.data p 1 ∧
      0 < source.data p 1)
    (N n : ℤ) (hN : 1 ≤ N) (hNmax : 1000 * N ≤ INT_MAX) (hn : 1 ≤ n) (upperBound : K)
    (hub : 0 < upperBound)
    (rs cs : ℕ) (hrs : 1 ≤ rs) (hcs : 1 ≤ cs) (hrows : rs ≤ source.rows)
    (hcols : cs ≤ source.cols) (kernelSize : ℤ) :
    ∃ r : Scalar K,
      PerformIlluminationEstimation sqrt cos sin rnd next source N n upperBound (rs : ℤ)
        (cs : ℤ) kernelSize = some r ∧
      r 0 = 2 * r 1 ∧ r 0 = 2 * r 2 ∧ r 1 < r 0 ∧ r 2 < r 0 ∧
      ∃ converted, dividedImage source r = some converted ∧
        RemoveColorCast source r = some (converted.convertTo source.depth) ∧
        ∀ i j, i < source.rows → j < source.cols →
          source.data (i * source.cols + j) 2 / source.data (i * source.cols + j) 1 = 2 ∧
          converted.data (i * source.cols + j) 2 / converted.data (i * source.cols + j) 1 = 1 := by
  obtain ⟨m, hm, h2, h0, h1⟩ := meanIllumination_red sqrt cos sin rnd next hcos hsin hrnd
    source hsize hred N n hN hNmax hn upperBound hub rs cs hrs hcs hrows hcols kernelSize
  have hS : 0 < (m 2 * m 2 + m 1 * m 1 + m 0 * m 0) / 3 := by
    have : 0 < m 1 * m 1 := mul_pos h1 h1
    have h22 : 0 ≤ m 2 * m 2 := mul_self_nonneg _
    have h00 : 0 ≤ m 0 * m 0 := mul_self_nonneg _
    exact div_pos (by linarith) (by norm_num)
  have hq := hsqrt _ hS
  generalize hQ : sqrt ((m 2 * m 2 + m 1 * m 1 + m 0 * m 0) / 3) = q at hq
  have hq0 := ne_of_gt hq
  have hr : PerformIlluminationEstimation sqrt cos sin rnd next source N n upperBound (rs : ℤ)
      (cs : ℤ) kernelSize = some (fun i => (![m 2, m 1, m 0, m 3] : Scalar K) i / q) := by
    unfold PerformIlluminationEstimation
    rw [hm, Option.some_bind, normalizeIllumination_eq, hQ, if_neg hq0]
  have hr1 : 0 < m 1 / q := div_pos h1 hq
  have hnz : ∀ k : Fin 3,
      (fun i => (![m 2, m 1, m 0, m 3] : Scalar K) i / q) (mirrorIndex k) ≠ 0 := by
    intro k
    fin_cases k
    · show m 0 / q ≠ 0
      rw [h0]; exact ne_of_gt hr1
    · exact ne_of_gt hr1
    · show m 2 / q ≠ 0
      rw [h2]; exact div_ne_zero (mul_ne_zero (by norm_num) (ne_of_gt h1)) hq0
  obtain ⟨d, hd, hres, _, _, hdata⟩ :=
    removeColorCast_eq source (fun i => (![m 2, m 1, m 0, m 3] : Scalar K) i / q) hnz
  refine ⟨_, hr, ?_, ?_, ?_, ?_, d, hd, hres, fun i j hi hj => ?_⟩
  · show m 2 / q = 2 * (m 1 / q)
    rw [h2, mul_div_assoc]
  · show m 2 / q = 2 * (m 0 / q)
    rw [h2, h0, mul_div_assoc]
  · show m 1 / q < m 2 / q
    rw [h2, mul_div_assoc]
    linarith
  · show m 0 / q < m 2 / q
    rw [h2, h0, mul_div_assoc]
    linarith
  · obtain ⟨s2, _, s1⟩ := hred _ (grid_index_lt hi hj)
    have hs1 := ne_of_gt s1
    refine ⟨by rw [s2, mul_div_assoc, div_self hs1, mul_one], ?_⟩
    rw [hdata i j hi hj 2, hdata i j hi hj 1]
    show source.data (i * source.cols + j) 2 / (m 2 / q)
      / (source.data (i * source.cols + j) 1 / (m 1 / q)) = 1
    rw [s2, h2]
    have hm1 := ne_of_gt h1
    field_simp
    ring

end

section

variable {K : Type} [LinearOrderedField K]

/-! ## Sample inputs -/

theorem sampleSqrt_zero : sampleSqrt 0 = 0 := by
  simp [sampleSqrt]

theorem sampleSqrt_mul_self (x : ℚ) (hx : 0 ≤ x) : sampleSqrt (x * x) = x := by
  unfold sampleSqrt
  have hn : 0 ≤ x.num := Rat.num_nonneg.mpr hx
  rw [Rat.mul_self_num, Rat.mul_self_den]
  have h1 : (x.num * x.num).toNat = x.num.toNat * x.num.toNat := by
    have : x.num = (x.num.toNat : ℤ) := (Int.toNat_of_nonneg hn).symm
    rw [this, ← Nat.cast_mul, Int.toNat_natCast, Int.toNat_natCast]
  rw [h1, Nat.sqrt_eq, Nat.sqrt_eq]
  have h2 : ((x.num.toNat : ℕ) : ℚ) = (x.num : ℚ) := by
    have : ((x.num.toNat : ℕ) : ℤ) = x.num := Int.toNat_of_nonneg hn
    rw [← this, Int.cast_natCast, Int.toNat_natCast]
  rw [h2, Rat.num_div_den]

theorem sampleSqrt_pos (x : ℚ) (hx : 0 < x) : 0 < sampleSqrt x := by
  unfold sampleSqrt
  have hn : 0 < x.num := Rat.num_pos.mpr hx
  have h1 : 0 < Nat.sqrt x.num.toNat := Nat.sqrt_pos.mpr (by omega)
  have h2 : 0 < Nat.sqrt x.den := Nat.sqrt_pos.mpr x.den_pos
  positivity

/-! ## Overflow of the `int` products -/

/-- The grid loops are not reached when `rows*rows+cols*cols` or `1000*N` exceeds `INT_MAX`. -/
theorem estimationGrid_overflow [FloorRing K] (sqrt cos sin : K → K) (rnd : ℕ → K)
    (next : ℕ → ℕ) (source : Mat K) (N n rowsStep colsStep : ℤ)
    (h : INT_MAX < ((source.rows * source.rows + source.cols * source.cols : ℕ) : ℤ) ∨
      INT_MAX < 1000 * N) :
    estimationGrid sqrt cos sin rnd next source N n rowsStep colsStep = none := by
  unfold estimationGrid
  simp only []
  rcases h with h | h
  · rw [intResult_overflow _ h]
    rfl
  · cases intResult ((source.rows * source.rows + source.cols * source.cols : ℕ) : ℤ) with
    | none => rfl
    | some squares =>
      rw [Option.some_bind]
      split_ifs
      · rfl
      · rfl
      · rw [intResult_overflow _ h]
        rfl

/-- Without the two grid matrices there is no mean illumination and no estimate. -/
theorem estimate_none_of_grid [FloorRing K] (sqrt cos sin : K → K) (rnd : ℕ → K)
    (next : ℕ → ℕ) (source : Mat K) (N n : ℤ) (upperBound : K)
    (rowsStep colsStep kernelSize : ℤ)
    (h : estimationGrid sqrt cos sin rnd next source N n rowsStep colsStep = none) :
    meanIllumination sqrt cos sin rnd next source N n upperBound rowsStep colsStep kernelSize
      = none ∧
    PerformIlluminationEstimation sqrt cos sin rnd next source N n upperBound rowsStep colsStep
      kernelSize = none := by
  have hm : meanIllumination sqrt cos sin rnd next source N n upperBound rowsStep colsStep
      kernelSize = none := by
    unfold meanIllumination
    rw [h]
    rfl
  refine ⟨hm, ?_⟩
  unfold PerformIlluminationEstimation
  rw [hm]
  rfl

/-! ## Claims on `PerformIlluminationEstimation` -/

/-- C3, the failing case: for an image whose pixels are all `(0, 0, 0)`, with valid
parameters (`N ≥ 1`, `n ≥ 1`, steps `≥ 1` and not larger than the image, `upperBound > 0`),
draws in `[0, 1)` and `sqrt 0 = 0`, the mean illumination vector is `(0, 0, 0)` and the final
`result /= sum` of `PerformIlluminationEstimation` divides by zero: no vector is returned, so
the result does not have unit root-mean-square magnitude.  (Where `rows*rows + cols*cols` or
`1000 * N` overflows, the grid loops are not reached and no vector is returned either.) -/
theorem estimate_black_image [FloorRing K] (sqrt cos sin : K → K) (rnd : ℕ → K)
    (next : ℕ → ℕ) (hsqrt : sqrt 0 = 0)
    (hcos : ∀ a, |cos a| ≤ 1) (hsin : ∀ a, |sin a| ≤ 1) (hrnd : ∀ t, 0 ≤ rnd t ∧ rnd t < 1)
    (source : Mat K) (hblack : ∀ p, p < source.rows * source.cols → ∀ c, source.data p c = 0)
    (N n : ℤ) (upperBound : K) (rowsStep colsStep kernelSize : ℤ)
    (hN : 1 ≤ N) (hn : 1 ≤ n) (hub : 0 < upperBound) (hrs : 1 ≤ rowsStep) (hcs : 1 ≤ colsStep)
    (hrows : rowsStep ≤ source.rows) (hcols : colsStep ≤ source.cols) :
    PerformIlluminationEstimation sqrt cos sin rnd next source N n upperBound rowsStep colsStep
      kernelSize = none := by
  obtain ⟨rs, rfl⟩ := Int.eq_ofNat_of_zero_le (le_trans (by norm_num) hrs)
  obtain ⟨cs, rfl⟩ := Int.eq_ofNat_of_zero_le (le_trans (by norm_num) hcs)
  have hrs' : 1 ≤ rs := by exact_mod_cast hrs
  have hcs' : 1 ≤ cs := by exact_mod_cast hcs
  by_cases hfit : ((source.rows * source.rows + source.cols * source.cols : ℕ) : ℤ) ≤ INT_MAX ∧
      1000 * N ≤ INT_MAX
  · exact (estimate_degenerate sqrt cos sin rnd next hsqrt hcos hsin hrnd source hfit.1 N n hN
      hfit.2 hn upperBound (ne_of_gt hub) rs cs hrs' hcs' (by exact_mod_cast hrows)
      (by exact_mod_cast hcols) kernelSize
      (fun i j hi hj k => le_of_eq (hblack _ (sample_index_lt hrs' hcs' hi hj) k).symm)
      (fun i j hi hj => ⟨0, hblack _ (sample_index_lt hrs' hcs' hi hj) 0⟩)).2
  · have hover : INT_MAX < ((source.rows * source.rows + source.cols * source.cols : ℕ) : ℤ) ∨
        INT_MAX < 1000 * N := by
      by_cases h1 : ((source.rows * source.rows + source.cols * source.cols : ℕ) : ℤ) ≤ INT_MAX
      · exact Or.inr (not_le.mp fun h2 => hfit ⟨h1, h2⟩)
      · exact Or.inl (not_le.mp h1)
    exact (estimate_none_of_grid sqrt cos sin rnd next source N n upperBound _ _ kernelSize
      (estimationGrid_overflow sqrt cos sin rnd next source N n _ _ hover)).2

theorem estimate_black_image_witness :
    (sampleSqrt 0 = 0 ∧ (∀ a, |sampleCos a| ≤ 1) ∧ (∀ a, |sampleSin a| ≤ 1) ∧
      (∀ t, 0 ≤ sampleRnd t ∧ sampleRnd t < 1) ∧
      (∀ p, p < (Mat.mk 10 10 Depth.CV_8U fun _ _ => (0 : ℚ)).rows
          * (Mat.mk 10 10 Depth.CV_8U fun _ _ => (0 : ℚ)).cols →
        ∀ c, (Mat.mk 10 10 Depth.CV_8U fun _ _ => (0 : ℚ)).data p c = 0) ∧
      (1 : ℤ) ≤ 1 ∧ (1 : ℤ) ≤ 225 ∧ (0 : ℚ) < 255 ∧ (1 : ℤ) ≤ 10 ∧ (1 : ℤ) ≤ 10 ∧
      (10 : ℤ) ≤ (Mat.mk 10 10 Depth.CV_8U fun _ _ => (0 : ℚ)).rows ∧
      (10 : ℤ) ≤ (Mat.mk 10 10 Depth.CV_8U fun _ _ => (0 : ℚ)).cols) ∧
    PerformIlluminationEstimation sampleSqrt sampleCos sampleSin sampleRnd sampleNext
      (Mat.mk 10 10 Depth.CV_8U fun _ _ => (0 : ℚ)) 1 225 255 10 10 5 = none :=
  ⟨⟨sampleSqrt_zero, sampleCos_le, sampleSin_le, sampleRnd_mem, fun _ _ _ => rfl, by decide,
      by decide, by norm_num, by decide, by decide, by decide, by decide⟩,
    estimate_black_image sampleSqrt sampleCos sampleSin sampleRnd sampleNext sampleSqrt_zero
      sampleCos_le sampleSin_le sampleRnd_mem (Mat.mk 10 10 Depth.CV_8U fun _ _ => (0 : ℚ))
      (fun _ _ _ => rfl) 1 225 255 10 10 5 (by decide) (by decide) (by norm_num) (by decide)
      (by decide) (by decide) (by decide)⟩

/-- C4: for every image, every parameter set, every random source and every constant
`c > 0`, `PerformIlluminationEstimation` called with the upper bound `c * upperBound` returns
the same result as with `upperBound` (all else equal, same draws), for an exact square root:
the normalised vector does not depend on the upper bound. -/
theorem estimate_upperBound_scale [FloorRing K] (sqrt cos sin : K → K) (rnd : ℕ → K)
    (next : ℕ → ℕ) (hsqrt : ∀ x, 0 ≤ x → 0 ≤ sqrt x ∧ sqrt x * sqrt x = x)
    (source : Mat K) (N n : ℤ) (upperBound : K) (rowsStep colsStep kernelSize : ℤ) (c : K)
    (hc : 0 < c) :
    PerformIlluminationEstimation sqrt cos sin rnd next source N n (c * upperBound) rowsStep
        colsStep kernelSize
      = PerformIlluminationEstimation sqrt cos sin rnd next source N n upperBound rowsStep
          colsStep kernelSize := by
  unfold PerformIlluminationEstimation
  rw [meanIllumination_scale sqrt cos sin rnd next source N n upperBound rowsStep colsStep
    kernelSize c (ne_of_gt hc)]
  cases meanIllumination sqrt cos sin rnd next source N n upperBound rowsStep colsStep
      kernelSize with
  | none => rfl
  | some m =>
    rw [Option.map_some', Option.some_bind, Option.some_bind]
    exact normalizeIllumination_div sqrt hsqrt m c hc

theorem estimate_upperBound_scale_witness :
    ((∀ x : ℝ, 0 ≤ x → 0 ≤ Real.sqrt x ∧ Real.sqrt x * Real.sqrt x = x) ∧ (0 : ℝ) < 2) ∧
    PerformIlluminationEstimation Real.sqrt Real.cos Real.sin (fun _ => 0) sampleNext
        (Mat.mk 20 20 Depth.CV_8U fun _ _ => (128 : ℝ)) 1 225 (2 * 255) 10 10 5
      = PerformIlluminationEstimation Real.sqrt Real.cos Real.sin (fun _ => 0) sampleNext
          (Mat.mk 20 20 Depth.CV_8U fun _ _ => (128 : ℝ)) 1 225 255 10 10 5 :=
  ⟨⟨fun x hx => ⟨Real.sqrt_nonneg x, Real.mul_self_sqrt hx⟩, by norm_num⟩,
    estimate_upperBound_scale Real.sqrt Real.cos Real.sin (fun _ => 0) sampleNext
      (fun x hx => ⟨Real.sqrt_nonneg x, Real.mul_self_sqrt hx⟩)
      (Mat.mk 20 20 Depth.CV_8U fun _ _ => (128 : ℝ)) 1 225 255 10 10 5 2 (by norm_num)⟩

theorem sampleRedImage_red (p : ℕ) :
    sampleRedImage.data p 2 = 2 * sampleRedImage.data p 1 ∧
    sampleRedImage.data p 0 = sampleRedImage.data p 1 ∧ 0 < sampleRedImage.data p 1 := by
  have h12 : (1 : Fin 3) ≠ 2 := by decide
  have h02 : (0 : Fin 3) ≠ 2 := by decide
  simp only [sampleRedImage, if_true, if_neg h12, if_neg h02]
  refine ⟨trivial, trivial, ?_⟩
  positivity

end

section

variable {K : Type} [LinearOrderedField K]

/-! ## The table of `Filter64F`, the sprays and the grid: claims -/

/-- The number of grid rows is the quotient of natural numbers. -/
theorem outputSize_natCast (size s : ℕ) : outputSize size (s : ℤ) = ((size / s : ℕ) : ℤ) :=
  tdiv_natCast size s

/-- A grid index maps to a coordinate inside the image. -/
theorem grid_cell_bounds (size : ℕ) (step : ℤ) (hs : 1 ≤ step) (i : ℕ)
    (hi : (i : ℤ) < outputSize size step) :
    0 ≤ (i : ℤ) * step ∧ (i : ℤ) * step < (size : ℤ) := by
  obtain ⟨s, rfl⟩ := Int.eq_ofNat_of_zero_le (le_trans (by norm_num) hs)
  have hs' : 1 ≤ s := by exact_mod_cast hs
  rw [outputSize_natCast] at hi
  have hi' : i < size / s := by exact_mod_cast hi
  have h := grid_cell_lt hs' hi'
  constructor
  · exact mul_nonneg (Int.natCast_nonneg _) (Int.natCast_nonneg _)
  · exact_mod_cast h

/-- The dimensions of the matrices that `estimationGrid` returns. -/
theorem estimationGrid_dims [FloorRing K] (sqrt cos sin : K → K) (rnd : ℕ → K) (next : ℕ → ℕ)
    (source : Mat K) (N n rowsStep colsStep : ℤ) (g : Mat K × Mat K)
    (hg : estimationGrid sqrt cos sin rnd next source N n rowsStep colsStep = some g) :
    g.1.rows = (outputSize source.rows rowsStep).toNat ∧
    g.1.cols = (outputSize source.cols colsStep).toNat ∧
    g.2.rows = (outputSize source.rows rowsStep).toNat ∧
    g.2.cols = (outputSize source.cols colsStep).toNat := by
  unfold estimationGrid at hg
  simp only [] at hg
  cases hsq : intResult ((source.rows * source.rows + source.cols * source.cols : ℕ) : ℤ) with
  | none => rw [hsq] at hg; exact absurd hg (by simp)
  | some squares =>
    rw [hsq, Option.some_bind] at hg
    split_ifs at hg
    cases hcount : intResult (1000 * N) with
    | none => rw [hcount] at hg; exact absurd hg (by simp)
    | some spraysCount =>
      rw [hcount, Option.some_bind] at hg
      cases hsp : CreateSprays cos sin rnd spraysCount n with
      | none => rw [hsp] at hg; exact absurd hg (by simp)
      | some sprays =>
        rw [hsp, Option.some_bind] at hg
        rw [Option.map_eq_some'] at hg
        obtain ⟨st, _, hst⟩ := hg
        rw [← hst]
        exact ⟨rfl, rfl, rfl, rfl⟩

end

section

variable {K : Type} [LinearOrderedField K]

/-- C18: with draws in `[0, 1)` (and `cos`, `sin` bounded by one), `CreateSprays` stores the
offset `(0, 0)` at every position of every spray, because the products `r * cos(angle)` and
`r * sin(angle)` are truncated to `int`; consequently, for every diagonal `R` and every centre
`(row, col)`, the neighbour coordinate `(row + R * y, col + R * x)` computed in
`PerformIlluminationEstimation` is `(row, col)` itself, which for every grid cell lies inside
the image, and the maximum over a spray of `n ≥ 1` points is taken over the centre pixel
only. -/
theorem sprays_sample_centre [FloorRing K] (cos sin : K → K) (rnd : ℕ → K)
    (hcos : ∀ a, |cos a| ≤ 1) (hsin : ∀ a, |sin a| ≤ 1) (hrnd : ∀ t, 0 ≤ rnd t ∧ rnd t < 1)
    (spraysCount spraySize : ℤ) (h1 : 0 ≤ spraysCount) (h2 : 0 ≤ spraySize) :
    ∃ sprays, CreateSprays cos sin rnd spraysCount spraySize = some sprays ∧
      (∀ i j, (sprays.get i).get j = ⟨0, 0⟩) ∧
      (∀ (i j : ℕ) (R row col : ℤ),
        row + R * ((sprays.get i).get j).y = row ∧ col + R * ((sprays.get i).get j).x = col) ∧
      (∀ (i j rows cols outputRow outputCol : ℕ) (R rowsStep colsStep : ℤ),
        1 ≤ rowsStep → 1 ≤ colsStep → (outputRow : ℤ) < outputSize rows rowsStep →
        (outputCol : ℤ) < outputSize cols colsStep →
        0 ≤ (outputRow : ℤ) * rowsStep + R * ((sprays.get i).get j).y ∧
        (outputRow : ℤ) * rowsStep + R * ((sprays.get i).get j).y < rows ∧
        0 ≤ (outputCol : ℤ) * colsStep + R * ((sprays.get i).get j).x ∧
        (outputCol : ℤ) * colsStep + R * ((sprays.get i).get j).x < cols) ∧
      (∀ (input : ℕ → Vec3d K) (rows cols i row col : ℕ) (R n : ℤ), 1 ≤ n → row < rows →
        col < cols →
        sprayMax input rows cols R (sprays.get i) n (row : ℤ) (col : ℤ)
          = fun k => max 0 (input (row * cols + col) k)) := by
  obtain ⟨sprays, hs, hz⟩ := CreateSprays_zero cos sin rnd hcos hsin hrnd spraysCount spraySize
    h1 h2
  refine ⟨sprays, hs, hz, ?_, ?_, ?_⟩
  · intro i j R row col
    rw [hz i j]
    simp
  · intro i j rows cols outputRow outputCol R rowsStep colsStep hr hc hi hj
    obtain ⟨r0, r1⟩ := grid_cell_bounds rows rowsStep hr outputRow hi
    obtain ⟨c0, c1⟩ := grid_cell_bounds cols colsStep hc outputCol hj
    rw [hz i j]
    simp only [mul_zero, add_zero]
    exact ⟨r0, r1, c0, c1⟩
  · intro input rows cols i row col R n hn hrow hcol
    exact sprayMax_zero input rows cols R (sprays.get i) (hz i) n hn row col hrow hcol

theorem sprays_sample_centre_witness :
    ((∀ a, |sampleCos a| ≤ 1) ∧ (∀ a, |sampleSin a| ≤ 1) ∧
      (∀ t, 0 ≤ sampleRnd t ∧ sampleRnd t < 1) ∧ (0 : ℤ) ≤ 1000 ∧ (0 : ℤ) ≤ 225) ∧
    ∃ sprays, CreateSprays sampleCos sampleSin sampleRnd 1000 225 = some sprays ∧
      (∀ i j, (sprays.get i).get j = ⟨0, 0⟩) ∧
      (∀ (i j : ℕ) (R row col : ℤ),
        row + R * ((sprays.get i).get j).y = row ∧ col + R * ((sprays.get i).get j).x = col) ∧
      (∀ (i j rows cols outputRow outputCol : ℕ) (R rowsStep colsStep : ℤ),
        1 ≤ rowsStep → 1 ≤ colsStep → (outputRow : ℤ) < outputSize rows rowsStep →
        (outputCol : ℤ) < outputSize cols colsStep →
        0 ≤ (outputRow : ℤ) * rowsStep + R * ((sprays.get i).get j).y ∧
        (outputRow : ℤ) * rowsStep + R * ((sprays.get i).get j).y < rows ∧
        0 ≤ (outputCol : ℤ) * colsStep + R * ((sprays.get i).get j).x ∧
        (outputCol : ℤ) * colsStep + R * ((sprays.get i).get j).x < cols) ∧
      (∀ (input : ℕ → Vec3d ℚ) (rows cols i row col : ℕ) (R n : ℤ), 1 ≤ n → row < rows →
        col < cols →
        sprayMax input rows cols R (sprays.get i) n (row : ℤ) (col : ℤ)
          = fun k => max 0 (input (row * cols + col) k)) :=
  ⟨⟨sampleCos_le, sampleSin_le, sampleRnd_mem, by decide, by decide⟩,
    sprays_sample_centre sampleCos sampleSin sampleRnd sampleCos_le sampleSin_le sampleRnd_mem
      1000 225 (by decide) (by decide)⟩

end

section

variable {K : Type} [LinearOrderedField K]

/-! ## Independence of the random draws -/

/-- With draws in `[0, 1)` the mean illumination of an image with non-negative sampled pixels
is the same for every random source. -/
theorem meanIllumination_indep [FloorRing K] (sqrt cos sin : K → K) (rnd rnd' : ℕ → K)
    (next next' : ℕ → ℕ)
    (hcos : ∀ a, |cos a| ≤ 1) (hsin : ∀ a, |sin a| ≤ 1) (hrnd : ∀ t, 0 ≤ rnd t ∧ rnd t < 1)
    (hrnd' : ∀ t, 0 ≤ rnd' t ∧ rnd' t < 1)
    (source : Mat K)
    (hsize : ((source.rows * source.rows + source.cols * source.cols : ℕ) : ℤ) ≤ INT_MAX)
    (N n : ℤ) (hN : 1 ≤ N) (hNmax : 1000 * N ≤ INT_MAX) (hn : 1 ≤ n) (upperBound : K)
    (hub : upperBound ≠ 0) (rs cs : ℕ) (hrs : 1 ≤ rs) (hcs : 1 ≤ cs)
    (hrows : rs ≤ source.rows) (hcols : cs ≤ source.cols) (kernelSize : ℤ)
    (hpix : ∀ i j, i < source.rows / rs → j < source.cols / cs → ∀ k,
      0 ≤ source.data (i * rs * source.cols + j * cs) k) :
    meanIllumination sqrt cos sin rnd' next' source N n upperBound (rs : ℤ) (cs : ℤ) kernelSize
      = meanIllumination sqrt cos sin rnd next source N n upperBound (rs : ℤ) (cs : ℤ)
          kernelSize := by
  obtain ⟨S, G, hS, hG, hm⟩ := meanIllumination_zero sqrt cos sin rnd next hcos hsin hrnd
    source hsize N n hN hNmax hn upperBound hub rs cs hrs hcs hrows hcols kernelSize hpix
  obtain ⟨S', G', hS', hG', hm'⟩ := meanIllumination_zero sqrt cos sin rnd' next' hcos hsin
    hrnd' source hsize N n hN hNmax hn upperBound hub rs cs hrs hcs hrows hcols kernelSize hpix
  have hSS : ∀ r c, r < source.rows / rs → c < source.cols / cs → ∀ ch,
      S' (r * (source.cols / cs) + c) ch = S (r * (source.cols / cs) + c) ch := by
    intro r c hr hc ch
    rw [hS r c hr hc, hS' r c hr hc]
  have hGG : ∀ p, p < source.rows / rs * (source.cols / cs) → ∀ ch, G' p ch = G p ch := by
    intro p hp ch
    obtain ⟨i, j, hi, hj, rfl⟩ := grid_index_exists hp
    rw [hG i j hi hj ch, hG' i j hi hj ch]
    split_ifs
    · exact windowMean_congr _ _ S' S _ i j ch ch (fun r c hr hc => hSS r c hr hc ch)
    · exact hSS i j hi hj ch
  rw [hm, hm']
  congr 1
  funext c
  by_cases h : c.val < 3
  · rw [dif_pos h, dif_pos h]
    congr 1
    exact Finset.sum_congr rfl fun p hp => by rw [hGG p (Finset.mem_range.mp hp)]
  · rw [dif_neg h, dif_neg h]

/-- C19, amended: for every image with non-negative channel values and
`rows*rows + cols*cols ≤ INT_MAX`, `N ≥ 1` with `1000 * N ≤ INT_MAX`, `n ≥ 1`, steps `≥ 1`
with a non-empty grid, `upperBound > 0` and every random source (draws in `[0, 1)`): every
destination cell is `(1, 1, 1)`; every resized-source cell is the source pixel at
`(outputRow * rowsStep, outputCol * colsStep)`, or `(0, 0, 0)` when one of its channels is
zero; for `kernelSize ≤ 1` the vector before the normalisation is the sum of the resized-source
cells divided by `outputRows * outputCols * upperBound`; and the result of
`PerformIlluminationEstimation` is the same for every other random source. -/
theorem estimate_deterministic [FloorRing K] (sqrt cos sin : K → K) (rnd : ℕ → K)
    (next : ℕ → ℕ)
    (hcos : ∀ a, |cos a| ≤ 1) (hsin : ∀ a, |sin a| ≤ 1) (hrnd : ∀ t, 0 ≤ rnd t ∧ rnd t < 1)
    (source : Mat K)
    (hsize : ((source.rows * source.rows + source.cols * source.cols : ℕ) : ℤ) ≤ INT_MAX)
    (hnonneg : ∀ p, p < source.rows * source.cols → ∀ k, 0 ≤ source.data p k)
    (N n : ℤ) (hN : 1 ≤ N) (hNmax : 1000 * N ≤ INT_MAX) (hn : 1 ≤ n) (upperBound : K)
    (hub : 0 < upperBound)
    (rs cs : ℕ) (hrs : 1 ≤ rs) (hcs : 1 ≤ cs) (hrows : rs ≤ source.rows)
    (hcols : cs ≤ source.cols) (kernelSize : ℤ) :
    (∃ g : Mat K × Mat K,
      estimationGrid sqrt cos sin rnd next source N n (rs : ℤ) (cs : ℤ) = some g ∧
      g.1.rows = source.rows / rs ∧ g.1.cols = source.cols / cs ∧
      g.2.rows = source.rows / rs ∧ g.2.cols = source.cols / cs ∧
      (∀ i j, i < source.rows / rs → j < source.cols / cs →
        g.2.data (i * (source.cols / cs) + j) = (fun _ => 1) ∧
        g.1.data (i * (source.cols / cs) + j)
          = (if ∃ c, source.data (i * rs * source.cols + j * cs) c = 0 then (fun _ => 0)
              else source.data (i * rs * source.cols + j * cs))) ∧
      (kernelSize ≤ 1 →
        meanIllumination sqrt cos sin rnd next source N n upperBound (rs : ℤ) (cs : ℤ)
            kernelSize
          = some (fun c => if h : c.val < 3 then
              (∑ p ∈ Finset.range (source.rows / rs * (source.cols / cs)), g.1.data p ⟨c.val, h⟩)
                / (((source.rows / rs * (source.cols / cs) : ℕ) : K) * upperBound)
              else 0))) ∧
    ∀ (rnd' : ℕ → K) (next' : ℕ → ℕ), (∀ t, 0 ≤ rnd' t ∧ rnd' t < 1) →
      PerformIlluminationEstimation sqrt cos sin rnd' next' source N n upperBound (rs : ℤ)
          (cs : ℤ) kernelSize
        = PerformIlluminationEstimation sqrt cos sin rnd next source N n upperBound (rs : ℤ)
            (cs : ℤ) kernelSize := by
  have hpix : ∀ i j, i < source.rows / rs → j < source.cols / cs → ∀ k,
      0 ≤ source.data (i * rs * source.cols + j * cs) k :=
    fun i j hi hj k => hnonneg _ (sample_index_lt hrs hcs hi hj) k
  constructor
  · obtain ⟨g, hg, hr1, hc1, hr2, hc2, hdata⟩ := estimationGrid_zero sqrt cos sin rnd next
      hcos hsin hrnd source hsize N n hN hNmax hn rs cs hrs hcs hpix
    refine ⟨g, hg, hr1, hc1, hr2, hc2, fun i j hi hj => ⟨(hdata i j hi hj).2,
      (hdata i j hi hj).1⟩, fun hk => ?_⟩
    obtain ⟨S, G, hS, hG, hm⟩ := meanIllumination_zero sqrt cos sin rnd next hcos hsin hrnd
      source hsize N n hN hNmax hn upperBound (ne_of_gt hub) rs cs hrs hcs hrows hcols kernelSize hpix
    have hGg : ∀ p, p < source.rows / rs * (source.cols / cs) → ∀ ch, G p ch = g.1.data p ch := by
      intro p hp ch
      obtain ⟨i, j, hi, hj, rfl⟩ := grid_index_exists hp
      rw [hG i j hi hj ch, if_neg (not_lt.mpr hk), hS i j hi hj, (hdata i j hi hj).1]
    rw [hm]
    congr 1
    funext c
    by_cases h : c.val < 3
    · rw [dif_pos h, dif_pos h, ← Finset.sum_div, div_div, mul_comm upperBound]
      congr 1
      exact Finset.sum_congr rfl fun p hp => hGg p (Finset.mem_range.mp hp) _
    · rw [dif_neg h, dif_neg h]
  · intro rnd' next' hrnd'
    unfold PerformIlluminationEstimation
    rw [meanIllumination_indep sqrt cos sin rnd rnd' next next' hcos hsin hrnd hrnd' source hsize N n
      hN hNmax hn upperBound (ne_of_gt hub) rs cs hrs hcs hrows hcols kernelSize hpix]

end

section

theorem sampleRedImage_nonneg (p : ℕ) (k : Fin 3) : 0 ≤ sampleRedImage.data p k := by
  simp only [sampleRedImage]
  split_ifs <;> positivity

theorem estimate_deterministic_witness :
    ((∀ a, |sampleCos a| ≤ 1) ∧ (∀ a, |sampleSin a| ≤ 1) ∧
      (∀ t, 0 ≤ sampleRnd t ∧ sampleRnd t < 1) ∧
      ((sampleRedImage.rows * sampleRedImage.rows
        + sampleRedImage.cols * sampleRedImage.cols : ℕ) : ℤ) ≤ INT_MAX ∧
      (∀ p, p < sampleRedImage.rows * sampleRedImage.cols → ∀ k,
        0 ≤ sampleRedImage.data p k) ∧
      (1 : ℤ) ≤ 1 ∧ (1000 : ℤ) * 1 ≤ INT_MAX ∧ (1 : ℤ) ≤ 225 ∧ (0 : ℚ) < 255 ∧ 1 ≤ 10 ∧
      1 ≤ 10 ∧ 10 ≤ sampleRedImage.rows ∧ 10 ≤ sampleRedImage.cols) ∧
    ((∃ g : Mat ℚ × Mat ℚ,
      estimationGrid sampleSqrt sampleCos sampleSin sampleRnd sampleNext sampleRedImage 1 225
        ((10 : ℕ) : ℤ) ((10 : ℕ) : ℤ) = some g ∧
      g.1.rows = sampleRedImage.rows / 10 ∧ g.1.cols = sampleRedImage.cols / 10 ∧
      g.2.rows = sampleRedImage.rows / 10 ∧ g.2.cols = sampleRedImage.cols / 10 ∧
      (∀ i j, i < sampleRedImage.rows / 10 → j < sampleRedImage.cols / 10 →
        g.2.data (i * (sampleRedImage.cols / 10) + j) = (fun _ => 1) ∧
        g.1.data (i * (sampleRedImage.cols / 10) + j)
          = (if ∃ c, sampleRedImage.data (i * 10 * sampleRedImage.cols + j * 10) c = 0
              then (fun _ => 0)
              else sampleRedImage.data (i * 10 * sampleRedImage.cols + j * 10))) ∧
      ((1 : ℤ) ≤ 1 →
        meanIllumination sampleSqrt sampleCos sampleSin sampleRnd sampleNext sampleRedImage 1
            225 255 ((10 : ℕ) : ℤ) ((10 : ℕ) : ℤ) 1
          = some (fun c => if h : c.val < 3 then
              (∑ p ∈ Finset.range (sampleRedImage.rows / 10 * (sampleRedImage.cols / 10)),
                  g.1.data p ⟨c.val, h⟩)
                / (((sampleRedImage.rows / 10 * (sampleRedImage.cols / 10) : ℕ) : ℚ) * 255)
              else 0))) ∧
    ∀ (rnd' : ℕ → ℚ) (next' : ℕ → ℕ), (∀ t, 0 ≤ rnd' t ∧ rnd' t < 1) →
      PerformIlluminationEstimation sampleSqrt sampleCos sampleSin rnd' next' sampleRedImage 1
          225 255 ((10 : ℕ) : ℤ) ((10 : ℕ) : ℤ) 1
        = PerformIlluminationEstimation sampleSqrt sampleCos sampleSin sampleRnd sampleNext
            sampleRedImage 1 225 255 ((10 : ℕ) : ℤ) ((10 : ℕ) : ℤ) 1) :=
  ⟨⟨sampleCos_le, sampleSin_le, sampleRnd_mem, by decide,
      fun p _ k => sampleRedImage_nonneg p k, by decide, by decide, by decide, by norm_num,
      by decide, by decide, by decide, by decide⟩,
    estimate_deterministic sampleSqrt sampleCos sampleSin sampleRnd sampleNext sampleCos_le
      sampleSin_le sampleRnd_mem sampleRedImage (by decide)
      (fun p _ k => sampleRedImage_nonneg p k) 1 225 (by decide) (by decide) (by decide) 255
      (by norm_num) 10 10 (by decide) (by decide) (by decide) (by decide) 1⟩

/-- C19, against the claim: with `N = 2147484` the `int` product `1000 * N` exceeds `INT_MAX`;
on a `20 x 20` image with positive channel values the grid loops are not reached, no
destination or resized-source cell is written, and `PerformIlluminationEstimation` returns no
vector. -/
theorem estimate_overflow_no_grid :
    (1 : ℤ) ≤ 2147484 ∧
    estimationGrid sampleSqrt sampleCos sampleSin sampleRnd sampleNext sampleRedImage 2147484
      225 10 10 = none ∧
    PerformIlluminationEstimation sampleSqrt sampleCos sampleSin sampleRnd sampleNext
      sampleRedImage 2147484 225 255 10 10 1 = none :=
  ⟨by decide,
    estimationGrid_overflow sampleSqrt sampleCos sampleSin sampleRnd sampleNext sampleRedImage
      2147484 225 10 10 (Or.inr (by decide)),
    (estimate_none_of_grid sampleSqrt sampleCos sampleSin sampleRnd sampleNext sampleRedImage
      2147484 225 255 10 10 1
      (estimationGrid_overflow sampleSqrt sampleCos sampleSin sampleRnd sampleNext
        sampleRedImage 2147484 225 10 10 (Or.inr (by decide)))).2⟩

end

section

variable {K : Type} [LinearOrderedField K]

/-- C17: the channel swap at the end of `PerformIlluminationEstimation` and the reversed index
`illumination[2 - k]` of `RemoveColorCast` cancel.  For every image, parameter set and random
source, if `m` is the mean vector of the illumination grid before the swap and
`q = sqrt((m0^2 + m1^2 + m2^2) / 3)` is not zero, then the estimator returns a vector `r` with
`r[2 - k] = m[k] / q` for `k = 0, 1, 2`, and (the divisors being non-zero) the division loops
of `RemoveColorCast` called with `r` divide channel `k` of every pixel by `m[k] / q`. -/
theorem swap_cancels [FloorRing K] (sqrt cos sin : K → K) (rnd : ℕ → K) (next : ℕ → ℕ)
    (source : Mat K) (N n : ℤ) (upperBound : K) (rowsStep colsStep kernelSize : ℤ)
    (m : Scalar K)
    (hm : meanIllumination sqrt cos sin rnd next source N n upperBound rowsStep colsStep
      kernelSize = some m)
    (hq : sqrt ((m 0 * m 0 + m 1 * m 1 + m 2 * m 2) / 3) ≠ 0) :
    ∃ r : Scalar K,
      PerformIlluminationEstimation sqrt cos sin rnd next source N n upperBound rowsStep
        colsStep kernelSize = some r ∧
      (∀ k : Fin 3, r (mirrorIndex k)
        = m k.castSucc / sqrt ((m 0 * m 0 + m 1 * m 1 + m 2 * m 2) / 3)) ∧
      ((∀ k : Fin 3, m k.castSucc ≠ 0) →
        ∃ converted, dividedImage source r = some converted ∧
          RemoveColorCast source r = some (converted.convertTo source.depth) ∧
          ∀ i j, i < source.rows → j < source.cols → ∀ k : Fin 3,
            converted.data (i * source.cols + j) k
              = source.data (i * source.cols + j) k
                / (m k.castSucc / sqrt ((m 0 * m 0 + m 1 * m 1 + m 2 * m 2) / 3))) := by
  have hsum : m 0 * m 0 + m 1 * m 1 + m 2 * m 2 = m 2 * m 2 + m 1 * m 1 + m 0 * m 0 := by ring
  rw [hsum] at hq ⊢
  generalize hQ : sqrt ((m 2 * m 2 + m 1 * m 1 + m 0 * m 0) / 3) = q at hq
  let r : Scalar K := fun i => (![m 2, m 1, m 0, m 3] : Scalar K) i / q
  have hidx : ∀ k : Fin 3, r (mirrorIndex k) = m k.castSucc / q := by
    intro k
    fin_cases k
    · show m 0 / q = m 0 / q
      rfl
    · show m 1 / q = m 1 / q
      rfl
    · show m 2 / q = m 2 / q
      rfl
  refine ⟨r, ?_, hidx, fun hne => ?_⟩
  · unfold PerformIlluminationEstimation
    rw [hm, Option.some_bind, normalizeIllumination_eq, hQ, if_neg hq]
  · have hr : ∀ k : Fin 3, r (mirrorIndex k) ≠ 0 := by
      intro k
      rw [hidx k]
      exact div_ne_zero (hne k) hq
    obtain ⟨d, hd, hrem, _, _, hdata⟩ := removeColorCast_eq source r hr
    refine ⟨d, hd, hrem, fun i j hi hj k => ?_⟩
    rw [hdata i j hi hj k, hidx k]

theorem swap_cancels_witness :
    (meanIllumination sampleSqrt sampleCos sampleSin sampleRnd sampleNext
        (Mat.mk 20 20 Depth.CV_8U fun _ _ => (128 : ℚ)) 1 225 255 ((10 : ℕ) : ℤ)
        ((10 : ℕ) : ℤ) 5 = some ![128 / 255, 128 / 255, 128 / 255, 0] ∧
      sampleSqrt (((![128 / 255, 128 / 255, 128 / 255, 0] : Scalar ℚ) 0
          * (![128 / 255, 128 / 255, 128 / 255, 0] : Scalar ℚ) 0
        + (![128 / 255, 128 / 255, 128 / 255, 0] : Scalar ℚ) 1
          * (![128 / 255, 128 / 255, 128 / 255, 0] : Scalar ℚ) 1
        + (![128 / 255, 128 / 255, 128 / 255, 0] : Scalar ℚ) 2
          * (![128 / 255, 128 / 255, 128 / 255, 0] : Scalar ℚ) 2) / 3) ≠ 0) ∧
    ∃ r : Scalar ℚ,
      PerformIlluminationEstimation sampleSqrt sampleCos sampleSin sampleRnd sampleNext
        (Mat.mk 20 20 Depth.CV_8U fun _ _ => (128 : ℚ)) 1 225 255 ((10 : ℕ) : ℤ)
        ((10 : ℕ) : ℤ) 5 = some r ∧
      (∀ k : Fin 3, r (mirrorIndex k)
        = (![128 / 255, 128 / 255, 128 / 255, 0] : Scalar ℚ) k.castSucc
          / sampleSqrt (((![128 / 255, 128 / 255, 128 / 255, 0] : Scalar ℚ) 0
              * (![128 / 255, 128 / 255, 128 / 255, 0] : Scalar ℚ) 0
            + (![128 / 255, 128 / 255, 128 / 255, 0] : Scalar ℚ) 1
              * (![128 / 255, 128 / 255, 128 / 255, 0] : Scalar ℚ) 1
            + (![128 / 255, 128 / 255, 128 / 255, 0] : Scalar ℚ) 2
              * (![128 / 255, 128 / 255, 128 / 255, 0] : Scalar ℚ) 2) / 3)) ∧
      ((∀ k : Fin 3, (![128 / 255, 128 / 255, 128 / 255, 0] : Scalar ℚ) k.castSucc ≠ 0) →
        ∃ converted,
          dividedImage (Mat.mk 20 20 Depth.CV_8U fun _ _ => (128 : ℚ)) r = some converted ∧
          RemoveColorCast (Mat.mk 20 20 Depth.CV_8U fun _ _ => (128 : ℚ)) r
            = some (converted.convertTo Depth.CV_8U) ∧
          ∀ i j, i < 20 → j < 20 → ∀ k : Fin 3,
            converted.data (i * 20 + j) k
              = 128 / ((![128 / 255, 128 / 255, 128 / 255, 0] : Scalar ℚ) k.castSucc
                / sampleSqrt (((![128 / 255, 128 / 255, 128 / 255, 0] : Scalar ℚ) 0
                    * (![128 / 255, 128 / 255, 128 / 255, 0] : Scalar ℚ) 0
                  + (![128 / 255, 128 / 255, 128 / 255, 0] : Scalar ℚ) 1
                    * (![128 / 255, 128 / 255, 128 / 255, 0] : Scalar ℚ) 1
                  + (![128 / 255, 128 / 255, 128 / 255, 0] : Scalar ℚ) 2
                    * (![128 / 255, 128 / 255, 128 / 255, 0] : Scalar ℚ) 2) / 3))) :=
  ⟨⟨meanIllumination_gray sampleSqrt sampleCos sampleSin sampleRnd sampleNext sampleCos_le
        sampleSin_le sampleRnd_mem (Mat.mk 20 20 Depth.CV_8U fun _ _ => (128 : ℚ)) (by decide)
        128 (by norm_num) (fun _ _ _ => rfl) 1 225 (by decide) (by decide) (by decide) 255
        (by norm_num) 10 10 (by decide) (by decide) (by decide) (by decide) 5,
      ne_of_gt (sampleSqrt_pos _ (by norm_num))⟩,
    swap_cancels sampleSqrt sampleCos sampleSin sampleRnd sampleNext
      (Mat.mk 20 20 Depth.CV_8U fun _ _ => (128 : ℚ)) 1 225 255 ((10 : ℕ) : ℤ) ((10 : ℕ) : ℤ) 5
      ![128 / 255, 128 / 255, 128 / 255, 0]
      (meanIllumination_gray sampleSqrt sampleCos sampleSin sampleRnd sampleNext sampleCos_le
        sampleSin_le sampleRnd_mem (Mat.mk 20 20 Depth.CV_8U fun _ _ => (128 : ℚ)) (by decide)
        128 (by norm_num) (fun _ _ _ => rfl) 1 225 (by decide) (by decide) (by decide) 255
        (by norm_num) 10 10 (by decide) (by decide) (by decide) (by decide) 5)
      (ne_of_gt (sampleSqrt_pos _ (by norm_num)))⟩

end

section

variable {K : Type} [LinearOrderedField K]

/-! ## The command line of `main` -/

/-- The upper bound chosen by the argument parsing of `main` when no `upper_bound` argument is
given: the 16-bit test is reached only with exactly eight arguments. -/
theorem parseArguments_upperBound (scanInt : String → Option ℤ)
    (scanDouble : String → Option K) (argc : ℤ) (argv : ℕ → String) (img : Mat K)
    (h8 : argc ≤ 8) :
    (parseArguments scanInt scanDouble argc argv img).upperBound
      = if argc = 8 ∧ img.depth.code = 2 then 65535 else 255 := by
  unfold parseArguments
  by_cases h3 : argc > 3
  · by_cases h4 : argc > 4
    · by_cases h5 : argc > 5
      · by_cases h6 : argc > 6
        · by_cases h7 : argc > 7
          · have h : argc = 8 := by omega
            have hn : ¬ argc > 8 := by omega
            by_cases hd : img.depth.code = 2
            · rw [if_pos (⟨h, hd⟩ : argc = 8 ∧ img.depth.code = 2)]
              simp only [if_pos h3, if_pos h4, if_pos h5, if_pos h6, if_pos h7, if_neg hn,
                if_pos hd]
            · rw [if_neg (fun hh : argc = 8 ∧ img.depth.code = 2 => hd hh.2)]
              simp only [if_pos h3, if_pos h4, if_pos h5, if_pos h6, if_pos h7, if_neg hn,
                if_neg hd]
          · have h : ¬ (argc = 8 ∧ img.depth.code = 2) := fun h => by omega
            simp only [if_pos h3, if_pos h4, if_pos h5, if_pos h6, if_neg h7, if_neg h]
        · have h : ¬ (argc = 8 ∧ img.depth.code = 2) := fun h => by omega
          simp only [if_pos h3, if_pos h4, if_pos h5, if_neg h6, if_neg h]
      · have h : ¬ (argc = 8 ∧ img.depth.code = 2) := fun h => by omega
        simp only [if_pos h3, if_pos h4, if_neg h5, if_neg h]
    · have h : ¬ (argc = 8 ∧ img.depth.code = 2) := fun h => by omega
      simp only [if_pos h3, if_neg h4, if_neg h]
  · have h : ¬ (argc = 8 ∧ img.depth.code = 2) := fun h => by omega
    simp only [if_neg h3, if_neg h]

/-- C11, the failing case: for every command line without an `upper_bound` argument and with
fewer than eight arguments (`3 ≤ argc ≤ 7`) and every non-empty decoded image, also a 16-bit
one (`img.depth() == 2`), `main` calls `PerformIlluminationEstimation` with
`upperBound = 255`; only with exactly eight arguments (`argc = 8`) a 16-bit image gets
`upperBound = 65535`. -/
theorem main_upperBound [FloorRing K] (scanInt : String → Option ℤ)
    (scanDouble : String → Option K) (imread : String → Mat K) (sqrt cos sin : K → K)
    (rnd : ℕ → K) (next : ℕ → ℕ) (argc : ℤ) (argv : ℕ → String)
    (h3 : 3 ≤ argc) (h8 : argc ≤ 8)
    (himg : (imread (argv 1)).rows * (imread (argv 1)).cols ≠ 0) :
    (parseArguments scanInt scanDouble argc argv (imread (argv 1))).upperBound
      = (if argc = 8 ∧ (imread (argv 1)).depth.code = 2 then 65535 else 255) ∧
    (argc ≤ 7 →
      (parseArguments scanInt scanDouble argc argv (imread (argv 1))).upperBound = 255) ∧
    main scanInt scanDouble imread sqrt cos sin rnd next argc argv
      = (PerformIlluminationEstimation sqrt cos sin rnd next (imread (argv 1))
          (parseArguments scanInt scanDouble argc argv (imread (argv 1))).N
          (parseArguments scanInt scanDouble argc argv (imread (argv 1))).n
          (if argc = 8 ∧ (imread (argv 1)).depth.code = 2 then 65535 else 255)
          (parseArguments scanInt scanDouble argc argv (imread (argv 1))).r
          (parseArguments scanInt scanDouble argc argv (imread (argv 1))).c
          (parseArguments scanInt scanDouble argc argv (imread (argv 1))).kernelSize).bind
        fun illuminationEstimation => RemoveColorCast (imread (argv 1)) illuminationEstimation := by
  have hub := parseArguments_upperBound scanInt scanDouble argc argv (imread (argv 1)) h8
  refine ⟨hub, fun h7 => ?_, ?_⟩
  · rw [hub, if_neg (fun h => by omega)]
  · unfold main
    rw [if_neg (not_lt.mpr h3), if_neg himg, ← hub]

theorem main_upperBound_witness :
    ((3 : ℤ) ≤ 3 ∧ (3 : ℤ) ≤ 8 ∧
      ((fun _ => Mat.mk 10 10 Depth.CV_16U fun _ _ => (1000 : ℚ)) ((fun _ => "") 1)).rows
        * ((fun _ => Mat.mk 10 10 Depth.CV_16U fun _ _ => (1000 : ℚ)) ((fun _ => "") 1)).cols
        ≠ 0) ∧
    ((parseArguments (fun _ => none) (fun _ => none) 3 (fun _ => "")
        ((fun _ => Mat.mk 10 10 Depth.CV_16U fun _ _ => (1000 : ℚ)) ((fun _ => "") 1))).upperBound
      = (if (3 : ℤ) = 8 ∧
            ((fun _ => Mat.mk 10 10 Depth.CV_16U fun _ _ => (1000 : ℚ))
              ((fun _ => "") 1)).depth.code = 2 then 65535 else 255) ∧
    ((3 : ℤ) ≤ 7 →
      (parseArguments (fun _ => none) (fun _ => none) 3 (fun _ => "")
        ((fun _ => Mat.mk 10 10 Depth.CV_16U fun _ _ => (1000 : ℚ))
          ((fun _ => "") 1))).upperBound = 255) ∧
    main (fun _ => none) (fun _ => none)
        (fun _ => Mat.mk 10 10 Depth.CV_16U fun _ _ => (1000 : ℚ)) sampleSqrt sampleCos
        sampleSin sampleRnd sampleNext 3 (fun _ => "")
      = (PerformIlluminationEstimation sampleSqrt sampleCos sampleSin sampleRnd sampleNext
          ((fun _ => Mat.mk 10 10 Depth.CV_16U fun _ _ => (1000 : ℚ)) ((fun _ => "") 1))
          (parseArguments (fun _ => none) (fun _ => none) 3 (fun _ => "")
            ((fun _ => Mat.mk 10 10 Depth.CV_16U fun _ _ => (1000 : ℚ)) ((fun _ => "") 1))).N
          (parseArguments (fun _ => none) (fun _ => none) 3 (fun _ => "")
            ((fun _ => Mat.mk 10 10 Depth.CV_16U fun _ _ => (1000 : ℚ)) ((fun _ => "") 1))).n
          (if (3 : ℤ) = 8 ∧
            ((fun _ => Mat.mk 10 10 Depth.CV_16U fun _ _ => (1000 : ℚ))
              ((fun _ => "") 1)).depth.code = 2 then 65535 else 255)
          (parseArguments (fun _ => none) (fun _ => none) 3 (fun _ => "")
            ((fun _ => Mat.mk 10 10 Depth.CV_16U fun _ _ => (1000 : ℚ)) ((fun _ => "") 1))).r
          (parseArguments (fun _ => none) (fun _ => none) 3 (fun _ => "")
            ((fun _ => Mat.mk 10 10 Depth.CV_16U fun _ _ => (1000 : ℚ)) ((fun _ => "") 1))).c
          (parseArguments (fun _ => none) (fun _ => none) 3 (fun _ => "")
            ((fun _ => Mat.mk 10 10 Depth.CV_16U fun _ _ => (1000 : ℚ))
              ((fun _ => "") 1))).kernelSize).bind
        fun illuminationEstimation =>
          RemoveColorCast
            ((fun _ => Mat.mk 10 10 Depth.CV_16U fun _ _ => (1000 : ℚ)) ((fun _ => "") 1))
            illuminationEstimation) :=
  ⟨⟨by decide, by decide, by decide⟩,
    main_upperBound (fun _ => none) (fun _ => none)
      (fun _ => Mat.mk 10 10 Depth.CV_16U fun _ _ => (1000 : ℚ)) sampleSqrt sampleCos
      sampleSin sampleRnd sampleNext 3 (fun _ => "") (by decide) (by decide) (by decide)⟩

end

section

variable {K : Type} [LinearOrderedField K]

/-! ## `Filter64F` with the kernel sizes `0` and `-2` -/

/-- The kernel size enters `Filter64F` only through `(k - 1) / 2` and `k / 2`. -/
theorem Filter64F_congr (img : Mat K) (k k' : ℤ) (h1 : (k - 1).tdiv 2 = (k' - 1).tdiv 2)
    (h2 : k.tdiv 2 = k'.tdiv 2) : Filter64F img k = Filter64F img k' := by
  unfold Filter64F
  simp only [h1, h2]

/-- With `k = 0` the window of a pixel is the pixel itself, as with `k = 1`. -/
theorem Filter64F_zero (img : Mat K) (hr : 1 ≤ img.rows) (hc : 1 ≤ img.cols) :
    ∃ out, Filter64F img 0 = some out ∧ out.rows = img.rows ∧ out.cols = img.cols ∧
      ∀ i j, i < img.rows → j < img.cols → ∀ ch : Fin 3,
        out.data (i * img.cols + j) ch = img.data (i * img.cols + j) ch := by
  obtain ⟨out, hout, hrows, hcols, _, hdata⟩ := Filter64F_eq img 1 (le_refl _) hr hc
  refine ⟨out, ?_, hrows, hcols, fun i j hi hj ch => ?_⟩
  · rw [Filter64F_congr img 0 1 (by decide) (by decide), hout]
  · rw [hdata i j hi hj ch]
    have h1 : min img.rows (i + 1) = i + 1 := Nat.min_eq_right hi
    have h2 : min img.cols (j + 1) = j + 1 := Nat.min_eq_right hj
    simp [windowMean, h1, h2]

/-- With `k = -2` the window runs backwards from `(i + 1, j + 1)` to `(i, j)`: its area is
`(-1) * (-1) = 1` and the four reads give the pixel itself. -/
theorem Filter64F_minus_two (img : Mat K) (hr : 1 ≤ img.rows) (hc : 1 ≤ img.cols) :
    ∃ out, Filter64F img (-2) = some out ∧ out.rows = img.rows ∧ out.cols = img.cols ∧
      ∀ i j, i < img.rows → j < img.cols → ∀ ch : Fin 3,
        out.data (i * img.cols + j) ch = img.data (i * img.cols + j) ch := by
  obtain ⟨rows, cols, depth, data⟩ := img
  simp only at hr hc ⊢
  let pass : Fin 3 → Buffer (Vec3d K) → Buffer (Vec3d K) := fun ch output =>
    forLoop rows (fun i s => forLoop cols (fun j s =>
      setChannel s (i * cols + j) ch (data (i * cols + j) ch)) s) output
  have hpass : ∀ (ch : Fin 3) (i j : ℕ), i < rows → j < cols →
      ∀ output : Buffer (Vec3d K), (pass ch output).get (i * cols + j)
        = Function.update (output.get (i * cols + j)) ch (data (i * cols + j) ch) := by
    intro ch i j hi hj output
    exact (grid_loops (fun b : Buffer (Vec3d K) => b.get) rows cols
      (fun i j s => setChannel s (i * cols + j) ch (data (i * cols + j) ch))
      (fun i j old => Function.update old ch (data (i * cols + j) ch))
      (fun i j s _ _ q => setChannel_get s _ ch _ q) output).1 i j hi hj
  refine ⟨⟨rows, cols, Depth.CV_64F, (forChannels pass (Buffer.fill fun _ => 0)).get⟩,
    ?_, rfl, rfl, ?_⟩
  · unfold Filter64F
    simp only []
    rw [if_neg (by omega), forChannelsM_pure _ pass, Option.map_some']
    intro ch t
    refine forLoopM_pure rows _ (fun i s => forLoop cols (fun j s =>
      setChannel s (i * cols + j) ch (data (i * cols + j) ch)) s) t ?_
    intro i hi t'
    refine forLoopM_pure cols _ (fun j s =>
      setChannel s (i * cols + j) ch (data (i * cols + j) ch)) t' ?_
    intro j hj t''
    have hs : ∀ x : ℕ, (if (x : ℤ) + 1 - ((-2 : ℤ) - 1).tdiv 2 - 1 < 0 then 0
        else (x : ℤ) + 1 - ((-2 : ℤ) - 1).tdiv 2 - 1) = ((x + 1 : ℕ) : ℤ) := by
      intro x
      have h1 : ((-2 : ℤ) - 1).tdiv 2 = -1 := by decide
      rw [h1, if_neg (by omega)]
      push_cast
      ring
    have he : ∀ m x : ℕ, x < m → (if (x : ℤ) + 1 + (-2 : ℤ).tdiv 2 > m then (m : ℤ)
        else (x : ℤ) + 1 + (-2 : ℤ).tdiv 2) = ((x : ℕ) : ℤ) := by
      intro m x hx
      have h2 : (-2 : ℤ).tdiv 2 = -1 := by decide
      rw [h2, if_neg (by omega)]
      ring
    simp only [hs, he rows i hi, he cols j hj]
    rw [readArray_table _ rows cols data i j (Nat.le_of_lt hi) (Nat.le_of_lt hj) ch,
      readArray_table _ rows cols data i (j + 1) (Nat.le_of_lt hi) hj ch,
      readArray_table _ rows cols data (i + 1) j hi (Nat.le_of_lt hj) ch,
      readArray_table _ rows cols data (i + 1) (j + 1) hi hj ch]
    simp only [Option.some_bind]
    have hden : (((i : ℤ) - ((i + 1 : ℕ) : ℤ)) * ((j : ℤ) - ((j + 1 : ℕ) : ℤ)) : ℤ) = 1 := by
      push_cast
      ring
    rw [hden, Int.cast_one, fdiv_of_ne one_ne_zero, Option.map_some', div_one]
    have hrect := areaSum_rect cols data ch (Nat.le_succ i) (Nat.le_succ j)
    rw [Nat.Ico_succ_singleton, Finset.sum_singleton, Nat.Ico_succ_singleton,
      Finset.sum_singleton] at hrect
    rw [← hrect]
    congr 2
    ring
  · intro i j hi hj ch
    have h01 : (0 : Fin 3) ≠ 1 := by decide
    have h02 : (0 : Fin 3) ≠ 2 := by decide
    have h12 : (1 : Fin 3) ≠ 2 := by decide
    show (pass 2 (pass 1 (pass 0 (Buffer.fill fun _ => 0)))).get (i * cols + j) ch = _
    rw [hpass 2 i j hi hj, hpass 1 i j hi hj, hpass 0 i j hi hj]
    fin_cases ch <;>
      simp [Function.update, h01, h02, h12, h01.symm, h02.symm, h12.symm]

end

section

variable {K : Type} [LinearOrderedField K]

/-! ## Loops with an invariant -/

/-- Invariant rule for a loop whose body may fail: if every iteration succeeds on the states
that satisfy the invariant, the loop succeeds. -/
theorem forLoopM_invariant {σ : Type} (P : ℕ → σ → Prop) (n : ℕ) (body : ℕ → σ → Option σ)
    (s : σ) (h0 : P 0 s)
    (hstep : ∀ i, i < n → ∀ t, P i t → ∃ t', body i t = some t' ∧ P (i + 1) t') :
    ∃ sf, forLoopM n body s = some sf ∧ P n sf := by
  induction n with
  | zero => exact ⟨s, rfl, h0⟩
  | succ n ih =>
    obtain ⟨t, ht, hP⟩ := ih fun i hi t ht => hstep i (Nat.lt_succ_of_lt hi) t ht
    obtain ⟨t', ht', hP'⟩ := hstep n (Nat.lt_succ_self n) t hP
    refine ⟨t', ?_, hP'⟩
    show (forLoopM n body s).bind (body n) = some t'
    rw [ht, Option.some_bind, ht']

/-- Two nested loops over a grid whose body succeeds, leaves the other cells of a view of the
state alone and establishes the property `P` of its own cell: the loops succeed and every cell
has the property. -/
theorem grid_loopsM {σ α : Type} (view : σ → ℕ → α) (rows cols : ℕ)
    (body : ℕ → ℕ → σ → Option σ) (P : ℕ → ℕ → α → Prop)
    (hbody : ∀ i j s, i < rows → j < cols → ∃ s', body i j s = some s' ∧
      (∀ q, q ≠ i * cols + j → view s' q = view s q) ∧ P i j (view s' (i * cols + j)))
    (s : σ) :
    ∃ sf, forLoopM rows (fun i s => forLoopM cols (fun j s => body i j s) s) s = some sf ∧
      ∀ i j, i < rows → j < cols → P i j (view sf (i * cols + j)) := by
  obtain ⟨sf, hsf, hP⟩ := forLoopM_invariant
    (fun r t => ∀ i j, i < r → j < cols → P i j (view t (i * cols + j))) rows
    (fun i s => forLoopM cols (fun j s => body i j s) s) s
    (fun i j hi => absurd hi (Nat.not_lt_zero i))
    (by
      intro r hr t ht
      obtain ⟨t', ht', hP'⟩ := forLoopM_invariant
        (fun c u => ∀ i j, j < cols → (i < r ∨ (i = r ∧ j < c)) → P i j (view u (i * cols + j)))
        cols (fun j s => body r j s) t
        (by
          intro i j hj h
          rcases h with h | h
          · exact ht i j h hj
          · exact absurd h.2 (Nat.not_lt_zero j))
        (by
          intro c hc u hu
          obtain ⟨u', hu', hother, hcell⟩ := hbody r c u hr hc
          refine ⟨u', hu', fun i j hj h => ?_⟩
          by_cases heq : i = r ∧ j = c
          · rw [heq.1, heq.2]
            exact hcell
          · have hne : i * cols + j ≠ r * cols + c := fun hh =>
              heq (grid_index_inj hj hc hh)
            rw [hother _ hne]
            refine hu i j hj ?_
            rcases h with h | h
            · exact Or.inl h
            · refine Or.inr ⟨h.1, ?_⟩
              have : j ≠ c := fun hjc => heq ⟨h.1, hjc⟩
              omega)
      refine ⟨t', ht', fun i j hi hj => hP' i j hj ?_⟩
      rcases Nat.lt_succ_iff_lt_or_eq.mp hi with h | h
      · exact Or.inl h
      · exact Or.inr ⟨h, hj⟩)
  exact ⟨sf, hsf, fun i j hi hj => hP i j hi hj⟩

end

section

variable {K : Type} [LinearOrderedField K]

/-! ## A grid cell with arbitrary sprays -/

/-- The channel maxima of a spray are never negative: they start at `0` and only grow. -/
theorem sprayMax_nonneg (input : ℕ → Vec3d K) (rows cols : ℕ) (R : ℤ) (spray : Buffer Point2i)
    (n row col : ℤ) (k : Fin 3) : 0 ≤ sprayMax input rows cols R spray n row col k := by
  unfold sprayMax
  refine forLoop_invariant (fun _ (m : Vec3d K) => ∀ k, 0 ≤ m k) n.toNat _ _
    (fun _ => le_refl 0) ?_ k
  intro i _ m hm
  simp only []
  split_ifs
  · rw [channelMax_eq]
    exact fun k => le_max_of_le_left (hm k)
  · exact hm

/-- `CreateSprays` returns an array for non-negative sizes. -/
theorem CreateSprays_some [FloorRing K] (cos sin : K → K) (rnd : ℕ → K)
    (spraysCount spraySize : ℤ) (hc : 0 ≤ spraysCount) (hs : 0 ≤ spraySize) :
    ∃ sprays, CreateSprays cos sin rnd spraysCount spraySize = some sprays := by
  unfold CreateSprays
  rw [if_neg (by omega), if_neg (by omega)]
  exact ⟨_, rfl⟩

/-- The `N` rounds of a grid cell with a non-negative centre pixel: no division fails and the
accumulator stays non-negative. -/
theorem rounds_nonneg (next : ℕ → ℕ) (input : ℕ → Vec3d K) (rows cols : ℕ) (R : ℤ)
    (sprays : Buffer (Buffer Point2i)) (spraysCount n row col : ℤ) (cp : Vec3d K)
    (hp : ∀ k, 0 ≤ cp k) (m t : ℕ) :
    ∃ acc : ℕ × Vec3d K,
      forLoopM m (fun _ (acc : ℕ × Vec3d K) =>
        (accumulate cp
          (sprayMax input rows cols R (sprays.get (uniformInt (next acc.1) 0 spraysCount).toNat)
            n row col, acc.2)).map fun r => (acc.1 + 1, r.2)) (t, fun _ => 0) = some acc ∧
      ∀ k, 0 ≤ acc.2 k := by
  refine forLoopM_invariant (fun _ (acc : ℕ × Vec3d K) => ∀ k, 0 ≤ acc.2 k) m _ _
    (fun _ => le_refl 0) ?_
  intro i _ acc hacc
  rw [accumulate_eq, Option.map_some']
  refine ⟨_, rfl, fun k => ?_⟩
  have hmx := sprayMax_nonneg input rows cols R
    (sprays.get (uniformInt (next acc.1) 0 spraysCount).toNat) n row col k
  refine add_nonneg (hacc k) (div_nonneg (hp k) ?_)
  split_ifs
  · exact zero_le_one
  · exact hmx

/-- The body of the grid loops for a cell whose centre pixel is non-negative, whatever the
sprays: it succeeds, stores to its own cell only, leaves a destination cell with channels in
`(0, 1]` and a resized-source cell that is the centre pixel or `(0, 0, 0)`. -/
theorem estimateCell_spec (next : ℕ → ℕ) (input : ℕ → Vec3d K) (rows cols : ℕ) (R : ℤ)
    (sprays : Buffer (Buffer Point2i)) (spraysCount N n : ℤ) (hN : 1 ≤ N)
    (rs cs outputCols outputRow outputCol : ℕ)
    (hrow : outputRow * rs < rows) (hcol : outputCol * cs < cols)
    (hp : ∀ k, 0 ≤ input (outputRow * rs * cols + outputCol * cs) k)
    (st : ℕ × Buffer (Vec3d K) × Buffer (Vec3d K)) :
    ∃ st', estimateCell next input rows cols R sprays spraysCount N n (rs : ℤ) (cs : ℤ)
        outputCols outputRow outputCol st = some st' ∧
      (∀ q, q ≠ outputRow * outputCols + outputCol →
        (st'.2.1.get q, st'.2.2.get q) = (st.2.1.get q, st.2.2.get q)) ∧
      (∀ k, 0 < st'.2.1.get (outputRow * outputCols + outputCol) k ∧
        st'.2.1.get (outputRow * outputCols + outputCol) k ≤ 1) ∧
      (st'.2.2.get (outputRow * outputCols + outputCol)
          = input (outputRow * rs * cols + outputCol * cs) ∨
        st'.2.2.get (outputRow * outputCols + outputCol) = fun _ => 0) := by
  unfold estimateCell
  simp only []
  have hr : (outputRow : ℤ) * (rs : ℤ) = ((outputRow * rs : ℕ) : ℤ) := by push_cast; ring
  have hc : (outputCol : ℤ) * (cs : ℤ) = ((outputCol * cs : ℕ) : ℤ) := by push_cast; ring
  rw [hr, hc]
  have hidx : (((outputRow * rs : ℕ) : ℤ) * (cols : ℤ) + ((outputCol * cs : ℕ) : ℤ))
      = ((outputRow * rs * cols + outputCol * cs : ℕ) : ℤ) := by push_cast; ring
  have hlt := grid_index_lt hrow hcol
  have hguard : ¬ ((((outputRow * rs : ℕ) : ℤ) * (cols : ℤ) + ((outputCol * cs : ℕ) : ℤ)) < 0 ∨
      (rows : ℤ) * (cols : ℤ)
        ≤ (((outputRow * rs : ℕ) : ℤ) * (cols : ℤ) + ((outputCol * cs : ℕ) : ℤ))) := by
    rw [hidx]
    rintro (h | h)
    · exact absurd (Int.natCast_nonneg _) (not_le.mpr h)
    · have h' : rows * cols ≤ outputRow * rs * cols + outputCol * cs := by exact_mod_cast h
      exact absurd hlt (not_lt.mpr h')
  rw [if_neg hguard, hidx, Int.toNat_natCast]
  obtain ⟨acc, hacc, hnn⟩ := rounds_nonneg next input rows cols R sprays spraysCount n
    ((outputRow * rs : ℕ) : ℤ) ((outputCol * cs : ℕ) : ℤ)
    (input (outputRow * rs * cols + outputCol * cs)) hp N.toNat st.1
  rw [hacc, Option.some_bind]
  have hNpos : (0 : K) < (N : K) := by exact_mod_cast (by omega : (0 : ℤ) < N)
  rw [if_neg (ne_of_gt hNpos), Option.map_some']
  refine ⟨_, rfl, fun q hq => ?_, ?_, ?_⟩
  · simp only [Buffer.get_set, if_neg hq]
  · intro k
    simp only [Buffer.get_set, if_true, clampCell_eq]
    split_ifs with hz
    · exact ⟨zero_lt_one, le_refl 1⟩
    · have h0 : acc.2 k / (N : K) ≠ 0 := fun h => hz ⟨k, h⟩
      have h1 : 0 ≤ acc.2 k / (N : K) := div_nonneg (hnn k) (le_of_lt hNpos)
      exact ⟨lt_min (lt_of_le_of_ne h1 (Ne.symm h0)) zero_lt_one, min_le_right _ _⟩
  · simp only [Buffer.get_set, if_true, clampCell_eq]
    split_ifs with hz
    · exact Or.inr rfl
    · exact Or.inl rfl

end

section

variable {K : Type} [LinearOrderedField K]

/-! ## The estimation grid with arbitrary sprays -/

/-- The grid loops on an image whose sampled pixels are non-negative, for every random source:
both matrices are produced, every channel of every destination cell lies in `(0, 1]`, and every
resized-source cell is the sampled pixel or `(0, 0, 0)`. -/
theorem estimationGrid_spec [FloorRing K] (sqrt cos sin : K → K) (rnd : ℕ → K) (next : ℕ → ℕ)
    (source : Mat K)
    (hsize : ((source.rows * source.rows + source.cols * source.cols : ℕ) : ℤ) ≤ INT_MAX)
    (N n : ℤ) (hN : 1 ≤ N) (hNmax : 1000 * N ≤ INT_MAX) (hn : 0 ≤ n) (rs cs : ℕ) (hrs : 1 ≤ rs)
    (hcs : 1 ≤ cs)
    (hpix : ∀ i j, i < source.rows / rs → j < source.cols / cs → ∀ k,
      0 ≤ source.data (i * rs * source.cols + j * cs) k) :
    ∃ g : Mat K × Mat K,
      estimationGrid sqrt cos sin rnd next source N n (rs : ℤ) (cs : ℤ) = some g ∧
      g.1.rows = source.rows / rs ∧ g.1.cols = source.cols / cs ∧
      g.2.rows = source.rows / rs ∧ g.2.cols = source.cols / cs ∧
      ∀ i j, i < source.rows / rs → j < source.cols / cs →
        (∀ k, 0 < g.2.data (i * (source.cols / cs) + j) k ∧
          g.2.data (i * (source.cols / cs) + j) k ≤ 1) ∧
        (g.1.data (i * (source.cols / cs) + j) = source.data (i * rs * source.cols + j * cs) ∨
          g.1.data (i * (source.cols / cs) + j) = fun _ => 0) := by
  obtain ⟨rows, cols, depth, data⟩ := source
  simp only at hpix hsize ⊢
  obtain ⟨sprays, hsp⟩ := CreateSprays_some cos sin rnd (1000 * N) n (by omega) hn
  let R : ℤ := toInt (sqrt (((rows * rows + cols * cols : ℕ) : ℤ) : K) + 0.5)
  obtain ⟨sf, hsf, hP⟩ := grid_loopsM
    (fun (st : ℕ × Buffer (Vec3d K) × Buffer (Vec3d K)) q => (st.2.1.get q, st.2.2.get q))
    (rows / rs) (cols / cs)
    (fun i j st => estimateCell next data rows cols R sprays (1000 * N) N n (rs : ℤ) (cs : ℤ)
      (cols / cs) i j st)
    (fun i j (v : Vec3d K × Vec3d K) => (∀ k, 0 < v.1 k ∧ v.1 k ≤ 1) ∧
      (v.2 = data (i * rs * cols + j * cs) ∨ v.2 = fun _ => 0))
    (fun i j st hi hj => by
      obtain ⟨st', h1, h2, h3, h4⟩ := estimateCell_spec next data rows cols R sprays (1000 * N)
        N n hN rs cs (cols / cs) i j (grid_cell_lt hrs hi) (grid_cell_lt hcs hj)
        (hpix i j hi hj) st
      exact ⟨st', h1, h2, h3, h4⟩)
    (0, Buffer.fill (fun _ => 0), Buffer.fill (fun _ => 0))
  refine ⟨(⟨rows / rs, cols / cs, Depth.CV_64F, sf.2.2.get⟩,
    ⟨rows / rs, cols / cs, Depth.CV_64F, sf.2.1.get⟩), ?_, rfl, rfl, rfl, rfl,
    fun i j hi hj => hP i j hi hj⟩
  unfold estimationGrid
  simp only []
  rw [intResult_natCast _ hsize, Option.some_bind]
  have h0 : ¬ ((rs : ℤ) = 0 ∨ (cs : ℤ) = 0) := by omega
  rw [if_neg h0, tdiv_natCast, tdiv_natCast]
  have h1 : ¬ (((rows / rs : ℕ) : ℤ) < 0 ∨ ((cols / cs : ℕ) : ℤ) < 0) := by
    rintro (h | h) <;> exact absurd (Int.natCast_nonneg _) (not_le.mpr h)
  rw [if_neg h1, intResult_of_le _ (by unfold INT_MAX; omega) hNmax, Option.some_bind, hsp,
    Option.some_bind]
  simp only [Int.toNat_natCast]
  have hconv : (Mat.convertTo (⟨rows, cols, depth, data⟩ : Mat K) Depth.CV_64F).data = data := rfl
  rw [hconv]
  rw [hsf, Option.map_some']

/-- The window mean of a channel bounded by `b` is bounded by `b`. -/
theorem windowMean_le (rows cols : ℕ) (data : ℕ → Vec3d K) (k i j : ℕ) (ch : Fin 3) (b : K)
    (h : ∀ r c, r < rows → c < cols → data (r * cols + c) ch ≤ b) (hi : i < rows)
    (hj : j < cols) :
    windowMean rows cols data k i j ch ≤ b := by
  have hconst := windowMean_const rows cols (fun _ _ => b) k i j ch b (fun _ _ _ _ => rfl) hi hj
  rw [← hconst]
  unfold windowMean
  refine div_le_div_of_nonneg_right ?_ (le_of_lt (window_area_pos rows cols k i j hi hj))
  refine Finset.sum_le_sum fun r hr => Finset.sum_le_sum fun c hc => ?_
  rw [Finset.mem_Ico] at hr hc
  exact h r c (lt_of_lt_of_le hr.2 (Nat.min_le_left _ _))
    (lt_of_lt_of_le hc.2 (Nat.min_le_left _ _))

/-- The smoothing step on a grid whose destination cells lie in `(0, 1]`: it succeeds (for a
non-empty grid or a kernel size `≤ 1`) and the destination cells stay in `(0, 1]`. -/
theorem smoothGrid_spec (g : Mat K × Mat K) (kernelSize : ℤ)
    (hdims : g.1.rows = g.2.rows ∧ g.1.cols = g.2.cols)
    (h : kernelSize ≤ 1 ∨ (0 < g.2.rows ∧ 0 < g.2.cols))
    (hd : ∀ i j, i < g.2.rows → j < g.2.cols → ∀ k,
      0 < g.2.data (i * g.2.cols + j) k ∧ g.2.data (i * g.2.cols + j) k ≤ 1) :
    ∃ g' : Mat K × Mat K, smoothGrid g kernelSize = some g' ∧
      g'.1.rows = g.2.rows ∧ g'.1.cols = g.2.cols ∧
      g'.2.rows = g.2.rows ∧ g'.2.cols = g.2.cols ∧
      ∀ i j, i < g.2.rows → j < g.2.cols → ∀ k,
        0 < g'.2.data (i * g.2.cols + j) k ∧ g'.2.data (i * g.2.cols + j) k ≤ 1 := by
  unfold smoothGrid
  by_cases hk : kernelSize > 1
  · rw [if_pos hk]
    have hne : 0 < g.2.rows ∧ 0 < g.2.cols := by
      rcases h with h | h
      · omega
      · exact h
    obtain ⟨o1, ho1, hr1, hc1, _, _⟩ := Filter64F_eq g.1 kernelSize (le_of_lt hk)
      (by rw [hdims.1]; exact hne.1) (by rw [hdims.2]; exact hne.2)
    obtain ⟨o2, ho2, hr2, hc2, _, hdata⟩ := Filter64F_eq g.2 kernelSize (le_of_lt hk)
      hne.1 hne.2
    rw [ho1, Option.some_bind, ho2, Option.map_some']
    refine ⟨(o1, o2), rfl, by rw [hr1, hdims.1], by rw [hc1, hdims.2], hr2, hc2,
      fun i j hi hj k => ?_⟩
    show 0 < o2.data (i * g.2.cols + j) k ∧ o2.data (i * g.2.cols + j) k ≤ 1
    rw [hdata i j hi hj k]
    exact ⟨windowMean_pos _ _ _ _ i j k (fun r c hr hc => (hd r c hr hc k).1) hi hj,
      windowMean_le _ _ _ _ i j k 1 (fun r c hr hc => (hd r c hr hc k).2) hi hj⟩
  · rw [if_neg hk]
    exact ⟨g, rfl, hdims.1, hdims.2, rfl, rfl, hd⟩

end

section

variable {K : Type} [LinearOrderedField K]

/-- C14: for every image with non-negative channel values, every `N ≥ 1`, `n ≥ 1`,
`upperBound > 0`, steps `≥ 1`, kernel size and random source, no division of
`PerformIlluminationEstimation` up to and including `cv::divide` has a zero divisor.  The
channel maximum used as a divisor is never `0` (it is `1` where the maximum was `0`); in the
matrices that the grid loops produce every channel of every destination cell lies in `(0, 1]`;
(for a kernel size `≤ 1` or a non-empty grid) the smoothing succeeds, every channel of every
destination cell still lies in `(0, 1]`, `upperBound * destination` is strictly positive and
`cv::divide` and `cv::mean` yield the mean illumination; and the grid loops do produce the
matrices whenever the `int` expressions `rows*rows + cols*cols` and `1000 * N` do not
overflow. -/
theorem divisors_nonzero [FloorRing K] (sqrt cos sin : K → K) (rnd : ℕ → K) (next : ℕ → ℕ)
    (source : Mat K)
    (hnonneg : ∀ p, p < source.rows * source.cols → ∀ k, 0 ≤ source.data p k)
    (N n : ℤ) (hN : 1 ≤ N) (hn : 1 ≤ n) (upperBound : K) (hub : 0 < upperBound)
    (rs cs : ℕ) (hrs : 1 ≤ rs) (hcs : 1 ≤ cs) (kernelSize : ℤ) :
    (∀ currentPoint max finalPoint : Vec3d K, ∃ max' finalPoint' : Vec3d K,
      accumulate currentPoint (max, finalPoint) = some (max', finalPoint') ∧
      ∀ k, max' k ≠ 0 ∧ max' k = (if max k = 0 then 1 else max k) ∧
        finalPoint' k = finalPoint k + currentPoint k / max' k) ∧
    (∀ g : Mat K × Mat K,
      estimationGrid sqrt cos sin rnd next source N n (rs : ℤ) (cs : ℤ) = some g →
      g.2.rows = source.rows / rs ∧ g.2.cols = source.cols / cs ∧
      (∀ i j, i < source.rows / rs → j < source.cols / cs → ∀ k,
        0 < g.2.data (i * (source.cols / cs) + j) k ∧
        g.2.data (i * (source.cols / cs) + j) k ≤ 1) ∧
      (kernelSize ≤ 1 ∨ (rs ≤ source.rows ∧ cs ≤ source.cols) →
        ∃ (g' : Mat K × Mat K) (illumination : Mat K),
          smoothGrid g kernelSize = some g' ∧
          (∀ i j, i < source.rows / rs → j < source.cols / cs → ∀ k,
            0 < g'.2.data (i * (source.cols / cs) + j) k ∧
            g'.2.data (i * (source.cols / cs) + j) k ≤ 1 ∧
            0 < upperBound * g'.2.data (i * (source.cols / cs) + j) k) ∧
          divideMat g'.1 upperBound g'.2 = some illumination ∧
          meanIllumination sqrt cos sin rnd next source N n upperBound (rs : ℤ) (cs : ℤ)
            kernelSize = some (meanMat illumination))) ∧
    (((source.rows * source.rows + source.cols * source.cols : ℕ) : ℤ) ≤ INT_MAX →
      1000 * N ≤ INT_MAX →
      ∃ g, estimationGrid sqrt cos sin rnd next source N n (rs : ℤ) (cs : ℤ) = some g) := by
  refine ⟨?_, ?_, ?_⟩
  · intro cp mx fp
    refine ⟨_, _, accumulate_eq cp mx fp, fun k => ⟨?_, rfl, rfl⟩⟩
    split_ifs with h
    · exact one_ne_zero
    · exact h
  · intro g0 hg0
    have hfit : ((source.rows * source.rows + source.cols * source.cols : ℕ) : ℤ) ≤ INT_MAX ∧
        1000 * N ≤ INT_MAX := by
      by_contra hfit
      have hover : INT_MAX < ((source.rows * source.rows + source.cols * source.cols : ℕ) : ℤ) ∨
          INT_MAX < 1000 * N := by
        by_cases h1 : ((source.rows * source.rows + source.cols * source.cols : ℕ) : ℤ) ≤ INT_MAX
        · exact Or.inr (not_le.mp fun h2 => hfit ⟨h1, h2⟩)
        · exact Or.inl (not_le.mp h1)
      rw [estimationGrid_overflow sqrt cos sin rnd next source N n _ _ hover] at hg0
      exact absurd hg0 (by simp)
    obtain ⟨g, hg, hr1, hc1, hr2, hc2, hcells⟩ := estimationGrid_spec sqrt cos sin rnd next
      source hfit.1 N n hN hfit.2 (by omega) rs cs hrs hcs
      (fun i j hi hj k => hnonneg _ (sample_index_lt hrs hcs hi hj) k)
    have hgg : g0 = g := Option.some.inj (hg0.symm.trans hg)
    subst hgg
    refine ⟨hr2, hc2, fun i j hi hj k => (hcells i j hi hj).1 k, fun hgrid => ?_⟩
    have hgrid' : kernelSize ≤ 1 ∨ (0 < g0.2.rows ∧ 0 < g0.2.cols) := by
      rcases hgrid with h | h
      · exact Or.inl h
      · exact Or.inr ⟨by rw [hr2]; exact Nat.div_pos h.1 hrs,
          by rw [hc2]; exact Nat.div_pos h.2 hcs⟩
    obtain ⟨g', hg', hr1', hc1', _, _, hcells'⟩ := smoothGrid_spec g0 kernelSize
      ⟨by rw [hr1, hr2], by rw [hc1, hc2]⟩ hgrid'
      (fun i j hi hj k => by
        rw [hc2]
        rw [hr2] at hi
        rw [hc2] at hj
        exact (hcells i j hi hj).1 k)
    have hpos : ∀ i j, i < source.rows / rs → j < source.cols / cs → ∀ k,
        0 < g'.2.data (i * (source.cols / cs) + j) k ∧
        g'.2.data (i * (source.cols / cs) + j) k ≤ 1 ∧
        0 < upperBound * g'.2.data (i * (source.cols / cs) + j) k := by
      intro i j hi hj k
      have h := hcells' i j (by rw [hr2]; exact hi) (by rw [hc2]; exact hj) k
      rw [hc2] at h
      exact ⟨h.1, h.2, mul_pos hub h.1⟩
    have hok : ∀ p, p < g'.1.rows * g'.1.cols → ∀ c, upperBound * g'.2.data p c ≠ 0 := by
      intro p hp c
      rw [hr1', hc1', hr2, hc2] at hp
      obtain ⟨i, j, hi, hj, rfl⟩ := grid_index_exists hp
      exact ne_of_gt (hpos i j hi hj c).2.2
    have hdiv := divideMat_eq g'.1 upperBound g'.2
    rw [if_pos hok] at hdiv
    refine ⟨g', _, hg', hpos, hdiv, ?_⟩
    unfold meanIllumination
    rw [hg, Option.some_bind]
    show ((smoothGrid g0 kernelSize).bind fun g =>
      (divideMat g.1 upperBound g.2).map fun illumination => meanMat illumination) = _
    rw [hg', Option.some_bind, hdiv, Option.map_some']
  · intro hsize hNmax
    obtain ⟨g, hg, _⟩ := estimationGrid_spec sqrt cos sin rnd next source hsize N n hN hNmax
      (by omega) rs cs hrs hcs
      (fun i j hi hj k => hnonneg _ (sample_index_lt hrs hcs hi hj) k)
    exact ⟨g, hg⟩

theorem divisors_nonzero_witness :
    ((∀ p, p < sampleRedImage.rows * sampleRedImage.cols → ∀ k,
        0 ≤ sampleRedImage.data p k) ∧
      (1 : ℤ) ≤ 1 ∧ (1 : ℤ) ≤ 225 ∧ (0 : ℚ) < 255 ∧ 1 ≤ 10 ∧ 1 ≤ 10) ∧
    ((∀ currentPoint max finalPoint : Vec3d ℚ, ∃ max' finalPoint' : Vec3d ℚ,
      accumulate currentPoint (max, finalPoint) = some (max', finalPoint') ∧
      ∀ k, max' k ≠ 0 ∧ max' k = (if max k = 0 then 1 else max k) ∧
        finalPoint' k = finalPoint k + currentPoint k / max' k) ∧
    (∀ g : Mat ℚ × Mat ℚ,
      estimationGrid sampleSqrt sampleCos sampleSin sampleRnd sampleNext sampleRedImage 1 225
        ((10 : ℕ) : ℤ) ((10 : ℕ) : ℤ) = some g →
      g.2.rows = sampleRedImage.rows / 10 ∧ g.2.cols = sampleRedImage.cols / 10 ∧
      (∀ i j, i < sampleRedImage.rows / 10 → j < sampleRedImage.cols / 10 → ∀ k,
        0 < g.2.data (i * (sampleRedImage.cols / 10) + j) k ∧
        g.2.data (i * (sampleRedImage.cols / 10) + j) k ≤ 1) ∧
      ((5 : ℤ) ≤ 1 ∨ (10 ≤ sampleRedImage.rows ∧ 10 ≤ sampleRedImage.cols) →
        ∃ (g' : Mat ℚ × Mat ℚ) (illumination : Mat ℚ),
          smoothGrid g 5 = some g' ∧
          (∀ i j, i < sampleRedImage.rows / 10 → j < sampleRedImage.cols / 10 → ∀ k,
            0 < g'.2.data (i * (sampleRedImage.cols / 10) + j) k ∧
            g'.2.data (i * (sampleRedImage.cols / 10) + j) k ≤ 1 ∧
            0 < 255 * g'.2.data (i * (sampleRedImage.cols / 10) + j) k) ∧
          divideMat g'.1 255 g'.2 = some illumination ∧
          meanIllumination sampleSqrt sampleCos sampleSin sampleRnd sampleNext sampleRedImage
            1 225 255 ((10 : ℕ) : ℤ) ((10 : ℕ) : ℤ) 5 = some (meanMat illumination))) ∧
    (((sampleRedImage.rows * sampleRedImage.rows
        + sampleRedImage.cols * sampleRedImage.cols : ℕ) : ℤ) ≤ INT_MAX →
      (1000 : ℤ) * 1 ≤ INT_MAX →
      ∃ g, estimationGrid sampleSqrt sampleCos sampleSin sampleRnd sampleNext sampleRedImage
        1 225 ((10 : ℕ) : ℤ) ((10 : ℕ) : ℤ) = some g)) :=
  ⟨⟨fun p _ k => sampleRedImage_nonneg p k, by decide, by decide, by norm_num, by decide,
      by decide⟩,
    divisors_nonzero sampleSqrt sampleCos sampleSin sampleRnd sampleNext sampleRedImage
      (fun p _ k => sampleRedImage_nonneg p k) 1 225 (by decide) (by decide) 255 (by norm_num)
      10 10 (by decide) (by decide) 5⟩

end

section

variable {K : Type} [LinearOrderedField K]

/-! ## `PerformIlluminationEstimation` outside its preconditions -/

/-- An `int` expression that has a value has its exact value. -/
theorem intResult_eq_some {x y : ℤ} (h : intResult x = some y) : y = x := by
  unfold intResult at h
  split_ifs at h
  exact (Option.some.inj h).symm

/-- `CreateSprays` has no result for a negative number of sprays, or for a negative spray size
and a positive number of sprays: an array of negative size is allocated. -/
theorem CreateSprays_none [FloorRing K] (cos sin : K → K) (rnd : ℕ → K)
    (spraysCount spraySize : ℤ) (h : spraysCount < 0 ∨ (0 < spraysCount ∧ spraySize < 0)) :
    CreateSprays cos sin rnd spraysCount spraySize = none := by
  unfold CreateSprays
  rcases h with h | h
  · rw [if_pos h]
  · rw [if_neg (by omega), if_pos h]

/-- The grid loops are not reached when `CreateSprays` fails. -/
theorem estimationGrid_none_of_sprays [FloorRing K] (sqrt cos sin : K → K) (rnd : ℕ → K)
    (next : ℕ → ℕ) (source : Mat K) (N n rowsStep colsStep : ℤ)
    (h : CreateSprays cos sin rnd (1000 * N) n = none) :
    estimationGrid sqrt cos sin rnd next source N n rowsStep colsStep = none := by
  unfold estimationGrid
  simp only []
  cases intResult ((source.rows * source.rows + source.cols * source.cols : ℕ) : ℤ) with
  | none => rfl
  | some squares =>
    rw [Option.some_bind]
    split_ifs
    · rfl
    · rfl
    · cases hcount : intResult (1000 * N) with
      | none => rfl
      | some spraysCount =>
        rw [Option.some_bind, intResult_eq_some hcount, h]
        rfl

/-- The grid loops are not reached when a step is zero: `rows / rowsStep` or
`cols / colsStep` divides by zero. -/
theorem estimationGrid_none_of_step [FloorRing K] (sqrt cos sin : K → K) (rnd : ℕ → K)
    (next : ℕ → ℕ) (source : Mat K) (N n rowsStep colsStep : ℤ)
    (h : rowsStep = 0 ∨ colsStep = 0) :
    estimationGrid sqrt cos sin rnd next source N n rowsStep colsStep = none := by
  unfold estimationGrid
  simp only []
  cases intResult ((source.rows * source.rows + source.cols * source.cols : ℕ) : ℤ) with
  | none => rfl
  | some squares => rw [Option.some_bind, if_pos h]

end

section

variable {K : Type} [LinearOrderedField K]

/-- The estimate for an image whose pixels all equal `(v, v, v)`, `v > 0`, with a negative
upper bound and a square root that is exact on squares: the vector `(-1, -1, -1)`. -/
theorem estimate_gray_negative [FloorRing K] (sqrt cos sin : K → K) (rnd : ℕ → K)
    (next : ℕ → ℕ) (hsqrt : ∀ x, 0 ≤ x → sqrt (x * x) = x)
    (hcos : ∀ a, |cos a| ≤ 1) (hsin : ∀ a, |sin a| ≤ 1) (hrnd : ∀ t, 0 ≤ rnd t ∧ rnd t < 1)
    (source : Mat K)
    (hsize : ((source.rows * source.rows + source.cols * source.cols : ℕ) : ℤ) ≤ INT_MAX)
    (v : K) (hv : 0 < v)
    (hgray : ∀ p, p < source.rows * source.cols → ∀ c, source.data p c = v)
    (N n : ℤ) (hN : 1 ≤ N) (hNmax : 1000 * N ≤ INT_MAX) (hn : 1 ≤ n) (upperBound : K)
    (hub : upperBound < 0)
    (rs cs : ℕ) (hrs : 1 ≤ rs) (hcs : 1 ≤ cs) (hrows : rs ≤ source.rows)
    (hcols : cs ≤ source.cols) (kernelSize : ℤ) :
    PerformIlluminationEstimation sqrt cos sin rnd next source N n upperBound (rs : ℤ) (cs : ℤ)
      kernelSize = some ![-1, -1, -1, 0] := by
  unfold PerformIlluminationEstimation
  rw [meanIllumination_gray sqrt cos sin rnd next hcos hsin hrnd source hsize v hv hgray N n hN
    hNmax hn upperBound (ne_of_lt hub) rs cs hrs hcs hrows hcols kernelSize, Option.some_bind,
    normalizeIllumination_eq]
  have hq : 0 < v / -upperBound := div_pos hv (neg_pos.mpr hub)
  have hs : sqrt ((v / upperBound * (v / upperBound) + v / upperBound * (v / upperBound)
      + v / upperBound * (v / upperBound)) / 3) = v / -upperBound := by
    have : (v / upperBound * (v / upperBound) + v / upperBound * (v / upperBound)
        + v / upperBound * (v / upperBound)) / 3 = v / -upperBound * (v / -upperBound) := by
      rw [div_neg]
      ring
    rw [this, hsqrt _ (le_of_lt hq)]
  simp only [Matrix.cons_val_zero, Matrix.cons_val_one, Matrix.head_cons, Matrix.cons_val_two,
    Matrix.tail_cons]
  rw [hs, if_neg (ne_of_gt hq)]
  have hdiv : v / upperBound / (v / -upperBound) = -1 := by
    rw [div_neg, div_neg_eq_neg_div, div_self]
    rw [div_neg] at hq
    exact ne_of_lt (neg_pos.mp hq)
  congr 1
  funext i
  fin_cases i <;> simp [hdiv]

/-- C13, against the claim: called with `upperBound = -255` on a `20 x 20` image whose pixels
are all `(128, 128, 128)`, `PerformIlluminationEstimation` signals no error; it returns the
vector `(-1, -1, -1)`. -/
theorem estimate_negative_upperBound :
    (-255 : ℚ) ≤ 0 ∧
    PerformIlluminationEstimation sampleSqrt sampleCos sampleSin sampleRnd sampleNext
      (Mat.mk 20 20 Depth.CV_8U fun _ _ => (128 : ℚ)) 1 225 (-255) ((10 : ℕ) : ℤ)
      ((10 : ℕ) : ℤ) 5 = some ![-1, -1, -1, 0] :=
  ⟨by norm_num,
    estimate_gray_negative sampleSqrt sampleCos sampleSin sampleRnd sampleNext
      sampleSqrt_mul_self sampleCos_le sampleSin_le sampleRnd_mem
      (Mat.mk 20 20 Depth.CV_8U fun _ _ => (128 : ℚ)) (by decide) 128 (by norm_num)
      (fun _ _ _ => rfl) 1 225 (by decide) (by decide) (by decide) (-255) (by norm_num) 10 10
      (by decide) (by decide) (by decide) (by decide) 5⟩

/-- C13, amended: `PerformIlluminationEstimation` checks no argument and signals no
invalid-argument error of its own.  For every image, every other argument and every random
source it returns no vector when `rowsStep = 0` or `colsStep = 0` (the `int` division
`rows / rowsStep` or `cols / colsStep` has a zero divisor), when `N < 0` (with `1000 * N` not
below the smallest `int`), or when `N ≥ 1` (with `1000 * N ≤ INT_MAX`) and `n < 0`: in the last
two cases `CreateSprays` allocates an array of negative size. -/
theorem estimate_invalid_arguments [FloorRing K] (sqrt cos sin : K → K) (rnd : ℕ → K)
    (next : ℕ → ℕ) (source : Mat K) (N n : ℤ) (upperBound : K)
    (rowsStep colsStep kernelSize : ℤ)
    (h : rowsStep = 0 ∨ colsStep = 0 ∨ (N < 0 ∧ -INT_MAX - 1 ≤ 1000 * N) ∨
      (1 ≤ N ∧ 1000 * N ≤ INT_MAX ∧ n < 0)) :
    PerformIlluminationEstimation sqrt cos sin rnd next source N n upperBound rowsStep colsStep
      kernelSize = none := by
  refine (estimate_none_of_grid sqrt cos sin rnd next source N n upperBound rowsStep colsStep
    kernelSize ?_).2
  rcases h with h | h | h | h
  · exact estimationGrid_none_of_step sqrt cos sin rnd next source N n rowsStep colsStep
      (Or.inl h)
  · exact estimationGrid_none_of_step sqrt cos sin rnd next source N n rowsStep colsStep
      (Or.inr h)
  · exact estimationGrid_none_of_sprays sqrt cos sin rnd next source N n rowsStep colsStep
      (CreateSprays_none cos sin rnd (1000 * N) n (Or.inl (by omega)))
  · exact estimationGrid_none_of_sprays sqrt cos sin rnd next source N n rowsStep colsStep
      (CreateSprays_none cos sin rnd (1000 * N) n (Or.inr ⟨by omega, h.2.2⟩))

theorem estimate_invalid_arguments_witness :
    ((10 : ℤ) = 0 ∨ (10 : ℤ) = 0 ∨ ((-1 : ℤ) < 0 ∧ -INT_MAX - 1 ≤ 1000 * (-1 : ℤ)) ∨
      ((1 : ℤ) ≤ -1 ∧ 1000 * (-1 : ℤ) ≤ INT_MAX ∧ (225 : ℤ) < 0)) ∧
    PerformIlluminationEstimation sampleSqrt sampleCos sampleSin sampleRnd sampleNext
      (Mat.mk 20 20 Depth.CV_8U fun _ _ => (128 : ℚ)) (-1) 225 255 10 10 5 = none :=
  ⟨Or.inr (Or.inr (Or.inl ⟨by decide, by decide⟩)),
    estimate_invalid_arguments sampleSqrt sampleCos sampleSin sampleRnd sampleNext
      (Mat.mk 20 20 Depth.CV_8U fun _ _ => (128 : ℚ)) (-1) 225 255 10 10 5
      (Or.inr (Or.inr (Or.inl ⟨by decide, by decide⟩)))⟩

end

section

variable {K : Type} [LinearOrderedField K]

/-! ## The grid loops on an arbitrary image -/

/-- The `N` rounds of a grid cell never fail. -/
theorem rounds_some (next : ℕ → ℕ) (input : ℕ → Vec3d K) (rows cols : ℕ) (R : ℤ)
    (sprays : Buffer (Buffer Point2i)) (spraysCount n row col : ℤ) (cp : Vec3d K) (m t : ℕ) :
    ∃ acc : ℕ × Vec3d K,
      forLoopM m (fun _ (acc : ℕ × Vec3d K) =>
        (accumulate cp
          (sprayMax input rows cols R (sprays.get (uniformInt (next acc.1) 0 spraysCount).toNat)
            n row col, acc.2)).map fun r => (acc.1 + 1, r.2)) (t, fun _ => 0) = some acc := by
  obtain ⟨acc, hacc, _⟩ := forLoopM_invariant (fun _ (_ : ℕ × Vec3d K) => True) m
    (fun _ (acc : ℕ × Vec3d K) =>
      (accumulate cp
        (sprayMax input rows cols R (sprays.get (uniformInt (next acc.1) 0 spraysCount).toNat)
          n row col, acc.2)).map fun r => (acc.1 + 1, r.2)) (t, fun _ => 0) trivial
    (fun i _ acc _ => by
      simp only []
      rw [accumulate_eq, Option.map_some']
      exact ⟨_, rfl, trivial⟩)
  exact ⟨acc, hacc⟩

/-- The body of the grid loops for a cell that maps into the image, whatever the pixel values
and the sprays: it succeeds. -/
theorem estimateCell_some (next : ℕ → ℕ) (input : ℕ → Vec3d K) (rows cols : ℕ) (R : ℤ)
    (sprays : Buffer (Buffer Point2i)) (spraysCount N n : ℤ) (hN : 1 ≤ N)
    (rs cs outputCols outputRow outputCol : ℕ)
    (hrow : outputRow * rs < rows) (hcol : outputCol * cs < cols)
    (st : ℕ × Buffer (Vec3d K) × Buffer (Vec3d K)) :
    ∃ st', estimateCell next input rows cols R sprays spraysCount N n (rs : ℤ) (cs : ℤ)
        outputCols outputRow outputCol st = some st' := by
  unfold estimateCell
  simp only []
  have hr : (outputRow : ℤ) * (rs : ℤ) = ((outputRow * rs : ℕ) : ℤ) := by push_cast; ring
  have hc : (outputCol : ℤ) * (cs : ℤ) = ((outputCol * cs : ℕ) : ℤ) := by push_cast; ring
  rw [hr, hc]
  have hidx : (((outputRow * rs : ℕ) : ℤ) * (cols : ℤ) + ((outputCol * cs : ℕ) : ℤ))
      = ((outputRow * rs * cols + outputCol * cs : ℕ) : ℤ) := by push_cast; ring
  have hlt := grid_index_lt hrow hcol
  have hguard : ¬ ((((outputRow * rs : ℕ) : ℤ) * (cols : ℤ) + ((outputCol * cs : ℕ) : ℤ)) < 0 ∨
      (rows : ℤ) * (cols : ℤ)
        ≤ (((outputRow * rs : ℕ) : ℤ) * (cols : ℤ) + ((outputCol * cs : ℕ) : ℤ))) := by
    rw [hidx]
    rintro (h | h)
    · exact absurd (Int.natCast_nonneg _) (not_le.mpr h)
    · have h' : rows * cols ≤ outputRow * rs * cols + outputCol * cs := by exact_mod_cast h
      exact absurd hlt (not_lt.mpr h')
  rw [if_neg hguard, hidx, Int.toNat_natCast]
  obtain ⟨acc, hacc⟩ := rounds_some next input rows cols R sprays spraysCount n
    ((outputRow * rs : ℕ) : ℤ) ((outputCol * cs : ℕ) : ℤ)
    (input (outputRow * rs * cols + outputCol * cs)) N.toNat st.1
  rw [hacc, Option.some_bind]
  have hNpos : (0 : K) < (N : K) := by exact_mod_cast (by omega : (0 : ℤ) < N)
  rw [if_neg (ne_of_gt hNpos), Option.map_some']
  exact ⟨_, rfl⟩

/-- The grid loops produce both matrices for every image when `N ≥ 1`, `n ≥ 0`, the steps
are `≥ 1` and the `int` expressions `rows*rows + cols*cols` and `1000 * N` do not overflow:
no read is out of bounds and no division fails. -/
theorem estimationGrid_some [FloorRing K] (sqrt cos sin : K → K) (rnd : ℕ → K) (next : ℕ → ℕ)
    (source : Mat K)
    (hsize : ((source.rows * source.rows + source.cols * source.cols : ℕ) : ℤ) ≤ INT_MAX)
    (N n : ℤ) (hN : 1 ≤ N) (hNmax : 1000 * N ≤ INT_MAX) (hn : 0 ≤ n) (rowsStep colsStep : ℤ)
    (hrs : 1 ≤ rowsStep) (hcs : 1 ≤ colsStep) :
    ∃ g, estimationGrid sqrt cos sin rnd next source N n rowsStep colsStep = some g := by
  obtain ⟨rs, rfl⟩ := Int.eq_ofNat_of_zero_le (le_trans (by norm_num) hrs)
  obtain ⟨cs, rfl⟩ := Int.eq_ofNat_of_zero_le (le_trans (by norm_num) hcs)
  have hrs' : 1 ≤ rs := by exact_mod_cast hrs
  have hcs' : 1 ≤ cs := by exact_mod_cast hcs
  obtain ⟨rows, cols, depth, data⟩ := source
  simp only at hsize
  obtain ⟨sprays, hsp⟩ := CreateSprays_some cos sin rnd (1000 * N) n (by omega) hn
  let R : ℤ := toInt (sqrt (((rows * rows + cols * cols : ℕ) : ℤ) : K) + 0.5)
  obtain ⟨sf, hsf, _⟩ := grid_loopsM
    (fun (st : ℕ × Buffer (Vec3d K) × Buffer (Vec3d K)) (_ : ℕ) => ())
    (rows / rs) (cols / cs)
    (fun i j st => estimateCell next data rows cols R sprays (1000 * N) N n (rs : ℤ) (cs : ℤ)
      (cols / cs) i j st)
    (fun _ _ _ => True)
    (fun i j st hi hj => by
      obtain ⟨st', h1⟩ := estimateCell_some next data rows cols R sprays (1000 * N)
        N n hN rs cs (cols / cs) i j (grid_cell_lt hrs' hi) (grid_cell_lt hcs' hj) st
      exact ⟨st', h1, fun _ _ => rfl, trivial⟩)
    (0, Buffer.fill (fun _ => 0), Buffer.fill (fun _ => 0))
  unfold estimationGrid
  simp only []
  rw [intResult_natCast _ hsize, Option.some_bind]
  have h0 : ¬ ((rs : ℤ) = 0 ∨ (cs : ℤ) = 0) := by omega
  rw [if_neg h0, tdiv_natCast, tdiv_natCast]
  have h1 : ¬ (((rows / rs : ℕ) : ℤ) < 0 ∨ ((cols / cs : ℕ) : ℤ) < 0) := by
    rintro (h | h) <;> exact absurd (Int.natCast_nonneg _) (not_le.mpr h)
  rw [if_neg h1, intResult_of_le _ (by unfold INT_MAX; omega) hNmax, Option.some_bind, hsp,
    Option.some_bind]
  simp only [Int.toNat_natCast]
  have hconv : (Mat.convertTo (⟨rows, cols, depth, data⟩ : Mat K) Depth.CV_64F).data = data := rfl
  rw [hconv]
  rw [hsf, Option.map_some']
  exact ⟨_, rfl⟩

end

end ColorConstancy
